import Mathlib

/-!
# Sudoku grid: constraint-group topology and grid queries

A shallow embedding of `src/Sudoku.cpp`.

* A pointer `&data_[i][j]` to a cell is the coordinate pair `(i, j)`.
* A pointer `&checks_[k]` to a group is the index `k` into `checks_`
  (the vector is reserved up front, see `Sudoku.checks_reserved`).
* `unsigned` is a natural number below `2 ^ 32`; `size_t` loop counters never
  leave the range of the loop bound.
* Streams are lists of characters.
-/

set_option autoImplicit false

namespace sudoku

/-! ## Definitions -/

/-- Largest value of the C++ type `unsigned` (`std::numeric_limits<unsigned>::max()`). -/
def UINT_MAX : Nat := 2 ^ 32 - 1

/-- Modelled from the spec: the class `Square` (`Square.h`) is not among the sources.
A cell has an optional value, a candidate set and a changed flag; `max_value` is
the grid size the cell was created for (`Square{size}`). -/
structure Square where
  max_value : Nat
  value : Option Nat
  candidates : List Nat
  changed : Bool
deriving DecidableEq, Repr

instance : Inhabited Square := ⟨⟨0, none, [], false⟩⟩

namespace Square

/-- Modelled from the spec: `Square{size}`, "created unset (full candidate set)". -/
def create (size : Nat) : Square :=
  ⟨size, none, (List.range size).map (· + 1), false⟩

/-- Modelled from the spec: `isSet() -> bool`, "true iff `value` is present". -/
def IsSet (sq : Square) : Bool := sq.value.isSome

/-- Modelled from the spec: `valueOf()`, "returns the assigned digit, or an unset
sentinel (e.g. 0) if none". -/
def Value (sq : Square) : Nat := sq.value.getD 0

/-- Modelled from the spec: `hasChanged() -> bool`, the changed flag. -/
def HasChanged (sq : Square) : Bool := sq.changed

/-- Modelled from the spec: `resetChanged()`, the checkpoint reset that clears the
changed flag. -/
def ResetChanged (sq : Square) : Square := { sq with changed := false }

/-- Modelled from the spec: `assign(digit)`, "sets `value`, marks `changed = true`"
(`Square::operator=(unsigned)`). -/
def assign (sq : Square) (digit : Nat) : Square :=
  { sq with value := some digit, changed := true }

/-- Modelled from the spec: `clear()`, "unsets `value`, restores full candidate set,
marks `changed = true`" (`Square::Reset`). -/
def Reset (sq : Square) : Square :=
  { sq with value := none, candidates := (List.range sq.max_value).map (· + 1), changed := true }

end Square

/-- The enum `SudokuTypes`. -/
inductive SudokuTypes where
  | BASIC
  | DIAGONAL
deriving DecidableEq, Repr

/-- The type `SudokuDataType`, `std::vector<std::vector<Square>>`. -/
abbrev SudokuDataType := List (List Square)

/-- The type `SudokuBlockType`, `std::vector<Square *>`: cell pointers are coordinates. -/
abbrev SudokuBlockType := List (Nat × Nat)

/-- Element `m[i][j]` of a vector of vectors (`dflt` outside the bounds, where the
C++ access is undefined). -/
def at2 {α : Type} (m : List (List α)) (i j : Nat) (dflt : α) : α :=
  (m.getD i []).getD j dflt

/-- In-place update `m[i][j] = f(m[i][j])` of a vector of vectors. -/
def modify2 {α : Type} (f : α → α) (i j : Nat) (m : List (List α)) : List (List α) :=
  List.modify (fun row => List.modify f j row) i m

/-- The half-open loop range `for (x = lo; x < hi; x++)`. -/
def loopRange (lo hi : Nat) : List Nat := (List.range (hi - lo)).map (lo + ·)

/-- A vector of vectors that is `n` by `n`. -/
def Dims {α : Type} (n : Nat) (m : List (List α)) : Prop :=
  m.length = n ∧ ∀ i, i < n → (m.getD i []).length = n

/-- Modelled from the spec: the class `BlockChecker` is not among the sources. A group
is "an ordered sequence of N non-owning references to Cells". -/
structure BlockChecker where
  elems_ : SudokuBlockType
deriving DecidableEq, Repr

/-- Modelled from the spec: `BlockChecker::HasConflict` is not among the sources;
"true iff two or more of its N cells are set to the same digit ... unset cells never
conflict": the values of the set cells, taken position by position, hold a duplicate. -/
def BlockChecker.HasConflict (data : SudokuDataType) (b : BlockChecker) : Bool :=
  !decide ((b.elems_.filterMap (fun c => (at2 data c.1 c.2 default).value)).Nodup)

/-- The class `Sudoku`: its data members, with the capacity reserved for `checks_`. -/
structure Sudoku where
  data_ : SudokuDataType
  block_mapping_ : List (List (List Nat))
  checks_ : List BlockChecker
  checks_reserved : Nat
  row_checks_ : List Nat
  col_checks_ : List Nat
  size_ : Nat
deriving DecidableEq, Repr

namespace Sudoku

/-- The accessor `Size()`. -/
def Size (s : Sudoku) : Nat := s.size_

/-- The cell `data_[i][j]`. -/
def cell (s : Sudoku) (i j : Nat) : Square := at2 s.data_ i j default

/-- The list `block_mapping_[i][j]`. -/
def mapping (s : Sudoku) (i j : Nat) : List Nat := at2 s.block_mapping_ i j []

/-- The statement `block_mapping_[i][j].push_back(&checks_[g])`. -/
def push_mapping (bm : List (List (List Nat))) (i j g : Nat) : List (List (List Nat)) :=
  modify2 (fun l => l ++ [g]) i j bm

/-- The table `blocksizes = {{9, 3}, {16, 4}}` read with `operator[]`, which yields
a value-initialised `0` for a missing key. -/
def blocksizes (size : Nat) : Nat :=
  if size = 9 then 3 else if size = 16 then 4 else 0

/-- The `switch` at the head of `SetupCheckers`: `checks_.reserve(...)` in `unsigned`
arithmetic. -/
def reserveChecks (s : Sudoku) (size : Nat) (type : SudokuTypes) : Sudoku :=
  match type with
  | .BASIC => { s with checks_reserved := max s.checks_reserved ((3 * size) % 2 ^ 32) }
  | .DIAGONAL => { s with checks_reserved := max s.checks_reserved ((3 * size + 2) % 2 ^ 32) }

/-- Body of the first loop of `SetupCheckers` (lines 45-53): the row group `i`. -/
def setupRow (size : Nat) (s : Sudoku) (i : Nat) : Sudoku :=
  let row : SudokuBlockType := (List.range size).foldl (fun row j => row ++ [(i, j)]) []
  let checks := s.checks_ ++ [⟨row⟩]
  let bm := (List.range size).foldl
    (fun bm j => push_mapping bm i j (checks.length - 1)) s.block_mapping_
  { s with checks_ := checks, block_mapping_ := bm,
           row_checks_ := s.row_checks_ ++ [checks.length - 1] }

/-- Body of the second loop of `SetupCheckers` (lines 57-65): the column group `j`. -/
def setupCol (size : Nat) (s : Sudoku) (j : Nat) : Sudoku :=
  let column : SudokuBlockType := (List.range size).foldl (fun col i => col ++ [(i, j)]) []
  let checks := s.checks_ ++ [⟨column⟩]
  let bm := (List.range size).foldl
    (fun bm i => push_mapping bm i j (checks.length - 1)) s.block_mapping_
  { s with checks_ := checks, block_mapping_ := bm,
           col_checks_ := s.col_checks_ ++ [checks.length - 1] }

/-- Body of the block loops of `SetupCheckers` (lines 72-83): the block group `(i, j)`. -/
def setupBlock (bsize : Nat) (i : Nat) (s : Sudoku) (j : Nat) : Sudoku :=
  let block : SudokuBlockType := (loopRange (i * bsize) ((i + 1) * bsize)).foldl
    (fun block x => (loopRange (j * bsize) ((j + 1) * bsize)).foldl
      (fun block y => block ++ [(x, y)]) block) []
  let checks := s.checks_ ++ [⟨block⟩]
  let bm := (loopRange (i * bsize) ((i + 1) * bsize)).foldl
    (fun bm x => (loopRange (j * bsize) ((j + 1) * bsize)).foldl
      (fun bm y => push_mapping bm x y (checks.length - 1)) bm) s.block_mapping_
  { s with checks_ := checks, block_mapping_ := bm }

/-- The diagonal part of `SetupCheckers` (lines 90-100). -/
def setupDiagonals (size : Nat) (s : Sudoku) : Sudoku :=
  let d : SudokuBlockType × SudokuBlockType := (List.range size).foldl
    (fun d i => (d.1 ++ [(i, i)], d.2 ++ [(i, size - 1 - i)])) ([], [])
  let checks := (s.checks_ ++ [⟨d.1⟩]) ++ [⟨d.2⟩]
  let bm := (List.range size).foldl
    (fun bm i => push_mapping (push_mapping bm i i (checks.length - 2))
      i (size - 1 - i) (checks.length - 1)) s.block_mapping_
  { s with checks_ := checks, block_mapping_ := bm }

/-- The method `Sudoku::SetupCheckers(size, type)`. -/
def SetupCheckers (s : Sudoku) (size : Nat) (type : SudokuTypes) : Sudoku :=
  let s := reserveChecks s size type
  let s := (List.range size).foldl (setupRow size) s
  let s := (List.range size).foldl (setupCol size) s
  let bsize := blocksizes size
  let s := (List.range bsize).foldl
    (fun s i => (List.range bsize).foldl (setupBlock bsize i) s) s
  match type with
  | .BASIC => s
  | .DIAGONAL => setupDiagonals size s

/-- The member initialisers of both constructors: the object on which `SetupCheckers`
is called, with `n` by `n` empty membership lists and no group yet. -/
def init (data : SudokuDataType) (n size : Nat) : Sudoku :=
  { data_ := data,
    block_mapping_ := List.replicate n (List.replicate n []),
    checks_ := [], checks_reserved := 0, row_checks_ := [], col_checks_ := [],
    size_ := size }

/-- The body shared by both constructors for a grid of dimension `size` over the cells
`data`: the member initialisers, then `SetupCheckers(size, type)`. -/
def built (data : SudokuDataType) (size : Nat) (type : SudokuTypes) : Sudoku :=
  SetupCheckers (init data size size) size type

/-- The constructor `Sudoku(unsigned size, SudokuTypes type)`. -/
def ofSize (size : Nat) (type : SudokuTypes) : Sudoku :=
  SetupCheckers (init (List.replicate size (List.replicate size (Square.create size))) size size)
    size type

/-- The constructor `Sudoku(SudokuDataType data, SudokuTypes type)`; `size_` is
`static_cast<unsigned>(data_.size())`. -/
def ofData (data : SudokuDataType) (type : SudokuTypes) : Sudoku :=
  SetupCheckers (init data data.length (data.length % 2 ^ 32)) (data.length % 2 ^ 32) type

/-- The grid `s` after its cells have been overwritten by `data` (assignments to
`puzzle[i][j]` change `data_` only). -/
def withData (s : Sudoku) (data : SudokuDataType) : Sudoku := { s with data_ := data }

/-- The method `Sudoku::HasConflict()`. -/
def HasConflict (s : Sudoku) : Bool :=
  s.checks_.any (fun check => check.HasConflict s.data_)

/-- The method `Sudoku::HasChange()`. -/
def HasChange (s : Sudoku) : Bool :=
  (List.range s.Size).any (fun i =>
    (List.range s.Size).any (fun j => (s.cell i j).HasChanged))

/-- The method `Sudoku::ResetChange()`. -/
def ResetChange (s : Sudoku) : Sudoku :=
  let data := (List.range s.Size).foldl
    (fun d i => (List.range s.Size).foldl
      (fun d j => modify2 Square.ResetChanged i j d) d) s.data_
  { s with data_ := data }

/-- The method `Sudoku::ChangedBlocks()`; the `unordered_set` is a duplicate-free list. -/
def ChangedBlocks (s : Sudoku) : List Nat :=
  (List.range s.Size).foldl
    (fun result i => (List.range s.Size).foldl
      (fun result j =>
        if (s.cell i j).HasChanged then
          (s.mapping i j).foldl (fun result b => result.insert b) result
        else result) result) []

/-- The method `Sudoku::FirstUnset()`. -/
def FirstUnset (s : Sudoku) : Nat × Nat :=
  ((List.range s.Size).findSome? (fun i =>
    (List.range s.Size).findSome? (fun j =>
      if !(s.cell i j).IsSet then some (i, j) else none))).getD (UINT_MAX, UINT_MAX)

/-- The method `Sudoku::IsSet()`. -/
def IsSet (s : Sudoku) : Bool :=
  (List.range s.Size).all (fun i =>
    (List.range s.Size).all (fun j => (s.cell i j).IsSet))

end Sudoku

/-! ### Closed forms and relations used to state the results

These are not translations of source code: they name the lists of cells and of group
indices that the loops of `SetupCheckers` are proved to produce. -/

/-- The table `bm2` is `bm` with `f i j` appended to the list of every cell `(i, j)`. -/
def BMExt (n : Nat) (bm bm2 : List (List (List Nat))) (f : Nat → Nat → List Nat) : Prop :=
  Dims n bm2 ∧ ∀ i j, i < n → j < n → at2 bm2 i j [] = at2 bm i j [] ++ f i j

/-- Cells of row `i`, in column order. -/
def rowCells (size i : Nat) : SudokuBlockType := (List.range size).map (fun j => (i, j))

/-- Cells of column `j`, in row order. -/
def colCells (size j : Nat) : SudokuBlockType := (List.range size).map (fun i => (i, j))

/-- Cells of the block `(i, j)` of side `b`, row-major. -/
def blockCells (b i j : Nat) : SudokuBlockType :=
  (loopRange (i * b) ((i + 1) * b)).flatMap (fun x =>
    (loopRange (j * b) ((j + 1) * b)).map (fun y => (x, y)))

/-- Cells of the main diagonal. -/
def diagCells (size : Nat) : SudokuBlockType := (List.range size).map (fun i => (i, i))

/-- Cells of the anti-diagonal. -/
def antiCells (size : Nat) : SudokuBlockType :=
  (List.range size).map (fun i => (i, size - 1 - i))

/-- The block groups of side `b`, in creation order. -/
def blockGroups (b : Nat) : List BlockChecker :=
  (List.range b).flatMap (fun i => (List.range b).flatMap (fun j => [⟨blockCells b i j⟩]))

/-- The diagonal groups of a variant, in creation order. -/
def diagGroups (size : Nat) (type : SudokuTypes) : List BlockChecker :=
  match type with
  | .BASIC => []
  | .DIAGONAL => [⟨diagCells size⟩, ⟨antiCells size⟩]

/-- All groups of a grid, in creation order: rows, columns, blocks, diagonals. -/
def allGroups (size : Nat) (type : SudokuTypes) : List BlockChecker :=
  (List.range size).map (fun i => ⟨rowCells size i⟩) ++
  (List.range size).map (fun j => ⟨colCells size j⟩) ++
  blockGroups (Sudoku.blocksizes size) ++ diagGroups size type

/-- Group indices appended to the membership list of cell `(i, j)` by the diagonal part,
the first diagonal group having index `g`. -/
def diagMembership (size : Nat) (type : SudokuTypes) (g i j : Nat) : List Nat :=
  match type with
  | .BASIC => []
  | .DIAGONAL => (if i < size ∧ i = j then [g] else []) ++
      (if i < size ∧ j = size - 1 - i then [g + 1] else [])

/-- Group indices appended to the membership list of cell `(i, j)` when the first new
group has index `g`. -/
def membership (size : Nat) (type : SudokuTypes) (g i j : Nat) : List Nat :=
  (if i < size ∧ j < size then [g + i] else []) ++
  (if i < size ∧ j < size then [g + size + j] else []) ++
  (if i < Sudoku.blocksizes size * Sudoku.blocksizes size ∧
      j < Sudoku.blocksizes size * Sudoku.blocksizes size then
    [g + 2 * size + Sudoku.blocksizes size * (i / Sudoku.blocksizes size)
      + j / Sudoku.blocksizes size] else []) ++
  diagMembership size type
    (g + 2 * size + Sudoku.blocksizes size * Sudoku.blocksizes size) i j

/-- State `s2` is `s` with the groups `cs` appended to `checks_` and `f i j` appended to
the membership list of every cell `(i, j)`; the cells and the size are untouched. -/
def Ext (n : Nat) (s s2 : Sudoku) (cs : List BlockChecker) (f : Nat → Nat → List Nat) : Prop :=
  s2.checks_ = s.checks_ ++ cs ∧ s2.data_ = s.data_ ∧ s2.size_ = s.size_ ∧
    BMExt n s.block_mapping_ s2.block_mapping_ f

/-- A 9 by 9 assignment with the digit 5 in cells `(0, 0)` and `(0, 1)` and every other
cell unset. -/
def exampleRowClash : SudokuDataType :=
  ((Square.create 9).assign 5 :: (Square.create 9).assign 5 ::
      List.replicate 7 (Square.create 9)) ::
    List.replicate 8 (List.replicate 9 (Square.create 9))

/-- A completed 9 by 9 Sudoku: cell `(i, j)` holds `(3 * (i % 3) + i / 3 + j) % 9 + 1`. -/
def exampleSolved : SudokuDataType :=
  (List.range 9).map (fun i => (List.range 9).map (fun j =>
    (Square.create 9).assign ((3 * (i % 3) + i / 3 + j) % 9 + 1)))

/-- The completed grid `exampleSolved` with cell `(0, 0)` cleared. -/
def exampleFirstUnset : SudokuDataType := modify2 Square.Reset 0 0 exampleSolved

/-! ### Text input and output -/

/-- The predicate `std::isspace` of the "C" locale. -/
def isspace (c : Char) : Bool :=
  c = ' ' || c = '\t' || c = '\n' || c = '\x0b' || c = '\x0c' || c = '\r'

/-- A field of width 2 (`std::setw(2)`, right-adjusted, fill character `' '`). -/
def setw2 (field : List Char) : List Char :=
  List.replicate (2 - field.length) ' ' ++ field

/-- The field `operator<<` writes for a cell of value `v` (lines 198-202): the letter
`static_cast<char>(v - 10 + 'A')` when `v >= 10`, the decimal number otherwise. -/
def outField (v : Nat) : List Char :=
  if v ≥ 10 then setw2 [Char.ofNat (((v - 10 + 'A'.toNat) % 2 ^ 32) % 256)]
  else setw2 (Nat.toDigits 10 v)

/-- The function `operator<<(std::ostream &, const Sudoku &)`; the stream is the list of
characters written so far. -/
def operator_out (s : List Char) (puzzle : Sudoku) : List Char :=
  (List.range puzzle.Size).foldl (fun s i =>
    (List.range puzzle.Size).foldl (fun s j => s ++ outField (puzzle.cell i j).Value) s
      ++ ['\n']) s

/-- The extraction `s >> c` of one `char`: skips white space, then takes one character.
At the end of the stream nothing is stored and `c` keeps its indeterminate value `junk`. -/
def extractChar (junk : Char) (s : List Char) : Char × List Char :=
  match s.dropWhile isspace with
  | [] => (junk, [])
  | c :: rest => (c, rest)

/-- Body of the loops of `operator>>` (lines 234-243) for the cell `(i, j)`, on the
remaining input and the cells of the puzzle. `isalpha` guarantees `c >= 'A'`. -/
def readCell (junk : Char) (i j : Nat) (st : List Char × SudokuDataType) :
    List Char × SudokuDataType :=
  let r := extractChar junk st.1
  if r.1 = '*' ∨ r.1 = '0' then (r.2, modify2 Square.Reset i j st.2)
  else
    let d1 := if r.1.isAlpha
      then modify2 (fun sq => sq.assign ((r.1.toNat - 'A'.toNat) + 10)) i j st.2 else st.2
    let d2 := if r.1.isDigit
      then modify2 (fun sq => sq.assign (r.1.toNat - '0'.toNat)) i j d1 else d1
    (r.2, d2)

/-- The function `operator>>(std::istream &, Sudoku &)`: the remaining input and the
puzzle after reading. -/
def operator_in (junk : Char) (s : List Char) (puzzle : Sudoku) : List Char × Sudoku :=
  let r := (List.range puzzle.Size).foldl (fun st i =>
    (List.range puzzle.Size).foldl (fun st j => readCell junk i j st) st) (s, puzzle.data_)
  (r.1, { puzzle with data_ := r.2 })

/-- The character that encodes the value `v` in the text format. -/
def fieldChar (v : Nat) : Char :=
  if v ≥ 10 then Char.ofNat (((v - 10 + 'A'.toNat) % 2 ^ 32) % 256) else Nat.digitChar v

/-- A token `c` that `operator>>` reads as the value `v`. -/
def GoodTok (c : Char) (v : Nat) : Prop :=
  c ≠ '*' ∧ c ≠ '0' ∧ isspace c = false ∧
    ((c.isAlpha = true ∧ c.isDigit = false ∧ (c.toNat - 'A'.toNat) + 10 = v) ∨
     (c.isAlpha = false ∧ c.isDigit = true ∧ c.toNat - '0'.toNat = v))

/-! ### The swordfish technique -/

/-- Modelled from the spec: `Square::IsPossible` is not among the sources; a cell carries
`digit` as a live possibility when it is an "unset cell whose candidate set contains
`digit`". -/
def Square.IsPossible (sq : Square) (digit : Nat) : Bool :=
  !sq.IsSet && decide (digit ∈ sq.candidates)

/-- Modelled from the spec: the candidate removal used by `prune` is not among the sources;
"remove `digit` from that cell's candidate set (no-op if the cell is already set or `digit`
already absent)", `changed` being "set whenever `value` or `candidates` is mutated". -/
def Square.Remove (sq : Square) (digit : Nat) : Square :=
  if sq.IsSet = true ∨ digit ∉ sq.candidates then sq
  else { sq with candidates := sq.candidates.filter (fun e => e ≠ digit), changed := true }

/-- Modelled from the spec: `BlockChecker::NumberPositions` is not among the sources; "for
each cell in this group still carrying `digit` as a live possibility ... insert that cell's
0-based positional index within the group into `outPositions`" (a set: no index twice). -/
def BlockChecker.NumberPositions (data : SudokuDataType) (b : BlockChecker) (number : Nat)
    (positions : List Nat) : List Nat :=
  (List.range b.elems_.length).foldl (fun out p =>
    if (at2 data (b.elems_.getD p (0, 0)).1 (b.elems_.getD p (0, 0)).2 default).IsPossible number
    then out.insert p else out) positions

/-- Modelled from the spec: `BlockChecker::Prune` is not among the sources; "for every
positional index in this group NOT present in `keep`, remove `digit` from that cell's
candidate set". -/
def BlockChecker.Prune (data : SudokuDataType) (b : BlockChecker) (number : Nat)
    (keep : List Nat) : SudokuDataType :=
  (List.range b.elems_.length).foldl (fun d p =>
    if p ∈ keep then d
    else modify2 (fun sq => sq.Remove number)
      (b.elems_.getD p (0, 0)).1 (b.elems_.getD p (0, 0)).2 d) data

/-- The accessor `GetColBlocks()`: the groups that `col_checks_` points to. -/
def Sudoku.GetColBlocks (s : Sudoku) : List BlockChecker :=
  s.col_checks_.map (fun g => s.checks_.getD g ⟨[]⟩)

/-- The accessor `GetRowBlocks()`: the groups that `row_checks_` points to. -/
def Sudoku.GetRowBlocks (s : Sudoku) : List BlockChecker :=
  s.row_checks_.map (fun g => s.checks_.getD g ⟨[]⟩)

/-- Modelled from the spec: the recursion of `recursive_swordfish_find`, which is not among
the sources. With `remaining` groups still to choose among the indices from `start` on,
`chosen` the indices chosen so far and `positions` the union of their positions: "enumerate
every combination ... in ascending index order", "abort / skip a combination as soon as the
union exceeds `comboSize`", and "if, after considering all member groups, the union's size
is exactly `comboSize`, record the combination". -/
def swordfishSearch (data : SudokuDataType) (blocks : List BlockChecker)
    (comboSize number : Nat) :
    (remaining : Nat) → (start : Nat) → (chosen positions : List Nat) → List (List Nat)
  | 0, _, chosen, positions => if positions.length = comboSize then [chosen] else []
  | remaining + 1, start, chosen, positions =>
    (loopRange start blocks.length).flatMap (fun i =>
      if ((blocks.getD i ⟨[]⟩).NumberPositions data number positions).length > comboSize
      then []
      else swordfishSearch data blocks comboSize number remaining (i + 1) (chosen ++ [i])
        ((blocks.getD i ⟨[]⟩).NumberPositions data number positions))

/-- Modelled from the spec: `recursive_swordfish_find(result, blocks, size, number)` is not
among the sources; the hits it records in the empty `result`. -/
def recursive_swordfish_find (data : SudokuDataType) (blocks : List BlockChecker)
    (size number : Nat) : List (List Nat) :=
  swordfishSearch data blocks size number size 0 [] []

/-- Body of the loops `for (const auto &v : result)` of `SolveSwordFish` (lines 167-176 and
181-192): the positions of `number` in the groups `v` of `blocks`, then `Prune(number, v)`
on each of the orthogonal groups at these positions. -/
def applyHit (blocks ortho : List BlockChecker) (number : Nat) (data : SudokuDataType)
    (v : List Nat) : SudokuDataType :=
  let rows := v.foldl
    (fun rows x => (blocks.getD x ⟨[]⟩).NumberPositions data number rows) []
  rows.foldl (fun d r => (ortho.getD r ⟨[]⟩).Prune d number v) data

/-- One half of `SolveSwordFish`: the search over `blocks` and the processing of its
results (lines 164-176 with the column groups, lines 178-192 with the row groups). -/
def swordfishPass (blocks ortho : List BlockChecker) (size number : Nat)
    (data : SudokuDataType) : SudokuDataType :=
  (recursive_swordfish_find data blocks size number).foldl (applyHit blocks ortho number) data

/-- The method `Sudoku::SolveSwordFish(size, number)`: the column pass, then the row pass. -/
def Sudoku.SolveSwordFish (s : Sudoku) (size number : Nat) : Sudoku :=
  s.withData (swordfishPass s.GetRowBlocks s.GetColBlocks size number
    (swordfishPass s.GetColBlocks s.GetRowBlocks size number s.data_))

/-- The cell `(i, j)` of `data` is unset and still has `number` among its candidates. -/
def live (data : SudokuDataType) (number i j : Nat) : Bool :=
  (at2 data i j default).IsPossible number

/-- The `remaining`-element combinations of the indices `start .. n - 1`, each in ascending
order, in lexicographic order. -/
def combos (n : Nat) : (remaining : Nat) → (start : Nat) → List (List Nat)
  | 0, _ => [[]]
  | remaining + 1, start =>
    (loopRange start n).flatMap (fun i => (combos n remaining (i + 1)).map (fun w => i :: w))

/-- A 9 by 9 grid of unset cells in which the digit 1 is a candidate only of the cells of
rows 0 and 2 in the columns 1 and 3, and of every cell of the columns 5 to 8. -/
def exampleFish : SudokuDataType :=
  (List.range 9).map (fun i => (List.range 9).map (fun j =>
    if ((i = 0 ∨ i = 2) ∧ (j = 1 ∨ j = 3)) ∨ 5 ≤ j
    then Square.create 9 else (Square.create 9).Remove 1))

/-- The cells `d2` are the cells `d` of an `n` by `n` grid after `number` has been removed
from the candidates of some of them. -/
def Pruned (n number : Nat) (d d2 : SudokuDataType) : Prop :=
  Dims n d2 ∧ ∀ i j, i < n → j < n →
    at2 d2 i j default = at2 d i j default ∨
      at2 d2 i j default = (at2 d i j default).Remove number

/-- The column groups of a grid of dimension `n`, in column order. -/
def colGroups (n : Nat) : List BlockChecker := (List.range n).map (fun j => ⟨colCells n j⟩)

/-- The row groups of a grid of dimension `n`, in row order. -/
def rowGroups (n : Nat) : List BlockChecker := (List.range n).map (fun i => ⟨rowCells n i⟩)

/-- The union of the positions of `number` in the column groups `v`, as the application
loop of `SolveSwordFish` computes it (lines 169-172), starting from the set `out`. -/
def hitRows (n : Nat) (data : SudokuDataType) (number : Nat) (v out : List Nat) : List Nat :=
  v.foldl (fun rows x => ((colGroups n).getD x ⟨[]⟩).NumberPositions data number rows) out

/-- The union of the positions of `number` over the groups `w` of `blocks`, accumulated
from `positions` as the search does. -/
def unionFrom (data : SudokuDataType) (blocks : List BlockChecker) (number : Nat)
    (positions w : List Nat) : List Nat :=
  w.foldl (fun u i => (blocks.getD i ⟨[]⟩).NumberPositions data number u) positions

/-- A 9 by 9 grid of unset cells in which the digit 1 is a candidate of the cells of the
columns 0 to 2 in the rows 0 to 2 only, and of every cell of the columns 3 to 8. -/
def exampleSwordfish : SudokuDataType :=
  (List.range 9).map (fun i => (List.range 9).map (fun j =>
    if (i ≤ 2 ∧ j ≤ 2) ∨ 3 ≤ j then Square.create 9 else (Square.create 9).Remove 1))

/-- The `size` by `size` table `block_mapping_`, which both constructors allocate before
they call `SetupCheckers` (lines 12-13 and 20-22), fits in a 64-bit address space: each of
its `size * size` entries is a `std::vector<BlockChecker *>` object of three pointers,
24 bytes. -/
def Allocatable (size : Nat) : Prop := 24 * (size * size) < 2 ^ 64

instance (size : Nat) : Decidable (Allocatable size) := Nat.decLt _ _


/-! ## Vectors of vectors -/

theorem Dims_modify2 {α : Type} {n : Nat} {m : List (List α)} (hm : Dims n m)
    (f : α → α) (i j : Nat) : Dims n (modify2 f i j m) := by
  refine ⟨by simp [modify2, hm.1], fun k hk => ?_⟩
  have h1 : k < m.length := by rw [hm.1]; exact hk
  have hr := hm.2 k hk
  rw [List.getD_eq_getElem?_getD] at hr ⊢
  unfold modify2
  rw [List.getElem?_modify]
  rw [List.getElem?_eq_getElem h1] at hr ⊢
  simp only [Option.getD_some, Option.map_eq_map, Option.map_some'] at hr ⊢
  split
  · simp [hr]
  · exact hr

theorem at2_modify2 {α : Type} {n : Nat} {m : List (List α)} (hm : Dims n m)
    (f : α → α) (i j : Nat) {i' j' : Nat} (hi : i' < n) (hj : j' < n) (d : α) :
    at2 (modify2 f i j m) i' j' d =
      if i = i' ∧ j = j' then f (at2 m i' j' d) else at2 m i' j' d := by
  have h1 : i' < m.length := by rw [hm.1]; exact hi
  have hr := hm.2 i' hi
  rw [List.getD_eq_getElem?_getD, List.getElem?_eq_getElem h1] at hr
  simp only [Option.getD_some] at hr
  have h2 : j' < (m[i']).length := by omega
  unfold at2 modify2
  simp only [List.getD_eq_getElem?_getD, List.getElem?_modify, List.getElem?_eq_getElem h1,
    Option.map_eq_map, Option.map_some', Option.getD_some]
  by_cases hii : i = i'
  · simp only [hii, true_and, if_true, List.getElem?_modify, List.getElem?_eq_getElem h2,
      Option.map_eq_map, Option.map_some', Option.getD_some]
  · simp [hii]

theorem Dims_replicate {α : Type} (n : Nat) (a : α) :
    Dims n (List.replicate n (List.replicate n a)) := by
  refine ⟨by simp, fun i hi => ?_⟩
  simp [List.getD_eq_getElem?_getD, List.getElem?_replicate, hi]

theorem at2_replicate {α : Type} (n : Nat) (a d : α) {i j : Nat} (hi : i < n) (hj : j < n) :
    at2 (List.replicate n (List.replicate n a)) i j d = a := by
  simp [at2, List.getD_eq_getElem?_getD, List.getElem?_replicate, hi, hj]

/-! ## Loops that only append to the membership lists -/

theorem BMExt_push {n : Nat} {bm : List (List (List Nat))} (hm : Dims n bm) (i j g : Nat) :
    BMExt n bm (Sudoku.push_mapping bm i j g)
      (fun x y => if i = x ∧ j = y then [g] else []) := by
  refine ⟨Dims_modify2 hm _ _ _, fun x y hx hy => ?_⟩
  unfold Sudoku.push_mapping
  rw [at2_modify2 hm _ _ _ hx hy]
  by_cases h : i = x ∧ j = y
  · rw [if_pos h]; simp only [if_pos h]
  · rw [if_neg h]; simp only [if_neg h, List.append_nil]

theorem BMExt_trans {n : Nat} {bm bm2 bm3 : List (List (List Nat))}
    {f g : Nat → Nat → List Nat} (h1 : BMExt n bm bm2 f) (h2 : BMExt n bm2 bm3 g) :
    BMExt n bm bm3 (fun i j => f i j ++ g i j) := by
  refine ⟨h2.1, fun i j hi hj => ?_⟩
  rw [h2.2 i j hi hj, h1.2 i j hi hj, List.append_assoc]

theorem BMExt_congr {n : Nat} {bm bm2 : List (List (List Nat))}
    {f g : Nat → Nat → List Nat} (h1 : BMExt n bm bm2 f)
    (hfg : ∀ i j, i < n → j < n → f i j = g i j) : BMExt n bm bm2 g :=
  ⟨h1.1, fun i j hi hj => by rw [h1.2 i j hi hj, hfg i j hi hj]⟩

theorem BMExt_foldl {n : Nat} {β : Type} (step : List (List (List Nat)) → β → List (List (List Nat)))
    (f : β → Nat → Nat → List Nat)
    (hstep : ∀ bm k, Dims n bm → BMExt n bm (step bm k) (f k))
    (xs : List β) (bm : List (List (List Nat))) (hm : Dims n bm) :
    BMExt n bm (xs.foldl step bm) (fun i j => xs.flatMap (fun k => f k i j)) := by
  induction xs generalizing bm with
  | nil => exact ⟨hm, fun i j _ _ => by simp⟩
  | cons k ks ih =>
    have h1 := hstep bm k hm
    have h2 := ih (step bm k) h1.1
    simpa [List.foldl_cons, List.flatMap_cons] using BMExt_trans h1 h2

theorem flatMap_ite_eq {β : Type} (xs : List Nat) (hx : xs.Nodup) (a : Nat) (h : Nat → List β) :
    xs.flatMap (fun k => if k = a then h k else []) = if a ∈ xs then h a else [] := by
  induction xs with
  | nil => simp
  | cons k ks ih =>
    rw [List.nodup_cons] at hx
    rw [List.flatMap_cons, ih hx.2]
    by_cases hk : k = a
    · subst hk
      simp [hx.1]
    · have : ¬ a = k := fun h => hk h.symm
      simp [hk, this]

theorem mem_loopRange {lo hi x : Nat} : x ∈ loopRange lo hi ↔ lo ≤ x ∧ x < hi := by
  unfold loopRange
  simp only [List.mem_map, List.mem_range]
  constructor
  · rintro ⟨k, hk, rfl⟩; omega
  · rintro ⟨h1, h2⟩; exact ⟨x - lo, by omega, by omega⟩

theorem nodup_loopRange (lo hi : Nat) : (loopRange lo hi).Nodup := by
  unfold loopRange
  exact (List.nodup_range _).map (fun a b h => by simpa using h)

/-- The loop `for x in xs: for y in ys: block_mapping_[x][y].push_back(g)`. -/
theorem BMExt_rect {n : Nat} (xs ys : List Nat) (hx : xs.Nodup) (hy : ys.Nodup) (g : Nat)
    (bm : List (List (List Nat))) (hm : Dims n bm) :
    BMExt n bm
      (xs.foldl (fun bm x => ys.foldl (fun bm y => Sudoku.push_mapping bm x y g) bm) bm)
      (fun i j => if i ∈ xs ∧ j ∈ ys then [g] else []) := by
  refine BMExt_congr (BMExt_foldl _ (fun x i j => if x = i ∧ j ∈ ys then [g] else []) ?_ xs bm hm) ?_
  · intro bm x hbm
    refine BMExt_congr (BMExt_foldl _ (fun y i j => if x = i ∧ y = j then [g] else [])
      (fun bm y hbm => BMExt_push hbm x y g) ys bm hbm) ?_
    intro i j _ _
    by_cases hxi : x = i
    · have := flatMap_ite_eq ys hy j (fun _ => [g])
      simpa [hxi] using this
    · simp [hxi]
  · intro i j _ _
    have := flatMap_ite_eq xs hx i (fun _ => if j ∈ ys then [g] else [])
    by_cases hj : j ∈ ys
    · simpa [hj] using this
    · simp [hj]

/-! ## The loops of `SetupCheckers` -/

theorem foldl_snoc_eq_map {α β : Type} (g : α → β) (xs : List α) (init : List β) :
    xs.foldl (fun acc x => acc ++ [g x]) init = init ++ xs.map g := by
  induction xs generalizing init with
  | nil => simp
  | cons x xs ih => simp [ih]

theorem foldl_snoc2_eq_flatMap {α β γ : Type} (g : α → β → γ) (xs : List α) (ys : List β)
    (init : List γ) :
    xs.foldl (fun acc x => ys.foldl (fun acc y => acc ++ [g x y]) acc) init =
      init ++ xs.flatMap (fun x => ys.map (g x)) := by
  induction xs generalizing init with
  | nil => simp
  | cons x xs ih =>
    rw [List.foldl_cons, ih, foldl_snoc_eq_map, List.flatMap_cons, List.append_assoc]

theorem foldl_pair_snoc {α β γ : Type} (g : α → β) (h : α → γ) (xs : List α)
    (p : List β) (q : List γ) :
    xs.foldl (fun d x => (d.1 ++ [g x], d.2 ++ [h x])) (p, q) =
      (p ++ xs.map g, q ++ xs.map h) := by
  induction xs generalizing p q with
  | nil => simp
  | cons x xs ih => simp [ih]

theorem Ext_trans {n : Nat} {s s2 s3 : Sudoku} {cs cs2 : List BlockChecker}
    {f g : Nat → Nat → List Nat} (h1 : Ext n s s2 cs f) (h2 : Ext n s2 s3 cs2 g) :
    Ext n s s3 (cs ++ cs2) (fun i j => f i j ++ g i j) := by
  obtain ⟨a1, b1, c1, d1⟩ := h1
  obtain ⟨a2, b2, c2, d2⟩ := h2
  exact ⟨by rw [a2, a1, List.append_assoc], by rw [b2, b1], by rw [c2, c1], BMExt_trans d1 d2⟩

theorem Ext_congr {n : Nat} {s t : Sudoku} {cs cs2 : List BlockChecker}
    {f g : Nat → Nat → List Nat} (h1 : Ext n s t cs f) (hcs : cs = cs2)
    (hfg : ∀ i j, i < n → j < n → f i j = g i j) : Ext n s t cs2 g := by
  subst hcs
  exact ⟨h1.1, h1.2.1, h1.2.2.1, BMExt_congr h1.2.2.2 hfg⟩

theorem Ext_refl {n : Nat} (s : Sudoku) (hm : Dims n s.block_mapping_) :
    Ext n s s [] (fun _ _ => []) :=
  ⟨by simp, rfl, rfl, hm, fun i j _ _ => by simp⟩

/-- A counted loop whose body appends `c` groups per round. -/
theorem Ext_foldl_range {n : Nat} (step : Sudoku → Nat → Sudoku) (c : Nat)
    (cs : Nat → List BlockChecker) (hc : ∀ k, (cs k).length = c)
    (f : Nat → Nat → Nat → Nat → List Nat)
    (hstep : ∀ s k, Dims n s.block_mapping_ → Ext n s (step s k) (cs k) (f s.checks_.length k))
    (m : Nat) (s : Sudoku) (hm : Dims n s.block_mapping_) :
    Ext n s ((List.range m).foldl step s) ((List.range m).flatMap cs)
      (fun i j => (List.range m).flatMap (fun k => f (s.checks_.length + c * k) k i j)) := by
  induction m with
  | zero => simpa using Ext_refl s hm
  | succ m ih =>
    rw [List.range_succ, List.foldl_append]
    have h2 := hstep ((List.range m).foldl step s) m ih.2.2.2.1
    have hlen : ((List.range m).foldl step s).checks_.length = s.checks_.length + c * m := by
      rw [ih.1, List.length_append, List.length_flatMap]
      congr 1
      clear ih h2
      induction m with
      | zero => simp
      | succ m ihm =>
        rw [List.range_succ, List.map_append, List.sum_append, ihm]
        simp [hc, Nat.mul_succ]
    rw [hlen] at h2
    refine Ext_congr (Ext_trans ih h2) ?_ ?_
    · simp [List.flatMap_append]
    · intro i j _ _
      simp [List.flatMap_append]

theorem flatMap_range_ite {β : Type} (m a : Nat) (P : Prop) [Decidable P] (h : Nat → List β) :
    (List.range m).flatMap (fun k => if a = k ∧ P then h k else []) =
      if a < m ∧ P then h a else [] := by
  have h1 : (fun k => if a = k ∧ P then h k else []) =
      (fun k => if k = a then (fun k => if P then h k else []) k else []) := by
    funext k
    by_cases hk : k = a
    · subst hk; by_cases hp : P <;> simp [hp]
    · have : ¬ a = k := fun e => hk e.symm
      simp [hk, this]
  rw [h1, flatMap_ite_eq _ (List.nodup_range m)]
  by_cases ha : a < m <;> by_cases hp : P <;> simp [ha, hp]

theorem mem_loopRange_block {b k x : Nat} :
    x ∈ loopRange (k * b) ((k + 1) * b) ↔ 0 < b ∧ x / b = k := by
  rw [mem_loopRange]
  constructor
  · rintro ⟨h1, h2⟩
    have hb : 0 < b := by
      rcases Nat.eq_zero_or_pos b with h | h
      · subst h; simp at h2
      · exact h
    exact ⟨hb, Nat.div_eq_of_lt_le h1 h2⟩
  · rintro ⟨hb, rfl⟩
    refine ⟨Nat.div_mul_le_self x b, ?_⟩
    have h1 := Nat.div_add_mod x b
    have h2 := Nat.mod_lt x hb
    rw [Nat.add_mul, Nat.one_mul, Nat.mul_comm]
    omega

theorem Ext_setupRow {n : Nat} (size : Nat) (s : Sudoku) (i : Nat)
    (hm : Dims n s.block_mapping_) :
    Ext n s (Sudoku.setupRow size s i) [⟨rowCells size i⟩]
      (fun x y => if x = i ∧ y < size then [s.checks_.length] else []) := by
  refine ⟨?_, rfl, rfl, ?_⟩
  · simp [Sudoku.setupRow, foldl_snoc_eq_map, rowCells]
  · have h := BMExt_rect [i] (List.range size) (by simp) (List.nodup_range _)
      s.checks_.length s.block_mapping_ hm
    simpa [Sudoku.setupRow] using h

theorem Ext_setupCol {n : Nat} (size : Nat) (s : Sudoku) (j : Nat)
    (hm : Dims n s.block_mapping_) :
    Ext n s (Sudoku.setupCol size s j) [⟨colCells size j⟩]
      (fun x y => if x < size ∧ y = j then [s.checks_.length] else []) := by
  refine ⟨?_, rfl, rfl, ?_⟩
  · simp [Sudoku.setupCol, foldl_snoc_eq_map, colCells]
  · have h := BMExt_rect (List.range size) [j] (List.nodup_range _) (by simp)
      s.checks_.length s.block_mapping_ hm
    simpa [Sudoku.setupCol] using h

theorem Ext_setupBlock {n : Nat} (b i : Nat) (s : Sudoku) (j : Nat)
    (hm : Dims n s.block_mapping_) :
    Ext n s (Sudoku.setupBlock b i s j) [⟨blockCells b i j⟩]
      (fun x y => if (0 < b ∧ x / b = i) ∧ (0 < b ∧ y / b = j)
        then [s.checks_.length] else []) := by
  refine ⟨?_, rfl, rfl, ?_⟩
  · simp [Sudoku.setupBlock, foldl_snoc2_eq_flatMap, blockCells]
  · have h := BMExt_rect (loopRange (i * b) ((i + 1) * b)) (loopRange (j * b) ((j + 1) * b))
      (nodup_loopRange _ _) (nodup_loopRange _ _) s.checks_.length s.block_mapping_ hm
    simp only [mem_loopRange_block] at h
    simpa [Sudoku.setupBlock] using h

theorem flatMap_singleton_eq_map {α β : Type} (g : α → β) (xs : List α) :
    xs.flatMap (fun k => [g k]) = xs.map g := by
  induction xs with
  | nil => rfl
  | cons a l ih => simp [List.flatMap_cons, ih]

theorem Ext_setupDiagonals {n : Nat} (size : Nat) (s : Sudoku)
    (hm : Dims n s.block_mapping_) :
    Ext n s (Sudoku.setupDiagonals size s) [⟨diagCells size⟩, ⟨antiCells size⟩]
      (diagMembership size .DIAGONAL s.checks_.length) := by
  refine ⟨?_, rfl, rfl, ?_⟩
  · simp [Sudoku.setupDiagonals, foldl_pair_snoc, diagCells, antiCells]
  · have h := BMExt_foldl
      (fun bm i => Sudoku.push_mapping (Sudoku.push_mapping bm i i s.checks_.length)
        i (size - 1 - i) (s.checks_.length + 1))
      (fun i x y => (if i = x ∧ i = y then [s.checks_.length] else []) ++
        (if i = x ∧ size - 1 - i = y then [s.checks_.length + 1] else []))
      (fun bm i hbm => BMExt_trans (BMExt_push hbm i i _) (BMExt_push (BMExt_push hbm i i _).1 _ _ _))
      (List.range size) s.block_mapping_ hm
    have h2 := BMExt_congr h (g := diagMembership size .DIAGONAL s.checks_.length) (by
      intro x y _ _
      have e : (fun i => (if i = x ∧ i = y then [s.checks_.length] else []) ++
          (if i = x ∧ size - 1 - i = y then [s.checks_.length + 1] else [])) =
          (fun i => if i = x then (fun _ => (if x = y then [s.checks_.length] else []) ++
            (if y = size - 1 - x then [s.checks_.length + 1] else [])) i else []) := by
        funext i
        by_cases hi : i = x
        · subst hi
          have hc : (size - 1 - i = y) ↔ (y = size - 1 - i) := eq_comm
          simp only [true_and, if_true, hc]
        · simp only [hi, false_and, if_false, List.append_nil]
      rw [e, flatMap_ite_eq _ (List.nodup_range size)]
      unfold diagMembership
      by_cases hx : x < size
      · simp [hx]
      · simp [hx])
    simpa [Sudoku.setupDiagonals] using h2

theorem Ext_rows {n : Nat} (size : Nat) (s : Sudoku) (hm : Dims n s.block_mapping_) :
    Ext n s ((List.range size).foldl (Sudoku.setupRow size) s)
      ((List.range size).map (fun i => ⟨rowCells size i⟩))
      (fun i j => if i < size ∧ j < size then [s.checks_.length + i] else []) := by
  have h := Ext_foldl_range (Sudoku.setupRow size) 1 (fun k => [⟨rowCells size k⟩])
    (fun _ => rfl) (fun L k x y => if x = k ∧ y < size then [L] else [])
    (fun s k hs => Ext_setupRow size s k hs) size s hm
  refine Ext_congr h ?_ ?_
  · exact flatMap_singleton_eq_map _ _
  · intro i j _ _
    simp only [Nat.one_mul]
    exact flatMap_range_ite size i (j < size) (fun k => [s.checks_.length + k])

theorem Ext_cols {n : Nat} (size : Nat) (s : Sudoku) (hm : Dims n s.block_mapping_) :
    Ext n s ((List.range size).foldl (Sudoku.setupCol size) s)
      ((List.range size).map (fun j => ⟨colCells size j⟩))
      (fun i j => if i < size ∧ j < size then [s.checks_.length + j] else []) := by
  have h := Ext_foldl_range (Sudoku.setupCol size) 1 (fun k => [⟨colCells size k⟩])
    (fun _ => rfl) (fun L k x y => if x < size ∧ y = k then [L] else [])
    (fun s k hs => Ext_setupCol size s k hs) size s hm
  refine Ext_congr h ?_ ?_
  · exact flatMap_singleton_eq_map _ _
  · intro i j _ _
    simp only [Nat.one_mul]
    have e := flatMap_range_ite size j (i < size) (fun k => [s.checks_.length + k])
    simp only [and_comm] at e ⊢
    exact e

theorem Ext_blockRow {n : Nat} (b i : Nat) (s : Sudoku) (hm : Dims n s.block_mapping_) :
    Ext n s ((List.range b).foldl (Sudoku.setupBlock b i) s)
      ((List.range b).flatMap (fun j => [⟨blockCells b i j⟩]))
      (fun x y => if x / b = i ∧ y < b * b then [s.checks_.length + y / b] else []) := by
  have h := Ext_foldl_range (Sudoku.setupBlock b i) 1 (fun k => [⟨blockCells b i k⟩])
    (fun _ => rfl)
    (fun L k x y => if (0 < b ∧ x / b = i) ∧ (0 < b ∧ y / b = k) then [L] else [])
    (fun s k hs => Ext_setupBlock b i s k hs) b s hm
  refine Ext_congr h rfl ?_
  intro x y _ _
  simp only [Nat.one_mul]
  have e := flatMap_range_ite b (y / b) (0 < b ∧ x / b = i) (fun k => [s.checks_.length + k])
  have e2 : (fun k => if (0 < b ∧ x / b = i) ∧ (0 < b ∧ y / b = k)
      then [s.checks_.length + k] else []) =
      (fun k => if y / b = k ∧ (0 < b ∧ x / b = i) then [s.checks_.length + k] else []) := by
    funext k
    by_cases h1 : y / b = k <;> by_cases h2 : 0 < b <;> by_cases h3 : x / b = i <;>
      simp [h1, h2, h3]
  rw [e2, e]
  rcases Nat.eq_zero_or_pos b with hb | hb
  · subst hb; simp
  · simp only [Nat.div_lt_iff_lt_mul hb]
    by_cases h3 : x / b = i <;> by_cases h4 : y < b * b <;> simp [h3, h4, hb]

theorem Ext_blocks {n : Nat} (b : Nat) (s : Sudoku) (hm : Dims n s.block_mapping_) :
    Ext n s ((List.range b).foldl (fun s i => (List.range b).foldl (Sudoku.setupBlock b i) s) s)
      (blockGroups b)
      (fun x y => if x < b * b ∧ y < b * b
        then [s.checks_.length + b * (x / b) + y / b] else []) := by
  have h := Ext_foldl_range (fun s i => (List.range b).foldl (Sudoku.setupBlock b i) s) b
    (fun i => (List.range b).flatMap (fun j => [⟨blockCells b i j⟩]))
    (fun i => by
      show ((List.range b).flatMap (fun j => [(⟨blockCells b i j⟩ : BlockChecker)])).length = b
      rw [flatMap_singleton_eq_map]; simp)
    (fun L i x y => if x / b = i ∧ y < b * b then [L + y / b] else [])
    (fun s i hs => Ext_blockRow b i s hs) b s hm
  refine Ext_congr h rfl ?_
  intro x y _ _
  have e := flatMap_range_ite b (x / b) (y < b * b)
    (fun k => [s.checks_.length + b * k + y / b])
  rw [e]
  rcases Nat.eq_zero_or_pos b with hb | hb
  · subst hb; simp
  · simp only [Nat.div_lt_iff_lt_mul hb]

theorem length_blockGroups (b : Nat) : (blockGroups b).length = b * b := by
  unfold blockGroups
  rw [List.length_flatMap]
  have : (fun i => ((List.range b).flatMap
      (fun j => [(⟨blockCells b i j⟩ : BlockChecker)])).length) = (fun _ => b) := by
    funext i
    rw [flatMap_singleton_eq_map]; simp
  rw [Function.comp_def, this]
  simp

theorem Ext_reserveChecks {n : Nat} (size : Nat) (type : SudokuTypes) (s : Sudoku)
    (hm : Dims n s.block_mapping_) :
    Ext n s (Sudoku.reserveChecks s size type) [] (fun _ _ => []) := by
  cases type <;> exact ⟨by simp [Sudoku.reserveChecks], rfl, rfl, hm, fun _ _ _ _ => by
    simp [Sudoku.reserveChecks]⟩

/-- Closed form of `SetupCheckers`: the groups it creates and what it appends to every
membership list. -/
theorem SetupCheckers_Ext {n : Nat} (size : Nat) (type : SudokuTypes) (s : Sudoku)
    (hm : Dims n s.block_mapping_) :
    Ext n s (Sudoku.SetupCheckers s size type) (allGroups size type)
      (membership size type s.checks_.length) := by
  have h0 := Ext_reserveChecks size type s hm
  have h1 := Ext_rows size _ h0.2.2.2.1
  have h2 := Ext_cols size _ h1.2.2.2.1
  have h3 := Ext_blocks (Sudoku.blocksizes size) _ h2.2.2.2.1
  have l0 : (Sudoku.reserveChecks s size type).checks_.length = s.checks_.length := by
    rw [h0.1]; simp
  have l1 := congrArg List.length h1.1
  have l2 := congrArg List.length h2.1
  have l3 := congrArg List.length h3.1
  simp only [List.length_append, List.length_map, List.length_range, length_blockGroups] at l1 l2 l3
  rw [l0] at l1
  rw [l1] at l2
  rw [l2] at l3
  rw [l0] at h1
  rw [l1] at h2
  rw [l2] at h3
  have h123 := Ext_trans (Ext_trans (Ext_trans h0 h1) h2) h3
  cases type with
  | BASIC =>
    refine Ext_congr (t := Sudoku.SetupCheckers s size .BASIC) h123 ?_ ?_
    · simp [allGroups, diagGroups]
    · intro i j _ _
      simp [membership, diagMembership, Nat.two_mul, Nat.add_assoc]
  | DIAGONAL =>
    have h4 := Ext_setupDiagonals size _ h3.2.2.2.1
    rw [l3] at h4
    refine Ext_congr (t := Sudoku.SetupCheckers s size .DIAGONAL) (Ext_trans h123 h4) ?_ ?_
    · simp [allGroups, diagGroups]
    · intro i j _ _
      simp [membership, Nat.two_mul, Nat.add_assoc]

theorem row_checks_foldl (size m : Nat) (s : Sudoku) :
    ((List.range m).foldl (Sudoku.setupRow size) s).row_checks_ =
        s.row_checks_ ++ (List.range m).map (fun i => s.checks_.length + i) ∧
      ((List.range m).foldl (Sudoku.setupRow size) s).col_checks_ = s.col_checks_ ∧
      ((List.range m).foldl (Sudoku.setupRow size) s).checks_.length = s.checks_.length + m := by
  induction m with
  | zero => simp
  | succ m ih =>
    rw [List.range_succ, List.foldl_append]
    obtain ⟨a, b, c⟩ := ih
    simp [Sudoku.setupRow, a, b, c, Nat.add_assoc]

theorem col_checks_foldl (size m : Nat) (s : Sudoku) :
    ((List.range m).foldl (Sudoku.setupCol size) s).col_checks_ =
        s.col_checks_ ++ (List.range m).map (fun i => s.checks_.length + i) ∧
      ((List.range m).foldl (Sudoku.setupCol size) s).row_checks_ = s.row_checks_ ∧
      ((List.range m).foldl (Sudoku.setupCol size) s).checks_.length = s.checks_.length + m := by
  induction m with
  | zero => simp
  | succ m ih =>
    rw [List.range_succ, List.foldl_append]
    obtain ⟨a, b, c⟩ := ih
    simp [Sudoku.setupCol, a, b, c, Nat.add_assoc]

theorem block_foldl_row_col (b i m : Nat) (s : Sudoku) :
    ((List.range m).foldl (Sudoku.setupBlock b i) s).row_checks_ = s.row_checks_ ∧
      ((List.range m).foldl (Sudoku.setupBlock b i) s).col_checks_ = s.col_checks_ := by
  induction m with
  | zero => simp
  | succ m ih =>
    rw [List.range_succ, List.foldl_append]
    simpa [Sudoku.setupBlock] using ih

theorem blocks_foldl_row_col (b m : Nat) (s : Sudoku) :
    ((List.range m).foldl (fun s i => (List.range b).foldl (Sudoku.setupBlock b i) s) s).row_checks_
        = s.row_checks_ ∧
      ((List.range m).foldl (fun s i => (List.range b).foldl (Sudoku.setupBlock b i) s) s).col_checks_
        = s.col_checks_ := by
  induction m with
  | zero => simp
  | succ m ih =>
    rw [List.range_succ, List.foldl_append]
    simp only [List.foldl_cons, List.foldl_nil]
    rw [(block_foldl_row_col b m b _).1, (block_foldl_row_col b m b _).2]
    exact ih

/-- Closed form of the row and column views built by `SetupCheckers`. -/
theorem SetupCheckers_row_col (size : Nat) (type : SudokuTypes) (s : Sudoku) :
    (Sudoku.SetupCheckers s size type).row_checks_ =
        s.row_checks_ ++ (List.range size).map (fun i => s.checks_.length + i) ∧
      (Sudoku.SetupCheckers s size type).col_checks_ =
        s.col_checks_ ++ (List.range size).map (fun j => s.checks_.length + size + j) := by
  have hr := row_checks_foldl size size (Sudoku.reserveChecks s size type)
  have hc := col_checks_foldl size size
    ((List.range size).foldl (Sudoku.setupRow size) (Sudoku.reserveChecks s size type))
  have hb := blocks_foldl_row_col (Sudoku.blocksizes size) (Sudoku.blocksizes size)
    ((List.range size).foldl (Sudoku.setupCol size)
      ((List.range size).foldl (Sudoku.setupRow size) (Sudoku.reserveChecks s size type)))
  have e0 : (Sudoku.reserveChecks s size type).row_checks_ = s.row_checks_ ∧
      (Sudoku.reserveChecks s size type).col_checks_ = s.col_checks_ ∧
      (Sudoku.reserveChecks s size type).checks_ = s.checks_ := by
    cases type <;> exact ⟨rfl, rfl, rfl⟩
  rw [hc.2.1, hr.1, e0.1, e0.2.2] at hb
  rw [hc.1, hr.2.1, hr.2.2, e0.2.1, e0.2.2] at hb
  cases type with
  | BASIC => exact hb
  | DIAGONAL => exact hb

/-! ## The grid built by the constructors -/

theorem built_checks (data : SudokuDataType) (size : Nat) (type : SudokuTypes) :
    (Sudoku.built data size type).checks_ =
      allGroups size type := by
  have h := SetupCheckers_Ext (n := size) size type (Sudoku.init data size size)
    (Dims_replicate size [])
  simpa [Sudoku.init] using h.1

theorem built_data (data : SudokuDataType) (size : Nat) (type : SudokuTypes) :
    (Sudoku.built data size type).data_ = data ∧
    (Sudoku.built data size type).size_ = size := by
  have h := SetupCheckers_Ext (n := size) size type (Sudoku.init data size size)
    (Dims_replicate size [])
  exact ⟨h.2.1, h.2.2.1⟩

theorem built_mapping (data : SudokuDataType) (size : Nat) (type : SudokuTypes)
    {i j : Nat} (hi : i < size) (hj : j < size) :
    (Sudoku.built data size type).mapping i j =
      membership size type 0 i j := by
  have h := SetupCheckers_Ext (n := size) size type (Sudoku.init data size size)
    (Dims_replicate size [])
  have h2 := h.2.2.2.2 i j hi hj
  unfold Sudoku.mapping Sudoku.built
  rw [h2]
  simp [Sudoku.init, at2_replicate size _ _ hi hj]

theorem built_row_col (data : SudokuDataType) (size : Nat) (type : SudokuTypes) :
    (Sudoku.built data size type).row_checks_ =
        List.range size ∧
      (Sudoku.built data size type).col_checks_ =
        (List.range size).map (fun j => size + j) := by
  have h := SetupCheckers_row_col size type (Sudoku.init data size size)
  simpa [Sudoku.init] using h

theorem ofSize_eq (size : Nat) (type : SudokuTypes) :
    Sudoku.ofSize size type = Sudoku.built
      (List.replicate size (List.replicate size (Square.create size))) size type := rfl

theorem ofData_eq (data : SudokuDataType) (type : SudokuTypes) (h : data.length < 2 ^ 32) :
    Sudoku.ofData data type = Sudoku.built data data.length type := by
  unfold Sudoku.ofData Sudoku.built
  rw [Nat.mod_eq_of_lt h]

/-! ## The groups by index -/

theorem length_flatMap_const {α β : Type} (xs : List α) (f : α → List β) (c : Nat)
    (hf : ∀ x, (f x).length = c) : (xs.flatMap f).length = xs.length * c := by
  induction xs with
  | nil => simp
  | cons a l ih => simp [List.flatMap_cons, ih, hf, Nat.succ_mul, Nat.add_comm]

theorem flatMap_range_map_getElem? {β : Type} (g : Nat → Nat → β) (b m k : Nat)
    (hk : k < m * b) :
    ((List.range m).flatMap (fun i => (List.range b).map (g i)))[k]? =
      some (g (k / b) (k % b)) := by
  induction m with
  | zero => simp at hk
  | succ m ih =>
    have hb : 0 < b := by
      rcases Nat.eq_zero_or_pos b with h | h
      · subst h; simp at hk
      · exact h
    have hlen : ((List.range m).flatMap (fun i => (List.range b).map (g i))).length = m * b := by
      rw [length_flatMap_const _ _ b (fun x => by simp)]
      simp
    rw [List.range_succ, List.flatMap_append, List.getElem?_append, hlen]
    by_cases h : k < m * b
    · rw [if_pos h]; exact ih h
    · rw [if_neg h]
      have h1 : k - m * b < b := by
        rw [Nat.succ_mul] at hk; omega
      have h2 : k / b = m := by
        apply Nat.div_eq_of_lt_le
        · omega
        · exact hk
      have h3 : k % b = k - m * b := by
        have := Nat.div_add_mod k b
        rw [h2, Nat.mul_comm] at this
        omega
      simp [h1, h2, h3]

theorem blockGroups_getElem? (b k : Nat) (hk : k < b * b) :
    (blockGroups b)[k]? = some ⟨blockCells b (k / b) (k % b)⟩ := by
  have e : blockGroups b = (List.range b).flatMap (fun i =>
      (List.range b).map (fun j => (⟨blockCells b i j⟩ : BlockChecker))) := by
    unfold blockGroups
    congr 1
    funext i
    exact flatMap_singleton_eq_map _ _
  rw [e]
  exact flatMap_range_map_getElem? (fun i j => (⟨blockCells b i j⟩ : BlockChecker)) b b k hk

theorem length_diagGroups (size : Nat) (type : SudokuTypes) :
    (diagGroups size type).length = if type = .DIAGONAL then 2 else 0 := by
  cases type <;> rfl

theorem length_allGroups (size : Nat) (type : SudokuTypes) :
    (allGroups size type).length =
      2 * size + Sudoku.blocksizes size * Sudoku.blocksizes size +
        (if type = .DIAGONAL then 2 else 0) := by
  simp only [allGroups, List.length_append, List.length_map, List.length_range,
    length_blockGroups, length_diagGroups]
  omega

theorem allGroups_row (size : Nat) (type : SudokuTypes) {g : Nat} (hg : g < size) :
    (allGroups size type)[g]? = some ⟨rowCells size g⟩ := by
  unfold allGroups
  rw [List.append_assoc, List.append_assoc, List.getElem?_append]
  simp [hg]

theorem allGroups_col (size : Nat) (type : SudokuTypes) {j : Nat} (hj : j < size) :
    (allGroups size type)[size + j]? = some ⟨colCells size j⟩ := by
  unfold allGroups
  rw [List.append_assoc, List.append_assoc, List.getElem?_append]
  simp only [List.length_map, List.length_range, Nat.not_lt.mpr (Nat.le_add_right size j),
    if_false, Nat.add_sub_cancel_left]
  rw [List.getElem?_append]
  simp [hj]

theorem allGroups_block (size : Nat) (type : SudokuTypes) {k : Nat}
    (hk : k < Sudoku.blocksizes size * Sudoku.blocksizes size) :
    (allGroups size type)[2 * size + k]? =
      some ⟨blockCells (Sudoku.blocksizes size) (k / Sudoku.blocksizes size)
        (k % Sudoku.blocksizes size)⟩ := by
  unfold allGroups
  rw [List.append_assoc, List.getElem?_append]
  have h1 : ¬ (2 * size + k < ((List.range size).map (fun i => (⟨rowCells size i⟩ : BlockChecker)) ++
      (List.range size).map (fun j => (⟨colCells size j⟩ : BlockChecker))).length) := by
    simp; omega
  rw [if_neg h1]
  have h2 : 2 * size + k - ((List.range size).map (fun i => (⟨rowCells size i⟩ : BlockChecker)) ++
      (List.range size).map (fun j => (⟨colCells size j⟩ : BlockChecker))).length = k := by
    simp; omega
  rw [h2, List.getElem?_append, length_blockGroups, if_pos hk]
  exact blockGroups_getElem? _ _ hk

theorem allGroups_diag (size : Nat) :
    (allGroups size .DIAGONAL)[2 * size + Sudoku.blocksizes size * Sudoku.blocksizes size]? =
        some ⟨diagCells size⟩ ∧
      (allGroups size .DIAGONAL)[2 * size + Sudoku.blocksizes size * Sudoku.blocksizes size + 1]? =
        some ⟨antiCells size⟩ := by
  have hl : ((List.range size).map (fun i => (⟨rowCells size i⟩ : BlockChecker)) ++
      (List.range size).map (fun j => (⟨colCells size j⟩ : BlockChecker)) ++
      blockGroups (Sudoku.blocksizes size)).length =
      2 * size + Sudoku.blocksizes size * Sudoku.blocksizes size := by
    simp only [List.length_append, List.length_map, List.length_range, length_blockGroups]
    omega
  unfold allGroups
  constructor
  · rw [List.getElem?_append, hl, if_neg (Nat.lt_irrefl _), Nat.sub_self]
    rfl
  · rw [List.getElem?_append, hl, if_neg (by omega), Nat.add_sub_cancel_left]
    rfl

/-! ## The cells of a group -/

theorem mem_rowCells {size i x y : Nat} : (x, y) ∈ rowCells size i ↔ x = i ∧ y < size := by
  simp only [rowCells, List.mem_map, List.mem_range, Prod.mk.injEq]
  constructor
  · rintro ⟨k, hk, rfl, rfl⟩; exact ⟨rfl, hk⟩
  · rintro ⟨rfl, h⟩; exact ⟨y, h, rfl, rfl⟩

theorem mem_colCells {size j x y : Nat} : (x, y) ∈ colCells size j ↔ x < size ∧ y = j := by
  simp only [colCells, List.mem_map, List.mem_range, Prod.mk.injEq]
  constructor
  · rintro ⟨k, hk, rfl, rfl⟩; exact ⟨hk, rfl⟩
  · rintro ⟨h, rfl⟩; exact ⟨x, h, rfl, rfl⟩

theorem mem_blockCells {b i j x y : Nat} :
    (x, y) ∈ blockCells b i j ↔ 0 < b ∧ x / b = i ∧ y / b = j := by
  simp only [blockCells, List.mem_flatMap, List.mem_map, Prod.mk.injEq]
  constructor
  · rintro ⟨u, hu, v, hv, rfl, rfl⟩
    rw [mem_loopRange_block] at hu hv
    exact ⟨hu.1, hu.2, hv.2⟩
  · rintro ⟨hb, hx, hy⟩
    exact ⟨x, mem_loopRange_block.mpr ⟨hb, hx⟩, y, mem_loopRange_block.mpr ⟨hb, hy⟩, rfl, rfl⟩

theorem mem_diagCells {size x y : Nat} : (x, y) ∈ diagCells size ↔ x < size ∧ y = x := by
  simp only [diagCells, List.mem_map, List.mem_range, Prod.mk.injEq]
  constructor
  · rintro ⟨k, hk, rfl, rfl⟩; exact ⟨hk, rfl⟩
  · rintro ⟨h, h2⟩; exact ⟨x, h, rfl, h2.symm⟩

theorem mem_antiCells {size x y : Nat} :
    (x, y) ∈ antiCells size ↔ x < size ∧ y = size - 1 - x := by
  simp only [antiCells, List.mem_map, List.mem_range, Prod.mk.injEq]
  constructor
  · rintro ⟨k, hk, rfl, rfl⟩; exact ⟨hk, rfl⟩
  · rintro ⟨h, h2⟩; exact ⟨x, h, rfl, h2.symm⟩

theorem nodup_rowCells (size i : Nat) : (rowCells size i).Nodup :=
  (List.nodup_range size).map (fun a b h => by simpa using h)

theorem nodup_colCells (size j : Nat) : (colCells size j).Nodup :=
  (List.nodup_range size).map (fun a b h => by simpa using h)

theorem nodup_diagCells (size : Nat) : (diagCells size).Nodup :=
  (List.nodup_range size).map (fun a b h => by simpa using h)

theorem nodup_antiCells (size : Nat) : (antiCells size).Nodup :=
  (List.nodup_range size).map (fun _ _ h => (Prod.mk.inj h).1)

theorem nodup_blockCells (b i j : Nat) : (blockCells b i j).Nodup := by
  unfold blockCells
  rw [List.nodup_flatMap]
  refine ⟨fun x _ => (nodup_loopRange _ _).map (fun a b h => (Prod.mk.inj h).2), ?_⟩
  refine (nodup_loopRange _ _).pairwise_of_forall_ne ?_
  intro a _ b _ hab
  simp only [Function.onFun, List.disjoint_left, List.mem_map]
  rintro ⟨u, v⟩ ⟨y, _, h1⟩ ⟨z, _, h2⟩
  exact hab ((Prod.mk.inj h1).1.trans (Prod.mk.inj h2).1.symm)

theorem length_blockCells (b i j : Nat) : (blockCells b i j).length = b * b := by
  unfold blockCells
  rw [length_flatMap_const _ _ b (fun x => by simp [loopRange, Nat.succ_mul])]
  simp [loopRange, Nat.succ_mul]

theorem getElem?_blockCells (b i j k : Nat) (hk : k < b * b) :
    (blockCells b i j)[k]? = some (i * b + k / b, j * b + k % b) := by
  have e : blockCells b i j = (List.range b).flatMap (fun u =>
      (List.range b).map (fun v => (i * b + u, j * b + v))) := by
    simp [blockCells, loopRange, Nat.succ_mul, List.flatMap_map, List.map_flatMap,
      Function.comp_def]
  rw [e]
  exact flatMap_range_map_getElem? (fun u v => (i * b + u, j * b + v)) b b k hk

/-! ## The mirror between groups and membership lists -/

theorem blocksizes_cases (size : Nat) :
    (size = 9 ∧ Sudoku.blocksizes size = 3) ∨ (size = 16 ∧ Sudoku.blocksizes size = 4) ∨
      (size ≠ 9 ∧ size ≠ 16 ∧ Sudoku.blocksizes size = 0) := by
  unfold Sudoku.blocksizes
  by_cases h9 : size = 9
  · left; simp [h9]
  · by_cases h16 : size = 16
    · right; left; simp [h16]
    · right; right; simp [h9, h16]

theorem blocksizes_sq (size : Nat) :
    Sudoku.blocksizes size = 0 ∨ Sudoku.blocksizes size * Sudoku.blocksizes size = size := by
  rcases blocksizes_cases size with ⟨h, e⟩ | ⟨h, e⟩ | ⟨_, _, e⟩
  · right; rw [e, h]
  · right; rw [e, h]
  · left; exact e

/-- Every group of the grid, by its index in `checks_`. -/
theorem allGroups_classify (size : Nat) (type : SudokuTypes) {g : Nat} {grp : BlockChecker}
    (h : (allGroups size type)[g]? = some grp) :
    (g < size ∧ grp = ⟨rowCells size g⟩) ∨
    (∃ j, j < size ∧ g = size + j ∧ grp = ⟨colCells size j⟩) ∨
    (∃ k, k < Sudoku.blocksizes size * Sudoku.blocksizes size ∧ g = 2 * size + k ∧
      grp = ⟨blockCells (Sudoku.blocksizes size) (k / Sudoku.blocksizes size)
        (k % Sudoku.blocksizes size)⟩) ∨
    (type = .DIAGONAL ∧ g = 2 * size + Sudoku.blocksizes size * Sudoku.blocksizes size ∧
      grp = ⟨diagCells size⟩) ∨
    (type = .DIAGONAL ∧ g = 2 * size + Sudoku.blocksizes size * Sudoku.blocksizes size + 1 ∧
      grp = ⟨antiCells size⟩) := by
  have hlt : g < (allGroups size type).length := by
    rcases Nat.lt_or_ge g (allGroups size type).length with h1 | h1
    · exact h1
    · rw [List.getElem?_eq_none h1] at h; exact absurd h (by simp)
  rw [length_allGroups] at hlt
  by_cases h1 : g < size
  · left
    rw [allGroups_row size type h1] at h
    exact ⟨h1, (Option.some.inj h).symm⟩
  by_cases h2 : g < 2 * size
  · right; left
    refine ⟨g - size, by omega, by omega, ?_⟩
    have e : g = size + (g - size) := by omega
    rw [e, allGroups_col size type (by omega)] at h
    exact (Option.some.inj h).symm
  by_cases h3 : g < 2 * size + Sudoku.blocksizes size * Sudoku.blocksizes size
  · right; right; left
    refine ⟨g - 2 * size, by omega, by omega, ?_⟩
    have e : g = 2 * size + (g - 2 * size) := by omega
    rw [e, allGroups_block size type (by omega)] at h
    exact (Option.some.inj h).symm
  cases type with
  | BASIC => simp at hlt; omega
  | DIAGONAL =>
    simp only [if_true] at hlt
    by_cases h4 : g = 2 * size + Sudoku.blocksizes size * Sudoku.blocksizes size
    · right; right; right; left
      rw [h4, (allGroups_diag size).1] at h
      exact ⟨rfl, h4, (Option.some.inj h).symm⟩
    · right; right; right; right
      have h5 : g = 2 * size + Sudoku.blocksizes size * Sudoku.blocksizes size + 1 := by omega
      rw [h5, (allGroups_diag size).2] at h
      exact ⟨rfl, h5, (Option.some.inj h).symm⟩

theorem allGroups_cells_in_range (size : Nat) (type : SudokuTypes) {g : Nat}
    {grp : BlockChecker} (h : (allGroups size type)[g]? = some grp) {x y : Nat}
    (hc : (x, y) ∈ grp.elems_) : x < size ∧ y < size := by
  rcases allGroups_classify size type h with ⟨h1, rfl⟩ | ⟨j, hj, _, rfl⟩ | ⟨k, hk, _, rfl⟩ |
    ⟨_, _, rfl⟩ | ⟨_, _, rfl⟩
  · rw [mem_rowCells] at hc; omega
  · rw [mem_colCells] at hc; omega
  · rw [mem_blockCells] at hc
    obtain ⟨hb, hx, hy⟩ := hc
    rcases blocksizes_sq size with h0 | hsq
    · omega
    · have hkb : k / Sudoku.blocksizes size < Sudoku.blocksizes size :=
        (Nat.div_lt_iff_lt_mul hb).mpr hk
      have hmb : k % Sudoku.blocksizes size < Sudoku.blocksizes size := Nat.mod_lt _ hb
      rw [← hx] at hkb
      rw [← hy] at hmb
      rw [Nat.div_lt_iff_lt_mul hb, hsq] at hkb hmb
      exact ⟨hkb, hmb⟩
  · rw [mem_diagCells] at hc; omega
  · rw [mem_antiCells] at hc; omega

theorem mem_membership_iff (size : Nat) (type : SudokuTypes) {i j : Nat}
    (hi : i < size) (hj : j < size) (g : Nat) :
    g ∈ membership size type 0 i j ↔
      ∃ grp, (allGroups size type)[g]? = some grp ∧ (i, j) ∈ grp.elems_ := by
  constructor
  · intro hg
    simp only [membership, hi, hj, and_self, if_true, List.mem_append, List.mem_singleton,
      Nat.zero_add] at hg
    rcases hg with ((rfl | rfl) | hg) | hg
    · exact ⟨_, allGroups_row size type hi, mem_rowCells.mpr ⟨rfl, hj⟩⟩
    · exact ⟨_, allGroups_col size type hj, mem_colCells.mpr ⟨hi, rfl⟩⟩
    · split at hg
      · rename_i hb
        simp only [List.mem_singleton] at hg
        have hb0 : 0 < Sudoku.blocksizes size := by
          rcases Nat.eq_zero_or_pos (Sudoku.blocksizes size) with h | h
          · rw [h] at hb; simp at hb
          · exact h
        have hib := (Nat.div_lt_iff_lt_mul hb0).mpr hb.1
        have hjb := (Nat.div_lt_iff_lt_mul hb0).mpr hb.2
        have hk : Sudoku.blocksizes size * (i / Sudoku.blocksizes size) + j / Sudoku.blocksizes size
            < Sudoku.blocksizes size * Sudoku.blocksizes size := by
          have := Nat.mul_le_mul_left (Sudoku.blocksizes size) (Nat.succ_le_of_lt hib)
          rw [Nat.mul_succ] at this
          omega
        have e1 : (Sudoku.blocksizes size * (i / Sudoku.blocksizes size) + j / Sudoku.blocksizes size)
            / Sudoku.blocksizes size = i / Sudoku.blocksizes size := by
          rw [Nat.mul_add_div hb0, Nat.div_eq_of_lt hjb, Nat.add_zero]
        have e2 : (Sudoku.blocksizes size * (i / Sudoku.blocksizes size) + j / Sudoku.blocksizes size)
            % Sudoku.blocksizes size = j / Sudoku.blocksizes size := by
          rw [Nat.mul_add_mod, Nat.mod_eq_of_lt hjb]
        refine ⟨_, ?_, mem_blockCells.mpr ⟨hb0, e1.symm, e2.symm⟩⟩
        rw [hg, Nat.add_assoc]
        exact allGroups_block size type hk
      · simp at hg
    · cases type with
      | BASIC => simp [diagMembership] at hg
      | DIAGONAL =>
        simp only [diagMembership, hi, true_and, List.mem_append] at hg
        rcases hg with hg | hg
        · split at hg
          · rename_i hij
            simp only [List.mem_singleton] at hg
            rw [hg]
            exact ⟨_, (allGroups_diag size).1, mem_diagCells.mpr ⟨hi, hij.symm⟩⟩
          · simp at hg
        · split at hg
          · rename_i hij
            simp only [List.mem_singleton] at hg
            rw [hg]
            exact ⟨_, (allGroups_diag size).2, mem_antiCells.mpr ⟨hi, hij⟩⟩
          · simp at hg
  · rintro ⟨grp, hgrp, hc⟩
    simp only [membership, hi, hj, and_self, if_true, List.mem_append, List.mem_singleton,
      Nat.zero_add]
    rcases allGroups_classify size type hgrp with ⟨h1, rfl⟩ | ⟨c, hc1, hg, rfl⟩ |
      ⟨k, hk, hg, rfl⟩ | ⟨ht, hg, rfl⟩ | ⟨ht, hg, rfl⟩
    · rw [mem_rowCells] at hc
      left; left; left; exact hc.1.symm
    · rw [mem_colCells] at hc
      left; left; right; rw [hg, hc.2]
    · rw [mem_blockCells] at hc
      obtain ⟨hb0, hx, hy⟩ := hc
      left; right
      have hkb : k / Sudoku.blocksizes size < Sudoku.blocksizes size :=
        (Nat.div_lt_iff_lt_mul hb0).mpr hk
      have hmb : k % Sudoku.blocksizes size < Sudoku.blocksizes size := Nat.mod_lt _ hb0
      have hib : i < Sudoku.blocksizes size * Sudoku.blocksizes size := by
        rw [← Nat.div_lt_iff_lt_mul hb0, hx]; exact hkb
      have hjb : j < Sudoku.blocksizes size * Sudoku.blocksizes size := by
        rw [← Nat.div_lt_iff_lt_mul hb0, hy]; exact hmb
      rw [if_pos ⟨hib, hjb⟩, List.mem_singleton, hx, hy, hg]
      have := Nat.div_add_mod k (Sudoku.blocksizes size)
      omega
    · right
      rw [mem_diagCells] at hc
      subst ht
      simp only [diagMembership, hi, true_and, List.mem_append]
      left
      rw [if_pos hc.2.symm, List.mem_singleton]; exact hg
    · right
      rw [mem_antiCells] at hc
      subst ht
      simp only [diagMembership, hi, true_and, List.mem_append]
      right
      rw [if_pos hc.2, List.mem_singleton]; exact hg

theorem block_index_lt {b i j : Nat} (hi : i < b * b) (hj : j < b * b) :
    b * (i / b) + j / b < b * b := by
  have hb0 : 0 < b := by
    rcases Nat.eq_zero_or_pos b with h | h
    · subst h; simp at hi
    · exact h
  have hib := (Nat.div_lt_iff_lt_mul hb0).mpr hi
  have hjb := (Nat.div_lt_iff_lt_mul hb0).mpr hj
  have := Nat.mul_le_mul_left b (Nat.succ_le_of_lt hib)
  rw [Nat.mul_succ] at this
  omega

theorem nodup_membership (size : Nat) (type : SudokuTypes) (i j : Nat) :
    (membership size type 0 i j).Nodup := by
  unfold membership diagMembership
  generalize Sudoku.blocksizes size = b
  by_cases h2 : i < b * b ∧ j < b * b
  · have hk := block_index_lt h2.1 h2.2
    rw [if_pos h2]
    generalize b * (i / b) = u at hk ⊢
    generalize j / b = v at hk ⊢
    cases type
    · split_ifs <;> simp <;> omega
    · split_ifs <;> simp <;> omega
  · rw [if_neg h2]
    cases type
    · split_ifs <;> simp <;> omega
    · split_ifs <;> simp <;> omega

/-! ## Claims on the topology built by `SetupCheckers` -/

theorem blocksizes_supported {size : Nat} (hs : size = 9 ∨ size = 16) :
    (Sudoku.blocksizes size = 3 ∨ Sudoku.blocksizes size = 4) ∧
      Sudoku.blocksizes size * Sudoku.blocksizes size = size ∧ 0 < Sudoku.blocksizes size := by
  rcases hs with rfl | rfl
  · exact ⟨Or.inl rfl, rfl, by decide⟩
  · exact ⟨Or.inr rfl, rfl, by decide⟩

/-- C1: for size 9 or 16 (block side `b` = 3 or 4), every variant and every cell `(i, j)`
of the grid, the membership list `block_mapping_[i][j]` left by `SetupCheckers` is, in this
order, the row group `i` (index `i` of `checks_`), the column group `j` (index `size + j`),
the block group covering rows `[b*(i/b), b*(i/b)+b)` and columns `[b*(j/b), b*(j/b)+b)`
(index `2*size + b*(i/b) + j/b`), followed in the DIAGONAL variant only by the main-diagonal
group (index `3*size`) iff `i = j` and the anti-diagonal group (index `3*size + 1`) iff
`i + j = size - 1`; in the BASIC variant the list has exactly 3 entries. -/
theorem C1_membership_list (data : SudokuDataType) (size : Nat) (type : SudokuTypes)
    (i j : Nat) (hs : size = 9 ∨ size = 16) (hi : i < size) (hj : j < size) :
    (Sudoku.blocksizes size = 3 ∨ Sudoku.blocksizes size = 4) ∧
    (Sudoku.built data size type).mapping i j =
      [i, size + j,
        2 * size + Sudoku.blocksizes size * (i / Sudoku.blocksizes size)
          + j / Sudoku.blocksizes size] ++
      (if type = .DIAGONAL then
          (if i = j then [3 * size] else []) ++ (if i + j = size - 1 then [3 * size + 1] else [])
        else []) ∧
    (Sudoku.built data size type).checks_[i]? =
      some ⟨(List.range size).map (fun k => (i, k))⟩ ∧
    (Sudoku.built data size type).checks_[size + j]? =
      some ⟨(List.range size).map (fun k => (k, j))⟩ ∧
    (∃ grp, (Sudoku.built data size type).checks_[2 * size
        + Sudoku.blocksizes size * (i / Sudoku.blocksizes size) + j / Sudoku.blocksizes size]?
          = some grp ∧
      ∀ x y, (x, y) ∈ grp.elems_ ↔
        (Sudoku.blocksizes size * (i / Sudoku.blocksizes size) ≤ x ∧
          x < Sudoku.blocksizes size * (i / Sudoku.blocksizes size) + Sudoku.blocksizes size ∧
          Sudoku.blocksizes size * (j / Sudoku.blocksizes size) ≤ y ∧
          y < Sudoku.blocksizes size * (j / Sudoku.blocksizes size) + Sudoku.blocksizes size)) ∧
    (type = .DIAGONAL →
      (Sudoku.built data size type).checks_[3 * size]? =
        some ⟨(List.range size).map (fun k => (k, k))⟩ ∧
      (Sudoku.built data size type).checks_[3 * size + 1]? =
        some ⟨(List.range size).map (fun k => (k, size - 1 - k))⟩) ∧
    (type = .BASIC → ((Sudoku.built data size type).mapping i j).length = 3) := by
  obtain ⟨hb, hsq, hb0⟩ := blocksizes_supported hs
  have hmap := built_mapping data size type hi hj
  have e3 : 3 * size = 2 * size + Sudoku.blocksizes size * Sudoku.blocksizes size := by
    rw [hsq]; omega
  have hmap2 : (Sudoku.built data size type).mapping i j =
      [i, size + j,
        2 * size + Sudoku.blocksizes size * (i / Sudoku.blocksizes size)
          + j / Sudoku.blocksizes size] ++
      (if type = .DIAGONAL then
          (if i = j then [3 * size] else []) ++ (if i + j = size - 1 then [3 * size + 1] else [])
        else []) := by
    rw [hmap]
    unfold membership diagMembership
    have hc : (j = size - 1 - i) ↔ (i + j = size - 1) := by omega
    have e4 : 2 * size + size = 3 * size := by omega
    cases type
    · simp [hsq, hi, hj]
    · simp [hsq, hi, hj, hc, e4]
  refine ⟨hb, hmap2, ?_, ?_, ?_, ?_, ?_⟩
  · rw [built_checks]; exact allGroups_row size type hi
  · rw [built_checks]; exact allGroups_col size type hj
  · have hk : Sudoku.blocksizes size * (i / Sudoku.blocksizes size) + j / Sudoku.blocksizes size
        < Sudoku.blocksizes size * Sudoku.blocksizes size :=
      block_index_lt (by rw [hsq]; exact hi) (by rw [hsq]; exact hj)
    have hjb : j / Sudoku.blocksizes size < Sudoku.blocksizes size := by
      rw [Nat.div_lt_iff_lt_mul hb0, hsq]; exact hj
    refine ⟨⟨blockCells (Sudoku.blocksizes size)
      ((Sudoku.blocksizes size * (i / Sudoku.blocksizes size) + j / Sudoku.blocksizes size)
        / Sudoku.blocksizes size)
      ((Sudoku.blocksizes size * (i / Sudoku.blocksizes size) + j / Sudoku.blocksizes size)
        % Sudoku.blocksizes size)⟩, ?_, ?_⟩
    · rw [built_checks, Nat.add_assoc]
      exact allGroups_block size type hk
    · intro x y
      simp only []
      rw [mem_blockCells, Nat.mul_add_div hb0, Nat.div_eq_of_lt hjb, Nat.add_zero,
        Nat.mul_add_mod, Nat.mod_eq_of_lt hjb]
      have hx := @mem_loopRange_block (Sudoku.blocksizes size) (i / Sudoku.blocksizes size) x
      have hy := @mem_loopRange_block (Sudoku.blocksizes size) (j / Sudoku.blocksizes size) y
      rw [mem_loopRange, Nat.succ_mul, Nat.mul_comm] at hx hy
      constructor
      · rintro ⟨h0, h1, h2⟩
        have a := hx.mpr ⟨h0, h1⟩
        have b := hy.mpr ⟨h0, h2⟩
        exact ⟨a.1, a.2, b.1, b.2⟩
      · rintro ⟨h1, h2, h3, h4⟩
        exact ⟨hb0, (hx.mp ⟨h1, h2⟩).2, (hy.mp ⟨h3, h4⟩).2⟩
  · rintro rfl
    rw [built_checks, e3]
    exact allGroups_diag size
  · rintro rfl
    rw [hmap2]
    rfl

theorem C1_membership_list_witness :
    (9 = 9 ∨ 9 = 16) ∧ 4 < 9 ∧ 4 < 9 ∧
      (Sudoku.built [] 9 .DIAGONAL).mapping 4 4 = [4, 13, 22, 27, 28] :=
  ⟨Or.inl rfl, by decide, by decide,
    (C1_membership_list [] 9 .DIAGONAL 4 4 (Or.inl rfl) (by decide) (by decide)).2.1⟩

/-- C2 (mirror invariant): for every size and variant, after `SetupCheckers`, for every
group `g` of `checks_` and every cell `(i, j)` it references, `block_mapping_[i][j]`
contains `g` exactly once; conversely every group listed in `block_mapping_[i][j]` is a
group of `checks_` that references the cell `(i, j)`. -/
theorem C2_mirror_invariant (data : SudokuDataType) (size : Nat) (type : SudokuTypes) :
    (∀ g grp, (Sudoku.built data size type).checks_[g]? = some grp →
      ∀ i j, (i, j) ∈ grp.elems_ →
        ((Sudoku.built data size type).mapping i j).count g = 1) ∧
    (∀ i j, i < size → j < size → ∀ g, g ∈ (Sudoku.built data size type).mapping i j →
      ∃ grp, (Sudoku.built data size type).checks_[g]? = some grp ∧ (i, j) ∈ grp.elems_) := by
  constructor
  · intro g grp hg i j hc
    rw [built_checks] at hg
    obtain ⟨hi, hj⟩ := allGroups_cells_in_range size type hg hc
    rw [built_mapping data size type hi hj]
    exact List.count_eq_one_of_mem (nodup_membership size type i j)
      ((mem_membership_iff size type hi hj g).mpr ⟨grp, hg, hc⟩)
  · intro i j hi hj g hg
    rw [built_mapping data size type hi hj] at hg
    rw [built_checks]
    exact (mem_membership_iff size type hi hj g).mp hg

/-- C3: for every size and variant, `row_checks_` and `col_checks_` have exactly `size`
entries, and for every `i < size` the entry `row_checks_[i]` is a group of `size` cells whose
cell at positional index `j` is `(i, j)`, and `col_checks_[i]` is a group of `size` cells
whose cell at positional index `j` is `(j, i)`, for every `j < size`. -/
theorem C3_row_col_views (data : SudokuDataType) (size : Nat) (type : SudokuTypes) :
    (Sudoku.built data size type).row_checks_.length = size ∧
    (Sudoku.built data size type).col_checks_.length = size ∧
    ∀ i, i < size →
      (∃ r gr, (Sudoku.built data size type).row_checks_[i]? = some r ∧
        (Sudoku.built data size type).checks_[r]? = some gr ∧ gr.elems_.length = size ∧
        ∀ j, j < size → gr.elems_[j]? = some (i, j)) ∧
      (∃ c gc, (Sudoku.built data size type).col_checks_[i]? = some c ∧
        (Sudoku.built data size type).checks_[c]? = some gc ∧ gc.elems_.length = size ∧
        ∀ j, j < size → gc.elems_[j]? = some (j, i)) := by
  obtain ⟨hr, hc⟩ := built_row_col data size type
  refine ⟨by rw [hr]; simp, by rw [hc]; simp, fun i hi => ⟨?_, ?_⟩⟩
  · refine ⟨i, ⟨rowCells size i⟩, ?_, ?_, by simp [rowCells], fun j hj => ?_⟩
    · rw [hr]; exact List.getElem?_range hi
    · rw [built_checks]; exact allGroups_row size type hi
    · simp [rowCells, List.getElem?_range hj]
  · refine ⟨size + i, ⟨colCells size i⟩, ?_, ?_, by simp [colCells], fun j hj => ?_⟩
    · rw [hc]; simp [List.getElem?_range hi]
    · rw [built_checks]; exact allGroups_col size type hi
    · simp [colCells, List.getElem?_range hj]

/-- C4: for size 9 or 16, `SetupCheckers` creates exactly `3*size` groups in the BASIC
variant and `3*size + 2` in the DIAGONAL variant; every created group references exactly
`size` cells, pairwise distinct; the block group `(bi, bj)` (index `2*size + bi*b + bj`)
lists the cells of its sub-grid row-major, and every cell of the grid lies in exactly one
block group. -/
theorem C4_group_shapes (data : SudokuDataType) (size : Nat) (type : SudokuTypes)
    (hs : size = 9 ∨ size = 16) :
    (type = .BASIC → (Sudoku.built data size type).checks_.length = 3 * size) ∧
    (type = .DIAGONAL → (Sudoku.built data size type).checks_.length = 3 * size + 2) ∧
    (∀ grp, grp ∈ (Sudoku.built data size type).checks_ →
      grp.elems_.length = size ∧ grp.elems_.Nodup) ∧
    (∀ bi bj, bi < Sudoku.blocksizes size → bj < Sudoku.blocksizes size →
      ∃ grp, (Sudoku.built data size type).checks_[2 * size
          + bi * Sudoku.blocksizes size + bj]? = some grp ∧
        ∀ k, k < size → grp.elems_[k]? =
          some (bi * Sudoku.blocksizes size + k / Sudoku.blocksizes size,
            bj * Sudoku.blocksizes size + k % Sudoku.blocksizes size)) ∧
    (∀ i j, i < size → j < size →
      ∃! k, k < size ∧ ∃ grp, (Sudoku.built data size type).checks_[2 * size + k]? = some grp ∧
        (i, j) ∈ grp.elems_) := by
  obtain ⟨_, hsq, hb0⟩ := blocksizes_supported hs
  rw [built_checks]
  refine ⟨?_, ?_, ?_, ?_, ?_⟩
  · rintro rfl
    rw [length_allGroups, hsq]; simp; omega
  · rintro rfl
    rw [length_allGroups, hsq]; simp; omega
  · intro grp hgrp
    obtain ⟨g, hg⟩ := List.mem_iff_getElem?.mp hgrp
    rcases allGroups_classify size type hg with ⟨_, rfl⟩ | ⟨_, _, _, rfl⟩ | ⟨_, _, _, rfl⟩ |
      ⟨_, _, rfl⟩ | ⟨_, _, rfl⟩
    · exact ⟨by simp [rowCells], nodup_rowCells _ _⟩
    · exact ⟨by simp [colCells], nodup_colCells _ _⟩
    · exact ⟨by rw [length_blockCells, hsq], nodup_blockCells _ _ _⟩
    · exact ⟨by simp [diagCells], nodup_diagCells _⟩
    · exact ⟨by simp [antiCells], nodup_antiCells _⟩
  · intro bi bj hbi hbj
    have hk : bi * Sudoku.blocksizes size + bj
        < Sudoku.blocksizes size * Sudoku.blocksizes size := by
      have := Nat.mul_le_mul_right (Sudoku.blocksizes size) (Nat.succ_le_of_lt hbi)
      rw [Nat.succ_mul] at this
      omega
    have e1 : (bi * Sudoku.blocksizes size + bj) / Sudoku.blocksizes size = bi := by
      rw [Nat.mul_comm, Nat.mul_add_div hb0, Nat.div_eq_of_lt hbj, Nat.add_zero]
    have e2 : (bi * Sudoku.blocksizes size + bj) % Sudoku.blocksizes size = bj := by
      rw [Nat.mul_comm, Nat.mul_add_mod, Nat.mod_eq_of_lt hbj]
    refine ⟨⟨blockCells (Sudoku.blocksizes size) bi bj⟩, ?_, ?_⟩
    · have := allGroups_block size type hk
      rw [e1, e2] at this
      rw [Nat.add_assoc]; exact this
    · intro k hk2
      exact getElem?_blockCells _ bi bj k (by rw [hsq]; exact hk2)
  · intro i j hi hj
    have hib : i / Sudoku.blocksizes size < Sudoku.blocksizes size := by
      rw [Nat.div_lt_iff_lt_mul hb0, hsq]; exact hi
    have hjb : j / Sudoku.blocksizes size < Sudoku.blocksizes size := by
      rw [Nat.div_lt_iff_lt_mul hb0, hsq]; exact hj
    have hk : Sudoku.blocksizes size * (i / Sudoku.blocksizes size) + j / Sudoku.blocksizes size
        < Sudoku.blocksizes size * Sudoku.blocksizes size :=
      block_index_lt (by rw [hsq]; exact hi) (by rw [hsq]; exact hj)
    have hk2 : Sudoku.blocksizes size * (i / Sudoku.blocksizes size)
        + j / Sudoku.blocksizes size < size := Nat.lt_of_lt_of_eq hk hsq
    refine ⟨Sudoku.blocksizes size * (i / Sudoku.blocksizes size) + j / Sudoku.blocksizes size,
      ⟨hk2, _, allGroups_block size type hk, ?_⟩, ?_⟩
    · rw [mem_blockCells, Nat.mul_add_div hb0, Nat.div_eq_of_lt hjb, Nat.add_zero,
        Nat.mul_add_mod, Nat.mod_eq_of_lt hjb]
      exact ⟨hb0, rfl, rfl⟩
    · rintro k ⟨hk1, grp, hg, hc⟩
      rw [allGroups_block size type (by rw [hsq]; exact hk1)] at hg
      rw [← Option.some.inj hg, mem_blockCells] at hc
      have := Nat.div_add_mod k (Sudoku.blocksizes size)
      rw [← hc.2.1, ← hc.2.2] at this
      exact this.symm

theorem C4_group_shapes_witness :
    (9 = 9 ∨ 9 = 16) ∧ (Sudoku.built [] 9 .BASIC).checks_.length = 3 * 9 :=
  ⟨Or.inl rfl, (C4_group_shapes [] 9 .BASIC (Or.inl rfl)).1 rfl⟩

/-! ## Conflicts -/

theorem nodup_filterMap_iff {α β : Type} (f : α → Option β) (l : List α) (hl : l.Nodup) :
    (l.filterMap f).Nodup ↔
      ∀ a, a ∈ l → ∀ b, b ∈ l → ∀ v, f a = some v → f b = some v → a = b := by
  induction l with
  | nil => simp
  | cons x l ih =>
    rw [List.nodup_cons] at hl
    have ih2 := ih hl.2
    cases hx : f x with
    | none =>
      rw [List.filterMap_cons_none hx, ih2]
      constructor
      · intro h a ha b hb v ha2 hb2
        rcases List.mem_cons.mp ha with rfl | ha'
        · rw [hx] at ha2; exact absurd ha2 (by simp)
        · rcases List.mem_cons.mp hb with rfl | hb'
          · rw [hx] at hb2; exact absurd hb2 (by simp)
          · exact h a ha' b hb' v ha2 hb2
      · intro h a ha b hb v ha2 hb2
        exact h a (List.mem_cons_of_mem _ ha) b (List.mem_cons_of_mem _ hb) v ha2 hb2
    | some w =>
      rw [List.filterMap_cons_some hx, List.nodup_cons, ih2]
      constructor
      · rintro ⟨h1, h2⟩ a ha b hb v ha2 hb2
        rcases List.mem_cons.mp ha with rfl | ha'
        · rcases List.mem_cons.mp hb with rfl | hb'
          · rfl
          · exfalso
            apply h1
            rw [List.mem_filterMap]
            rw [hx] at ha2
            exact ⟨b, hb', by rw [hb2, ← Option.some.inj ha2]⟩
        · rcases List.mem_cons.mp hb with rfl | hb'
          · exfalso
            apply h1
            rw [List.mem_filterMap]
            rw [hx] at hb2
            exact ⟨a, ha', by rw [ha2, ← Option.some.inj hb2]⟩
          · exact h2 a ha' b hb' v ha2 hb2
      · intro h
        refine ⟨?_, fun a ha b hb v ha2 hb2 =>
          h a (List.mem_cons_of_mem _ ha) b (List.mem_cons_of_mem _ hb) v ha2 hb2⟩
        intro hw
        rw [List.mem_filterMap] at hw
        obtain ⟨b, hb, hb2⟩ := hw
        have := h x (List.mem_cons_self _ _) b (List.mem_cons_of_mem _ hb) w hx hb2
        rw [this] at hl
        exact hl.1 hb

theorem allGroups_nodup (size : Nat) (type : SudokuTypes) {grp : BlockChecker}
    (hgrp : grp ∈ allGroups size type) : grp.elems_.Nodup := by
  obtain ⟨g, hg⟩ := List.mem_iff_getElem?.mp hgrp
  rcases allGroups_classify size type hg with ⟨_, rfl⟩ | ⟨_, _, _, rfl⟩ | ⟨_, _, _, rfl⟩ |
    ⟨_, _, rfl⟩ | ⟨_, _, rfl⟩
  · exact nodup_rowCells _ _
  · exact nodup_colCells _ _
  · exact nodup_blockCells _ _ _
  · exact nodup_diagCells _
  · exact nodup_antiCells _

/-- A group reports a conflict iff two distinct cells of it hold the same value. -/
theorem BlockChecker_HasConflict_iff (data : SudokuDataType) (grp : BlockChecker)
    (hn : grp.elems_.Nodup) :
    grp.HasConflict data = true ↔
      ∃ c1, c1 ∈ grp.elems_ ∧ ∃ c2, c2 ∈ grp.elems_ ∧ c1 ≠ c2 ∧
        ∃ v, (at2 data c1.1 c1.2 default).value = some v ∧
          (at2 data c2.1 c2.2 default).value = some v := by
  unfold BlockChecker.HasConflict
  simp only [Bool.not_eq_true', decide_eq_false_iff_not]
  rw [nodup_filterMap_iff _ _ hn]
  constructor
  · intro h
    by_contra hc
    apply h
    intro a ha b hb v ha2 hb2
    by_contra hab
    exact hc ⟨a, ha, b, hb, hab, v, ha2, hb2⟩
  · rintro ⟨c1, h1, c2, h2, hne, v, hv1, hv2⟩ h
    exact hne (h c1 h1 c2 h2 v hv1 hv2)

/-- The grid reports a conflict iff some group holds two distinct cells with the same
value. -/
theorem Sudoku_HasConflict_iff (data : SudokuDataType) (size : Nat) (type : SudokuTypes) :
    (Sudoku.built data size type).HasConflict = true ↔
      ∃ grp, grp ∈ allGroups size type ∧
        ∃ c1, c1 ∈ grp.elems_ ∧ ∃ c2, c2 ∈ grp.elems_ ∧ c1 ≠ c2 ∧
          ∃ v, (at2 data c1.1 c1.2 default).value = some v ∧
            (at2 data c2.1 c2.2 default).value = some v := by
  unfold Sudoku.HasConflict
  rw [built_checks, (built_data data size type).1, List.any_eq_true]
  constructor
  · rintro ⟨grp, hg, hc⟩
    exact ⟨grp, hg, (BlockChecker_HasConflict_iff data grp (allGroups_nodup size type hg)).mp hc⟩
  · rintro ⟨grp, hg, hc⟩
    exact ⟨grp, hg, (BlockChecker_HasConflict_iff data grp (allGroups_nodup size type hg)).mpr hc⟩

/-- C5: for size 9 or 16 in the BASIC variant and every assignment of the cells,
`Sudoku::HasConflict()` is true iff two distinct cells of the grid lying in the same row,
the same column or the same block are both set, to the same digit (a group reporting a
conflict when two of its cells are set to the same digit). In particular two equal digits in
one row give a conflict, and a fully set grid with no repeated digit in any row, column or
block has none. -/
theorem C5_HasConflict_iff (data : SudokuDataType) (size : Nat) (hs : size = 9 ∨ size = 16) :
    ((Sudoku.built data size .BASIC).HasConflict = true ↔
      ∃ i1 j1 i2 j2, i1 < size ∧ j1 < size ∧ i2 < size ∧ j2 < size ∧ (i1, j1) ≠ (i2, j2) ∧
        (i1 = i2 ∨ j1 = j2 ∨
          (i1 / Sudoku.blocksizes size = i2 / Sudoku.blocksizes size ∧
            j1 / Sudoku.blocksizes size = j2 / Sudoku.blocksizes size)) ∧
        ∃ v, ((Sudoku.built data size .BASIC).cell i1 j1).value = some v ∧
          ((Sudoku.built data size .BASIC).cell i2 j2).value = some v) ∧
    (∀ i j1 j2 v, i < size → j1 < size → j2 < size → j1 ≠ j2 →
      ((Sudoku.built data size .BASIC).cell i j1).value = some v →
      ((Sudoku.built data size .BASIC).cell i j2).value = some v →
      (Sudoku.built data size .BASIC).HasConflict = true) ∧
    ((∀ i j, i < size → j < size → ((Sudoku.built data size .BASIC).cell i j).IsSet = true) →
      (∀ i1 j1 i2 j2, i1 < size → j1 < size → i2 < size → j2 < size → (i1, j1) ≠ (i2, j2) →
        (i1 = i2 ∨ j1 = j2 ∨
          (i1 / Sudoku.blocksizes size = i2 / Sudoku.blocksizes size ∧
            j1 / Sudoku.blocksizes size = j2 / Sudoku.blocksizes size)) →
        ((Sudoku.built data size .BASIC).cell i1 j1).Value ≠
          ((Sudoku.built data size .BASIC).cell i2 j2).Value) →
      (Sudoku.built data size .BASIC).HasConflict = false) := by
  obtain ⟨_, hsq, hb0⟩ := blocksizes_supported hs
  have hcell : ∀ i j, (Sudoku.built data size .BASIC).cell i j = at2 data i j default := by
    intro i j
    unfold Sudoku.cell
    rw [(built_data data size .BASIC).1]
  have main : (Sudoku.built data size .BASIC).HasConflict = true ↔
      ∃ i1 j1 i2 j2, i1 < size ∧ j1 < size ∧ i2 < size ∧ j2 < size ∧ (i1, j1) ≠ (i2, j2) ∧
        (i1 = i2 ∨ j1 = j2 ∨
          (i1 / Sudoku.blocksizes size = i2 / Sudoku.blocksizes size ∧
            j1 / Sudoku.blocksizes size = j2 / Sudoku.blocksizes size)) ∧
        ∃ v, ((Sudoku.built data size .BASIC).cell i1 j1).value = some v ∧
          ((Sudoku.built data size .BASIC).cell i2 j2).value = some v := by
    rw [Sudoku_HasConflict_iff]
    simp only [hcell]
    constructor
    · rintro ⟨grp, hg, ⟨i1, j1⟩, h1, ⟨i2, j2⟩, h2, hne, v, hv1, hv2⟩
      obtain ⟨g, hgi⟩ := List.mem_iff_getElem?.mp hg
      obtain ⟨r1, r2⟩ := allGroups_cells_in_range size .BASIC hgi h1
      obtain ⟨r3, r4⟩ := allGroups_cells_in_range size .BASIC hgi h2
      refine ⟨i1, j1, i2, j2, r1, r2, r3, r4, hne, ?_, v, hv1, hv2⟩
      rcases allGroups_classify size .BASIC hgi with ⟨_, rfl⟩ | ⟨_, _, _, rfl⟩ |
        ⟨_, _, _, rfl⟩ | ⟨ht, _⟩ | ⟨ht, _⟩
      · rw [mem_rowCells] at h1 h2
        left; rw [h1.1, h2.1]
      · rw [mem_colCells] at h1 h2
        right; left; rw [h1.2, h2.2]
      · rw [mem_blockCells] at h1 h2
        right; right
        exact ⟨h1.2.1.trans h2.2.1.symm, h1.2.2.trans h2.2.2.symm⟩
      · exact absurd ht (by decide)
      · exact absurd ht (by decide)
    · rintro ⟨i1, j1, i2, j2, r1, r2, r3, r4, hne, hrel, v, hv1, hv2⟩
      rcases hrel with h | h | ⟨h, h'⟩
      · refine ⟨⟨rowCells size i1⟩, List.mem_iff_getElem?.mpr ⟨_, allGroups_row size .BASIC r1⟩,
          (i1, j1), mem_rowCells.mpr ⟨rfl, r2⟩, (i2, j2), mem_rowCells.mpr ⟨h.symm, r4⟩,
          hne, v, hv1, hv2⟩
      · refine ⟨⟨colCells size j1⟩, List.mem_iff_getElem?.mpr ⟨_, allGroups_col size .BASIC r2⟩,
          (i1, j1), mem_colCells.mpr ⟨r1, rfl⟩, (i2, j2), mem_colCells.mpr ⟨r3, h.symm⟩,
          hne, v, hv1, hv2⟩
      · have hk : Sudoku.blocksizes size * (i1 / Sudoku.blocksizes size)
            + j1 / Sudoku.blocksizes size < Sudoku.blocksizes size * Sudoku.blocksizes size :=
          block_index_lt (by rw [hsq]; exact r1) (by rw [hsq]; exact r2)
        have hjb : j1 / Sudoku.blocksizes size < Sudoku.blocksizes size := by
          rw [Nat.div_lt_iff_lt_mul hb0, hsq]; exact r2
        have hblk := allGroups_block size .BASIC hk
        rw [Nat.mul_add_div hb0, Nat.div_eq_of_lt hjb, Nat.add_zero,
          Nat.mul_add_mod, Nat.mod_eq_of_lt hjb] at hblk
        refine ⟨_, List.mem_iff_getElem?.mpr ⟨_, hblk⟩,
          (i1, j1), mem_blockCells.mpr ⟨hb0, rfl, rfl⟩,
          (i2, j2), mem_blockCells.mpr ⟨hb0, h.symm, h'.symm⟩, hne, v, hv1, hv2⟩
  refine ⟨main, ?_, ?_⟩
  · intro i j1 j2 v hi h1 h2 hne hv1 hv2
    exact main.mpr ⟨i, j1, i, j2, hi, h1, hi, h2,
      fun h => hne (Prod.mk.inj h).2, Or.inl rfl, v, hv1, hv2⟩
  · intro _ hvalid
    rw [← Bool.not_eq_true]
    intro hc
    obtain ⟨i1, j1, i2, j2, r1, r2, r3, r4, hne, hrel, v, hv1, hv2⟩ := main.mp hc
    apply hvalid i1 j1 i2 j2 r1 r2 r3 r4 hne hrel
    unfold Square.Value
    rw [hv1, hv2]

theorem C5_HasConflict_iff_witness :
    (9 = 9 ∨ 9 = 16) ∧ (Sudoku.built exampleRowClash 9 .BASIC).HasConflict = true :=
  ⟨Or.inl rfl, (C5_HasConflict_iff exampleRowClash 9 (Or.inl rfl)).2.1 0 0 1 5
    (by decide) (by decide) (by decide) (by decide)
    (by rw [Sudoku.cell, (built_data exampleRowClash 9 .BASIC).1]; rfl)
    (by rw [Sudoku.cell, (built_data exampleRowClash 9 .BASIC).1]; rfl)⟩

/-- The completed grid `exampleSolved` is fully set and free of conflicts. -/
theorem exampleSolved_ok :
    (Sudoku.built exampleSolved 9 .BASIC).HasConflict = false ∧
      (Sudoku.built exampleSolved 9 .BASIC).IsSet = true := by
  decide

/-! ## Change tracking -/

theorem mem_foldl_iff {α β : Type} (f : List β → α → List β) (P : α → β → Prop)
    (hf : ∀ r x g, g ∈ f r x ↔ g ∈ r ∨ P x g) (xs : List α) (r0 : List β) (g : β) :
    g ∈ xs.foldl f r0 ↔ g ∈ r0 ∨ ∃ x, x ∈ xs ∧ P x g := by
  induction xs generalizing r0 with
  | nil => simp
  | cons x xs ih =>
    rw [List.foldl_cons, ih, hf]
    constructor
    · rintro ((h | h) | ⟨y, hy, h⟩)
      · exact Or.inl h
      · exact Or.inr ⟨x, List.mem_cons_self _ _, h⟩
      · exact Or.inr ⟨y, List.mem_cons_of_mem _ hy, h⟩
    · rintro (h | ⟨y, hy, h⟩)
      · exact Or.inl (Or.inl h)
      · rcases List.mem_cons.mp hy with rfl | hy'
        · exact Or.inl (Or.inr h)
        · exact Or.inr ⟨y, hy', h⟩

theorem nodup_foldl {α β : Type} (f : List β → α → List β)
    (hf : ∀ r x, r.Nodup → (f r x).Nodup) (xs : List α) (r0 : List β) (h0 : r0.Nodup) :
    (xs.foldl f r0).Nodup := by
  induction xs generalizing r0 with
  | nil => exact h0
  | cons x xs ih => exact ih _ (hf r0 x h0)

/-- Membership in the result of `ChangedBlocks`, for any grid object. -/
theorem mem_ChangedBlocks (s : Sudoku) (g : Nat) :
    g ∈ s.ChangedBlocks ↔
      ∃ i, i < s.Size ∧ ∃ j, j < s.Size ∧ (s.cell i j).HasChanged = true ∧ g ∈ s.mapping i j := by
  unfold Sudoku.ChangedBlocks
  have inner : ∀ (l r : List Nat) (g : Nat),
      g ∈ l.foldl (fun result b => result.insert b) r ↔ g ∈ r ∨ g ∈ l := by
    intro l r g
    rw [mem_foldl_iff (fun result b => result.insert b) (fun b g => g = b)
      (fun r x g => by rw [List.mem_insert_iff]; exact Or.comm)]
    simp
  have middle : ∀ (i : Nat) (r : List Nat) (g : Nat),
      g ∈ (List.range s.Size).foldl (fun result j =>
        if (s.cell i j).HasChanged then
          (s.mapping i j).foldl (fun result b => result.insert b) result
        else result) r ↔
      g ∈ r ∨ ∃ j, j ∈ List.range s.Size ∧
        ((s.cell i j).HasChanged = true ∧ g ∈ s.mapping i j) := by
    intro i r g
    refine mem_foldl_iff _ (fun j g => (s.cell i j).HasChanged = true ∧ g ∈ s.mapping i j)
      ?_ _ r g
    intro r j g
    by_cases hc : (s.cell i j).HasChanged = true
    · simp only [hc, if_true, true_and]
      exact inner _ _ _
    · simp [hc]
  rw [mem_foldl_iff _ (fun i g => ∃ j, j ∈ List.range s.Size ∧
      ((s.cell i j).HasChanged = true ∧ g ∈ s.mapping i j)) (fun r i g => middle i r g)]
  simp only [List.not_mem_nil, false_or, List.mem_range]

theorem nodup_ChangedBlocks (s : Sudoku) : s.ChangedBlocks.Nodup := by
  unfold Sudoku.ChangedBlocks
  refine nodup_foldl _ (fun r i hr => nodup_foldl _ (fun r j hr => ?_) _ r hr) _ _ List.nodup_nil
  split
  · exact nodup_foldl _ (fun r b hr => hr.insert) _ r hr
  · exact hr

/-- C6: for every grid built by `SetupCheckers` (any size, variant and cells) and every
state of the changed flags, `ChangedBlocks()` returns exactly the set of groups holding at
least one changed cell: a group index is in the result iff it is a group of `checks_` one of
whose cells has its changed flag set; the result holds no group twice. -/
theorem C6_ChangedBlocks_exact (data : SudokuDataType) (size : Nat) (type : SudokuTypes) :
    (∀ g, g ∈ (Sudoku.built data size type).ChangedBlocks ↔
      ∃ grp, (Sudoku.built data size type).checks_[g]? = some grp ∧
        ∃ i j, (i, j) ∈ grp.elems_ ∧
          ((Sudoku.built data size type).cell i j).HasChanged = true) ∧
    (Sudoku.built data size type).ChangedBlocks.Nodup := by
  refine ⟨fun g => ?_, nodup_ChangedBlocks _⟩
  rw [mem_ChangedBlocks, built_checks]
  have hsz : (Sudoku.built data size type).Size = size := (built_data data size type).2
  rw [hsz]
  constructor
  · rintro ⟨i, hi, j, hj, hc, hg⟩
    rw [built_mapping data size type hi hj] at hg
    obtain ⟨grp, h1, h2⟩ := (mem_membership_iff size type hi hj g).mp hg
    exact ⟨grp, h1, i, j, h2, hc⟩
  · rintro ⟨grp, h1, i, j, h2, hc⟩
    obtain ⟨hi, hj⟩ := allGroups_cells_in_range size type h1 h2
    refine ⟨i, hi, j, hj, hc, ?_⟩
    rw [built_mapping data size type hi hj]
    exact (mem_membership_iff size type hi hj g).mpr ⟨grp, h1, h2⟩

theorem at2_foldl_modify2_row {α : Type} {n : Nat} (f : Nat → Nat → α → α)
    (hf : ∀ i j x, f i j (f i j x) = f i j x)
    (a : Nat) (ys : List Nat) (d : List (List α)) (hd : Dims n d) (dflt : α) :
    Dims n (ys.foldl (fun d j => modify2 (f a j) a j d) d) ∧
      ∀ i j, i < n → j < n →
        at2 (ys.foldl (fun d j => modify2 (f a j) a j d) d) i j dflt =
          if a = i ∧ j ∈ ys then f i j (at2 d i j dflt) else at2 d i j dflt := by
  induction ys generalizing d with
  | nil => exact ⟨hd, fun i j _ _ => by simp⟩
  | cons b ys ih =>
    obtain ⟨h1, h2⟩ := ih (modify2 (f a b) a b d) (Dims_modify2 hd (f a b) a b)
    refine ⟨h1, fun i j hi hj => ?_⟩
    rw [List.foldl_cons, h2 i j hi hj, at2_modify2 hd (f a b) a b hi hj]
    by_cases hai : a = i
    · subst hai
      by_cases hbj : b = j
      · subst hbj
        by_cases hm : b ∈ ys <;> simp [hm, hf]
      · have hjb : ¬ j = b := fun e => hbj e.symm
        by_cases hm : j ∈ ys <;> simp [hm, hbj, hjb]
    · simp [hai]

theorem at2_foldl_modify2_rect {α : Type} {n : Nat} (f : Nat → Nat → α → α)
    (hf : ∀ i j x, f i j (f i j x) = f i j x)
    (xs ys : List Nat) (d : List (List α)) (hd : Dims n d) (dflt : α) :
    Dims n (xs.foldl (fun d i => ys.foldl (fun d j => modify2 (f i j) i j d) d) d) ∧
      ∀ i j, i < n → j < n →
        at2 (xs.foldl (fun d i => ys.foldl (fun d j => modify2 (f i j) i j d) d) d) i j dflt =
          if i ∈ xs ∧ j ∈ ys then f i j (at2 d i j dflt) else at2 d i j dflt := by
  induction xs generalizing d with
  | nil => exact ⟨hd, fun i j _ _ => by simp⟩
  | cons a xs ih =>
    obtain ⟨r1, r2⟩ := at2_foldl_modify2_row f hf a ys d hd dflt
    obtain ⟨h1, h2⟩ := ih _ r1
    refine ⟨h1, fun i j hi hj => ?_⟩
    rw [List.foldl_cons, h2 i j hi hj, r2 i j hi hj]
    by_cases hai : a = i
    · subst hai
      by_cases hm : a ∈ xs <;> by_cases hj2 : j ∈ ys <;> simp [hm, hj2, hf]
    · have hia : ¬ i = a := fun e => hai e.symm
      by_cases hm : i ∈ xs <;> by_cases hj2 : j ∈ ys <;> simp [hm, hj2, hai, hia]

theorem HasChange_iff (s : Sudoku) :
    s.HasChange = true ↔
      ∃ i j, i < s.Size ∧ j < s.Size ∧ (s.cell i j).HasChanged = true := by
  unfold Sudoku.HasChange
  simp only [List.any_eq_true, List.mem_range]
  constructor
  · rintro ⟨i, hi, j, hj, h⟩; exact ⟨i, j, hi, hj, h⟩
  · rintro ⟨i, j, hi, hj, h⟩; exact ⟨i, hi, j, hj, h⟩

theorem ResetChange_cell (s : Sudoku) (hwf : Dims s.Size s.data_) {i j : Nat}
    (hi : i < s.Size) (hj : j < s.Size) :
    s.ResetChange.cell i j = (s.cell i j).ResetChanged := by
  have h := (at2_foldl_modify2_rect (fun _ _ => Square.ResetChanged) (fun _ _ _ => rfl)
    (List.range s.Size) (List.range s.Size) s.data_ hwf default).2 i j hi hj
  unfold Sudoku.cell Sudoku.ResetChange
  simp only []
  rw [h]
  simp [hi, hj]

/-- C7: for every grid (a `Size()` by `Size()` array of cells), `HasChange()` is false
right after `ResetChange()`; and `HasChange()` is true iff some cell of the grid has its
changed flag set. -/
theorem C7_HasChange (s : Sudoku) (hwf : Dims s.Size s.data_) :
    s.ResetChange.HasChange = false ∧
    (s.HasChange = true ↔
      ∃ i j, i < s.Size ∧ j < s.Size ∧ (s.cell i j).HasChanged = true) := by
  refine ⟨?_, HasChange_iff s⟩
  rw [← Bool.not_eq_true, HasChange_iff]
  rintro ⟨i, j, hi, hj, h⟩
  have hsz : s.ResetChange.Size = s.Size := rfl
  rw [hsz] at hi hj
  rw [ResetChange_cell s hwf hi hj] at h
  exact absurd h (by simp [Square.HasChanged, Square.ResetChanged])

theorem C7_HasChange_witness :
    Dims (Sudoku.built exampleRowClash 9 .BASIC).Size
        (Sudoku.built exampleRowClash 9 .BASIC).data_ ∧
      (Sudoku.built exampleRowClash 9 .BASIC).HasChange = true ∧
      (Sudoku.built exampleRowClash 9 .BASIC).ResetChange.HasChange = false :=
  have hwf : Dims (Sudoku.built exampleRowClash 9 .BASIC).Size
      (Sudoku.built exampleRowClash 9 .BASIC).data_ := ⟨by decide, by decide⟩
  ⟨hwf, by decide, (C7_HasChange (Sudoku.built exampleRowClash 9 .BASIC) hwf).1⟩

/-! ## Row-major scans -/

theorem findSome?_range_eq_none {β : Type} (f : Nat → Option β) (n : Nat) :
    (List.range n).findSome? f = none ↔ ∀ i, i < n → f i = none := by
  rw [List.findSome?_eq_none_iff]
  simp only [List.mem_range]

theorem findSome?_range_eq_some {β : Type} (f : Nat → Option β) (n : Nat) (b : β) :
    (List.range n).findSome? f = some b ↔
      ∃ i, i < n ∧ f i = some b ∧ ∀ k, k < i → f k = none := by
  induction n generalizing b with
  | zero => simp
  | succ n ih =>
    rw [List.range_succ, List.findSome?_append]
    cases hprev : (List.range n).findSome? f with
    | none =>
      have hnone := (findSome?_range_eq_none f n).mp hprev
      simp only [Option.none_or, List.findSome?_cons, List.findSome?_nil]
      constructor
      · intro h
        cases hfn : f n with
        | none => rw [hfn] at h; exact absurd h (by simp)
        | some c =>
          rw [hfn] at h
          exact ⟨n, Nat.lt_succ_self n, by rw [hfn]; exact h, hnone⟩
      · rintro ⟨i, hi, hfi, _⟩
        rcases Nat.lt_succ_iff_lt_or_eq.mp hi with h | h
        · rw [hnone i h] at hfi; exact absurd hfi (by simp)
        · subst h; rw [hfi]
    | some c =>
      obtain ⟨i0, hi0, hf0, hk0⟩ := (ih c).mp hprev
      have hor : ∀ o : Option β, (some c).or o = some c := fun o => rfl
      rw [hor]
      constructor
      · intro h
        rw [← Option.some.inj h]
        exact ⟨i0, Nat.lt_succ_of_lt hi0, hf0, hk0⟩
      · rintro ⟨i, _, hfi, hk⟩
        rcases Nat.lt_trichotomy i i0 with h | h | h
        · rw [hk0 i h] at hfi; exact absurd hfi (by simp)
        · subst h; rw [hf0] at hfi; exact hfi
        · rw [hk i0 h] at hf0; exact absurd hf0 (by simp)

/-- What `FirstUnset` returns: the sentinel on a fully set grid, otherwise the first
unset cell in row-major order. -/
theorem FirstUnset_cases (s : Sudoku) :
    (s.FirstUnset = (UINT_MAX, UINT_MAX) ∧
      ∀ i j, i < s.Size → j < s.Size → (s.cell i j).IsSet = true) ∨
    (∃ i j, i < s.Size ∧ j < s.Size ∧ s.FirstUnset = (i, j) ∧ (s.cell i j).IsSet = false ∧
      ∀ i2 j2, i2 < s.Size → j2 < s.Size → (i2 < i ∨ (i2 = i ∧ j2 < j)) →
        (s.cell i2 j2).IsSet = true) := by
  have hg : ∀ i j, (if !(s.cell i j).IsSet then some (i, j) else none) = none →
      (s.cell i j).IsSet = true := by
    intro i j h
    by_cases hc : (s.cell i j).IsSet = true
    · exact hc
    · simp [hc] at h
  unfold Sudoku.FirstUnset
  cases hres : (List.range s.Size).findSome? (fun i =>
      (List.range s.Size).findSome? (fun j =>
        if !(s.cell i j).IsSet then some (i, j) else none)) with
  | none =>
    left
    refine ⟨rfl, fun i j hi hj => ?_⟩
    have h1 := (findSome?_range_eq_none _ _).mp hres i hi
    exact hg i j ((findSome?_range_eq_none _ _).mp h1 j hj)
  | some p =>
    right
    obtain ⟨i, hi, hfi, hki⟩ := (findSome?_range_eq_some _ _ _).mp hres
    obtain ⟨j, hj, hfj, hkj⟩ := (findSome?_range_eq_some _ _ _).mp hfi
    have hset : (s.cell i j).IsSet = false ∧ p = (i, j) := by
      by_cases hc : (s.cell i j).IsSet = true
      · simp [hc] at hfj
      · simp only [Bool.not_eq_true] at hc
        simp only [hc, Bool.not_false, if_true] at hfj
        exact ⟨hc, (Option.some.inj hfj).symm⟩
    refine ⟨i, j, hi, hj, by simp [hset.2], hset.1, fun i2 j2 _ hj2 hlt => ?_⟩
    rcases hlt with h | ⟨h, h2⟩
    · exact hg i2 j2 ((findSome?_range_eq_none _ _).mp (hki i2 h) j2 hj2)
    · subst h
      exact hg i2 j2 (hkj j2 h2)

theorem IsSet_iff (s : Sudoku) :
    s.IsSet = true ↔ ∀ i j, i < s.Size → j < s.Size → (s.cell i j).IsSet = true := by
  unfold Sudoku.IsSet
  simp only [List.all_eq_true, List.mem_range]
  exact ⟨fun h i j hi hj => h i hi j hj, fun h i hi j hj => h i j hi hj⟩

/-- C8: on every grid with at least one unset cell, `FirstUnset()` returns the coordinates
`(i, j)` of an unset cell of the grid such that every cell before `(i, j)` in row-major
order is set; in particular it returns `(0, 0)` when cell `(0, 0)` is unset. -/
theorem C8_FirstUnset_first (s : Sudoku)
    (h : ∃ i j, i < s.Size ∧ j < s.Size ∧ (s.cell i j).IsSet = false) :
    s.FirstUnset.1 < s.Size ∧ s.FirstUnset.2 < s.Size ∧
    (s.cell s.FirstUnset.1 s.FirstUnset.2).IsSet = false ∧
    (∀ i2 j2, i2 < s.Size → j2 < s.Size →
      (i2 < s.FirstUnset.1 ∨ (i2 = s.FirstUnset.1 ∧ j2 < s.FirstUnset.2)) →
      (s.cell i2 j2).IsSet = true) ∧
    ((s.cell 0 0).IsSet = false → s.FirstUnset = (0, 0)) := by
  obtain ⟨a, b, ha, hb, hab⟩ := h
  rcases FirstUnset_cases s with ⟨_, hall⟩ | ⟨i, j, hi, hj, he, hu, hbefore⟩
  · rw [hall a b ha hb] at hab; exact absurd hab (by decide)
  · rw [he]
    refine ⟨hi, hj, hu, hbefore, fun h0 => ?_⟩
    have hpos : 0 < s.Size := Nat.lt_of_le_of_lt (Nat.zero_le _) hi
    rcases Nat.eq_zero_or_pos i with hi0 | hi0
    · rcases Nat.eq_zero_or_pos j with hj0 | hj0
      · rw [hi0, hj0]
      · have := hbefore 0 0 hpos hpos (Or.inr ⟨hi0.symm, hj0⟩)
        rw [this] at h0; exact absurd h0 (by decide)
    · have := hbefore 0 0 hpos hpos (Or.inl hi0)
      rw [this] at h0; exact absurd h0 (by decide)

/-- C9: for every grid whose size is an `unsigned` value, `IsSet()` is true iff every cell
of the grid is assigned; `FirstUnset()` returns the sentinel pair
`(UINT_MAX, UINT_MAX)` iff `IsSet()` is true; and otherwise the coordinates it returns are
both strictly below the grid size. -/
theorem C9_IsSet_sentinel (s : Sudoku) (hsz : s.Size ≤ UINT_MAX) :
    (s.IsSet = true ↔ ∀ i j, i < s.Size → j < s.Size → (s.cell i j).IsSet = true) ∧
    (s.FirstUnset = (UINT_MAX, UINT_MAX) ↔ s.IsSet = true) ∧
    (s.IsSet = false → s.FirstUnset.1 < s.Size ∧ s.FirstUnset.2 < s.Size) := by
  refine ⟨IsSet_iff s, ?_, ?_⟩
  · rw [IsSet_iff]
    rcases FirstUnset_cases s with ⟨he, hall⟩ | ⟨i, j, hi, hj, he, hu, _⟩
    · exact ⟨fun _ => hall, fun _ => he⟩
    · constructor
      · intro h
        rw [he] at h
        have : i = UINT_MAX := (Prod.mk.inj h).1
        omega
      · intro hall
        rw [hall i j hi hj] at hu; exact absurd hu (by decide)
  · intro hns
    rcases FirstUnset_cases s with ⟨_, hall⟩ | ⟨i, j, hi, hj, he, _, _⟩
    · rw [(IsSet_iff s).mpr hall] at hns; exact absurd hns (by decide)
    · rw [he]; exact ⟨hi, hj⟩

theorem C8_FirstUnset_first_witness :
    (∃ i j, i < (Sudoku.built exampleFirstUnset 9 .BASIC).Size ∧
      j < (Sudoku.built exampleFirstUnset 9 .BASIC).Size ∧
      ((Sudoku.built exampleFirstUnset 9 .BASIC).cell i j).IsSet = false) ∧
    (Sudoku.built exampleFirstUnset 9 .BASIC).FirstUnset = (0, 0) :=
  have h : ∃ i j, i < (Sudoku.built exampleFirstUnset 9 .BASIC).Size ∧
      j < (Sudoku.built exampleFirstUnset 9 .BASIC).Size ∧
      ((Sudoku.built exampleFirstUnset 9 .BASIC).cell i j).IsSet = false :=
    ⟨0, 0, by decide, by decide, by decide⟩
  ⟨h, (C8_FirstUnset_first (Sudoku.built exampleFirstUnset 9 .BASIC) h).2.2.2.2 (by decide)⟩

theorem C9_IsSet_sentinel_witness :
    (Sudoku.built exampleSolved 9 .BASIC).Size ≤ UINT_MAX ∧
    (Sudoku.built exampleSolved 9 .BASIC).FirstUnset = (UINT_MAX, UINT_MAX) :=
  have h : (Sudoku.built exampleSolved 9 .BASIC).Size ≤ UINT_MAX := by decide
  ⟨h, (C9_IsSet_sentinel (Sudoku.built exampleSolved 9 .BASIC) h).2.1.mpr (by decide)⟩

/-! ## Writing and reading back -/

theorem foldl_append_eq_flatMap {α β : Type} (g : α → List β) (xs : List α) (init : List β) :
    xs.foldl (fun s x => s ++ g x) init = init ++ xs.flatMap g := by
  induction xs generalizing init with
  | nil => simp
  | cons x xs ih => rw [List.foldl_cons, ih, List.flatMap_cons, List.append_assoc]

theorem flatMap_congr_mem {α β : Type} (f g : α → List β) (xs : List α)
    (h : ∀ x, x ∈ xs → f x = g x) : xs.flatMap f = xs.flatMap g := by
  induction xs with
  | nil => rfl
  | cons x xs ih =>
    rw [List.flatMap_cons, List.flatMap_cons, h x (List.mem_cons_self _ _),
      ih (fun y hy => h y (List.mem_cons_of_mem _ hy))]

/-- The text written by `operator<<`: one field per cell, one line per row. -/
theorem operator_out_eq (s : List Char) (p : Sudoku) :
    operator_out s p = s ++ (List.range p.Size).flatMap (fun i =>
      (List.range p.Size).flatMap (fun j => outField (p.cell i j).Value) ++ ['\n']) := by
  unfold operator_out
  rw [← foldl_append_eq_flatMap]
  congr 1
  funext s i
  rw [foldl_append_eq_flatMap, List.append_assoc]

theorem outField_good (v : Nat) (h1 : 1 ≤ v) (h2 : v ≤ 16) :
    outField v = [' ', fieldChar v] ∧ GoodTok (fieldChar v) v := by
  interval_cases v <;> exact ⟨by decide, by decide, by decide, by decide, by decide⟩

theorem extractChar_skip (junk : Char) (sp : List Char) (c : Char) (rest : List Char)
    (hsp : ∀ x, x ∈ sp → isspace x = true) (hc : isspace c = false) :
    extractChar junk (sp ++ c :: rest) = (c, rest) := by
  unfold extractChar
  have : (sp ++ c :: rest).dropWhile isspace = c :: rest := by
    induction sp with
    | nil => simp [List.dropWhile_cons, hc]
    | cons a sp ih =>
      rw [List.cons_append, List.dropWhile_cons, hsp a (List.mem_cons_self _ _)]
      exact ih (fun x hx => hsp x (List.mem_cons_of_mem _ hx))
  rw [this]

/-- Reading one good token stores its value in the cell. -/
theorem readCell_good (junk : Char) (i j : Nat) (sp : List Char) (c : Char) (v : Nat)
    (rest : List Char) (d : SudokuDataType)
    (hsp : ∀ x, x ∈ sp → isspace x = true) (hc : GoodTok c v) :
    readCell junk i j (sp ++ c :: rest, d) =
      (rest, modify2 (fun sq => sq.assign v) i j d) := by
  obtain ⟨h1, h2, h3, h4⟩ := hc
  unfold readCell
  simp only [extractChar_skip junk sp c rest hsp h3]
  rw [if_neg (by rintro (h | h); exact h1 h; exact h2 h)]
  rcases h4 with ⟨ha, hd, hv⟩ | ⟨ha, hd, hv⟩
  · subst hv
    simp [ha, hd]
  · subst hv
    simp [ha, hd]

/-- Reading the fields of one row. -/
theorem read_row (junk : Char) (i : Nat) (ch : Nat → Char) (val : Nat → Nat)
    (js : List Nat) (hg : ∀ j, j ∈ js → GoodTok (ch j) (val j))
    (sp rest : List Char) (d : SudokuDataType) (hsp : ∀ x, x ∈ sp → isspace x = true) :
    ∃ sp2, (∀ x, x ∈ sp2 → isspace x = true) ∧
      js.foldl (fun st j => readCell junk i j st)
          (sp ++ (js.flatMap (fun j => [' ', ch j]) ++ rest), d) =
        (sp2 ++ rest, js.foldl (fun d j => modify2 (fun sq => sq.assign (val j)) i j d) d) := by
  induction js generalizing sp d with
  | nil => exact ⟨sp, hsp, by simp⟩
  | cons j js ih =>
    have hsp2 : ∀ x, x ∈ sp ++ [' '] → isspace x = true := by
      intro x hx
      rcases List.mem_append.mp hx with h | h
      · exact hsp x h
      · rw [List.mem_singleton.mp h]; rfl
    have e : sp ++ ((j :: js).flatMap (fun j => [' ', ch j]) ++ rest) =
        (sp ++ [' ']) ++ ch j :: ([] ++ (js.flatMap (fun j => [' ', ch j]) ++ rest)) := by
      simp [List.flatMap_cons]
    rw [List.foldl_cons, e,
      readCell_good junk i j _ (ch j) (val j) _ d hsp2 (hg j (List.mem_cons_self _ _))]
    exact ih (fun k hk => hg k (List.mem_cons_of_mem _ hk)) [] _ (fun x hx => by simp at hx)

/-- Reading the lines of a grid. -/
theorem read_rows (junk : Char) (ch : Nat → Nat → Char) (val : Nat → Nat → Nat)
    (xs js : List Nat) (hg : ∀ i j, i ∈ xs → j ∈ js → GoodTok (ch i j) (val i j))
    (sp rest : List Char) (d : SudokuDataType) (hsp : ∀ x, x ∈ sp → isspace x = true) :
    ∃ sp2, (∀ x, x ∈ sp2 → isspace x = true) ∧
      xs.foldl (fun st i => js.foldl (fun st j => readCell junk i j st) st)
          (sp ++ (xs.flatMap (fun i => js.flatMap (fun j => [' ', ch i j]) ++ ['\n']) ++ rest), d)
        = (sp2 ++ rest,
          xs.foldl (fun d i =>
            js.foldl (fun d j => modify2 (fun sq => sq.assign (val i j)) i j d) d) d) := by
  induction xs generalizing sp d with
  | nil => exact ⟨sp, hsp, by simp⟩
  | cons i xs ih =>
    obtain ⟨sp1, hsp1, h1⟩ := read_row junk i (ch i) (val i) js
      (fun j hj => hg i j (List.mem_cons_self _ _) hj) sp
      ('\n' :: (xs.flatMap (fun i => js.flatMap (fun j => [' ', ch i j]) ++ ['\n']) ++ rest))
      d hsp
    have e : sp ++ ((i :: xs).flatMap (fun i => js.flatMap (fun j => [' ', ch i j]) ++ ['\n'])
          ++ rest) =
        sp ++ (js.flatMap (fun j => [' ', ch i j]) ++
          '\n' :: (xs.flatMap (fun i => js.flatMap (fun j => [' ', ch i j]) ++ ['\n']) ++ rest)) := by
      simp [List.flatMap_cons]
    rw [List.foldl_cons, e, h1]
    have hsp3 : ∀ x, x ∈ sp1 ++ ['\n'] → isspace x = true := by
      intro x hx
      rcases List.mem_append.mp hx with h | h
      · exact hsp1 x h
      · rw [List.mem_singleton.mp h]; rfl
    have e2 : sp1 ++ '\n' :: (xs.flatMap (fun i => js.flatMap (fun j => [' ', ch i j]) ++ ['\n'])
          ++ rest) =
        (sp1 ++ ['\n']) ++ (xs.flatMap (fun i => js.flatMap (fun j => [' ', ch i j]) ++ ['\n'])
          ++ rest) := by simp
    rw [e2]
    exact ih (fun a b ha hb => hg a b (List.mem_cons_of_mem _ ha) hb) _ _ hsp3

/-- C10 (round trip): for size 9 or 16, every fully assigned grid `p` of that size whose
values all lie in `[1, size]`, and every grid `q` of the same size, reading with
`operator>>` into `q` the text that `operator<<` writes for `p` leaves in every cell of `q`
the value of the same cell of `p`. -/
theorem C10_round_trip (size : Nat) (p q : Sudoku) (junk : Char)
    (hs : size = 9 ∨ size = 16) (hp : p.Size = size) (hq : q.Size = size)
    (hqd : Dims size q.data_)
    (hfull : ∀ i j, i < size → j < size →
      ∃ v, (p.cell i j).value = some v ∧ 1 ≤ v ∧ v ≤ size) :
    ∀ i j, i < size → j < size →
      ((operator_in junk (operator_out [] p) q).2.cell i j).Value = (p.cell i j).Value := by
  have h16 : size ≤ 16 := by rcases hs with rfl | rfl <;> decide
  have hval : ∀ i j, i < size → j < size →
      1 ≤ (p.cell i j).Value ∧ (p.cell i j).Value ≤ 16 := by
    intro i j hi hj
    obtain ⟨v, hv, h1, h2⟩ := hfull i j hi hj
    unfold Square.Value
    rw [hv]
    exact ⟨h1, Nat.le_trans h2 h16⟩
  have htext : operator_out [] p = [] ++ ((List.range size).flatMap (fun i =>
      (List.range size).flatMap (fun j => [' ', fieldChar (p.cell i j).Value]) ++ ['\n'])
        ++ []) := by
    rw [operator_out_eq, hp, List.append_nil]
    congr 1
    refine flatMap_congr_mem _ _ _ (fun i hi => ?_)
    congr 1
    refine flatMap_congr_mem _ _ _ (fun j hj => ?_)
    have := hval i j (List.mem_range.mp hi) (List.mem_range.mp hj)
    exact (outField_good _ this.1 this.2).1
  obtain ⟨sp2, _, hread⟩ := read_rows junk (fun i j => fieldChar (p.cell i j).Value)
    (fun i j => (p.cell i j).Value) (List.range size) (List.range size)
    (fun i j hi hj => by
      have := hval i j (List.mem_range.mp hi) (List.mem_range.mp hj)
      exact (outField_good _ this.1 this.2).2)
    [] [] q.data_ (fun x hx => by simp at hx)
  intro i j hi hj
  have hcell := (at2_foldl_modify2_rect (fun i j (sq : Square) => sq.assign (p.cell i j).Value)
    (fun _ _ _ => rfl) (List.range size) (List.range size) q.data_ hqd default).2 i j hi hj
  unfold operator_in Sudoku.cell
  simp only []
  rw [hq, htext, hread, hcell]
  simp [hi, hj, Square.assign, Square.Value, Sudoku.cell]

theorem C10_round_trip_witness :
    (9 = 9 ∨ 9 = 16) ∧ (Sudoku.built exampleSolved 9 .BASIC).Size = 9 ∧
    (Sudoku.ofSize 9 .BASIC).Size = 9 ∧ Dims 9 (Sudoku.ofSize 9 .BASIC).data_ ∧
    (∀ i j, i < 9 → j < 9 →
      ∃ v, ((Sudoku.built exampleSolved 9 .BASIC).cell i j).value = some v ∧ 1 ≤ v ∧ v ≤ 9) ∧
    ((operator_in 'x' (operator_out [] (Sudoku.built exampleSolved 9 .BASIC))
      (Sudoku.ofSize 9 .BASIC)).2.cell 4 7).Value = 3 :=
  have hd : Dims 9 (Sudoku.ofSize 9 .BASIC).data_ := ⟨by decide, by decide⟩
  have hdec : ∀ i, i < 9 → ∀ j, j < 9 →
      ((Sudoku.built exampleSolved 9 .BASIC).cell i j).value =
        some ((Sudoku.built exampleSolved 9 .BASIC).cell i j).Value ∧
      1 ≤ ((Sudoku.built exampleSolved 9 .BASIC).cell i j).Value ∧
      ((Sudoku.built exampleSolved 9 .BASIC).cell i j).Value ≤ 9 := by decide
  have hfull : ∀ i j, i < 9 → j < 9 →
      ∃ v, ((Sudoku.built exampleSolved 9 .BASIC).cell i j).value = some v ∧ 1 ≤ v ∧ v ≤ 9 :=
    fun i j hi hj => ⟨_, hdec i hi j hj⟩
  ⟨Or.inl rfl, by decide, by decide, hd, hfull,
    (C10_round_trip 9 (Sudoku.built exampleSolved 9 .BASIC) (Sudoku.ofSize 9 .BASIC) 'x'
      (Or.inl rfl) (by decide) (by decide) hd hfull 4 7 (by decide) (by decide)).trans
      (by decide)⟩

/-! ## The topology does not depend on the cells -/

theorem foldl_withData {α : Type} (step : Sudoku → α → Sudoku) (d : SudokuDataType)
    (hstep : ∀ s x, step (s.withData d) x = (step s x).withData d) (xs : List α) (s : Sudoku) :
    xs.foldl step (s.withData d) = (xs.foldl step s).withData d := by
  induction xs generalizing s with
  | nil => rfl
  | cons x xs ih => rw [List.foldl_cons, List.foldl_cons, hstep, ih]

theorem SetupCheckers_withData (s : Sudoku) (size : Nat) (type : SudokuTypes)
    (d : SudokuDataType) :
    Sudoku.SetupCheckers (s.withData d) size type =
      (Sudoku.SetupCheckers s size type).withData d := by
  have h0 : Sudoku.reserveChecks (s.withData d) size type =
      (Sudoku.reserveChecks s size type).withData d := by cases type <;> rfl
  unfold Sudoku.SetupCheckers
  simp only []
  rw [h0, foldl_withData (Sudoku.setupRow size) d (fun _ _ => rfl),
    foldl_withData (Sudoku.setupCol size) d (fun _ _ => rfl),
    foldl_withData (fun s i => (List.range (Sudoku.blocksizes size)).foldl
      (Sudoku.setupBlock (Sudoku.blocksizes size) i) s) d
      (fun s i => foldl_withData (Sudoku.setupBlock (Sudoku.blocksizes size) i) d
        (fun _ _ => rfl) _ s)]
  cases type <;> rfl

/-- Overwriting the cells of a constructed grid gives the grid constructed over the new
cells: every statement about `built data size type` for all `data` covers every state the
cells can reach. -/
theorem built_withData (data d : SudokuDataType) (size : Nat) (type : SudokuTypes) :
    (Sudoku.built data size type).withData d = Sudoku.built d size type := by
  unfold Sudoku.built
  rw [← SetupCheckers_withData]
  rfl

/-! ## Tokens outside the alphabet -/

/-- A token that is neither a letter, nor a digit, nor `*` leaves the cell as it was. -/
theorem readCell_other (junk : Char) (i j : Nat) (sp : List Char) (c : Char)
    (rest : List Char) (d : SudokuDataType)
    (hsp : ∀ x, x ∈ sp → isspace x = true) (hc : isspace c = false)
    (h1 : c ≠ '*') (h2 : c.isAlpha = false) (h3 : c.isDigit = false) :
    readCell junk i j (sp ++ c :: rest, d) = (rest, d) := by
  have h0 : c ≠ '0' := by
    intro h
    rw [h] at h3
    exact absurd h3 (by decide)
  unfold readCell
  simp only [extractChar_skip junk sp c rest hsp hc]
  rw [if_neg (by rintro (h | h); exact h1 h; exact h0 h)]
  simp [h2, h3]

set_option maxRecDepth 100000 in
/-- C11 (evaluation of the code): the token `a` is not a decimal digit, not an uppercase
letter and not `*`, yet `operator>>` assigns the value `'a' - 'A' + 10 = 42` to the cell it
is read for; the other cells, for which the input is exhausted and the indeterminate
character is `?`, stay unset. -/
theorem C11_lowercase_token_is_assigned :
    'a'.isDigit = false ∧ 'a'.isUpper = false ∧ 'a' ≠ '*' ∧
    ((Sudoku.ofSize 9 .BASIC).cell 0 0).value = none ∧
    ((operator_in '?' ['a'] (Sudoku.ofSize 9 .BASIC)).2.cell 0 0).value = some 42 ∧
    ((operator_in '?' ['a'] (Sudoku.ofSize 9 .BASIC)).2.cell 0 0).changed = true ∧
    ((operator_in '?' ['a'] (Sudoku.ofSize 9 .BASIC)).2.cell 0 1).value = none := by
  decide

/-! ## Further claims on the topology -/

/-- C14 (counterexample): in the 9 by 9 DIAGONAL grid the centre cell `(4, 4)` lies on both
diagonals and belongs to 5 groups, not to at most 4. -/
theorem C14_counterexample :
    ¬ (∀ size, size = 9 ∨ size = 16 → ∀ i j, i < size → j < size →
      ((Sudoku.built [] size .DIAGONAL).mapping i j).length ≤ 4) := by
  intro h
  have h5 : ((Sudoku.built [] 9 .DIAGONAL).mapping 4 4).length = 5 := by
    rw [built_mapping [] 9 .DIAGONAL (by decide) (by decide)]
    decide
  have := h 9 (Or.inl rfl) 4 4 (by decide) (by decide)
  omega

/-- C14 (amended): for size 9 or 16 in the DIAGONAL variant every cell belongs to at most 5
groups: its row, column and block, the main diagonal iff `i = j` and the anti-diagonal iff
`i + j = size - 1`. It belongs to 5 groups only when it is the centre cell `(4, 4)` of the
9 by 9 grid; every other cell, and every cell of the 16 by 16 grid, belongs to at most 4. -/
theorem C14_membership_bound (data : SudokuDataType) (size : Nat) (i j : Nat)
    (hs : size = 9 ∨ size = 16) (hi : i < size) (hj : j < size) :
    ((Sudoku.built data size .DIAGONAL).mapping i j).length =
      3 + (if i = j then 1 else 0) + (if i + j = size - 1 then 1 else 0) ∧
    ((Sudoku.built data size .DIAGONAL).mapping i j).length ≤ 5 ∧
    (((Sudoku.built data size .DIAGONAL).mapping i j).length = 5 ↔
      (size = 9 ∧ i = 4 ∧ j = 4)) ∧
    (¬ (size = 9 ∧ i = 4 ∧ j = 4) →
      ((Sudoku.built data size .DIAGONAL).mapping i j).length ≤ 4) := by
  obtain ⟨_, hsq, _⟩ := blocksizes_supported hs
  have hlen : ((Sudoku.built data size .DIAGONAL).mapping i j).length =
      3 + (if i = j then 1 else 0) + (if i + j = size - 1 then 1 else 0) := by
    rw [built_mapping data size .DIAGONAL hi hj]
    unfold membership diagMembership
    have hc : (j = size - 1 - i) ↔ (i + j = size - 1) := by omega
    simp only [hsq, hi, hj, and_self, if_true, true_and, hc]
    split_ifs <;> simp
  rw [hlen]
  refine ⟨rfl, ?_, ?_, ?_⟩
  · split_ifs <;> omega
  · rcases hs with rfl | rfl <;> split_ifs <;> omega
  · rcases hs with rfl | rfl <;> split_ifs <;> omega

theorem C14_membership_bound_witness :
    (9 = 9 ∨ 9 = 16) ∧ 4 < 9 ∧ 4 < 9 ∧
      ((Sudoku.built [] 9 .DIAGONAL).mapping 4 4).length = 5 :=
  ⟨Or.inl rfl, by decide, by decide,
    (C14_membership_bound [] 9 4 4 (Or.inl rfl) (by decide) (by decide)).2.2.1.mpr
      ⟨rfl, rfl, rfl⟩⟩

/-- C16: for every size other than 9 and 16 (block-size lookup 0) `SetupCheckers` creates
no block group: `checks_` is the `size` row groups, then the `size` column groups, then in
the DIAGONAL variant the two diagonal groups; the membership list of every cell `(i, j)`
holds its row group `i` and its column group `size + j`, then only diagonal groups. -/
theorem C16_no_blocks (data : SudokuDataType) (size : Nat) (type : SudokuTypes)
    (h9 : size ≠ 9) (h16 : size ≠ 16) :
    Sudoku.blocksizes size = 0 ∧
    (Sudoku.built data size type).checks_ =
      (List.range size).map (fun i => ⟨(List.range size).map (fun k => (i, k))⟩) ++
      (List.range size).map (fun j => ⟨(List.range size).map (fun k => (k, j))⟩) ++
      (if type = .DIAGONAL then
        [⟨(List.range size).map (fun k => (k, k))⟩,
         ⟨(List.range size).map (fun k => (k, size - 1 - k))⟩]
       else []) ∧
    (∀ i j, i < size → j < size →
      (Sudoku.built data size type).mapping i j =
        [i, size + j] ++
        (if type = .DIAGONAL then
          (if i = j then [2 * size] else []) ++ (if i + j = size - 1 then [2 * size + 1] else [])
         else [])) := by
  have hb : Sudoku.blocksizes size = 0 := by simp [Sudoku.blocksizes, h9, h16]
  refine ⟨hb, ?_, ?_⟩
  · rw [built_checks]
    unfold allGroups
    rw [hb]
    cases type
    · simp [blockGroups, diagGroups, rowCells, colCells]
    · simp [blockGroups, diagGroups, rowCells, colCells, diagCells, antiCells]
  · intro i j hi hj
    rw [built_mapping data size type hi hj]
    unfold membership diagMembership
    rw [hb]
    have hc : (j = size - 1 - i) ↔ (i + j = size - 1) := by omega
    cases type
    · simp [hi, hj]
    · simp [hi, hj, hc]

theorem C16_no_blocks_witness :
    4 ≠ 9 ∧ 4 ≠ 16 ∧ (Sudoku.built [] 4 .DIAGONAL).mapping 1 2 = [1, 6, 9] :=
  ⟨by decide, by decide,
    (C16_no_blocks [] 4 .DIAGONAL (by decide) (by decide)).2.2 1 2 (by decide) (by decide)⟩

/-- C17: for size 9 or 16, in the DIAGONAL variant the last two entries of `checks_`
(indices `3*size` and `3*size + 1` of `3*size + 2`) are the main-diagonal group, whose cell
at positional index `i` is `(i, i)`, and the anti-diagonal group, whose cell at index `i`
is `(i, size - 1 - i)`; in the BASIC variant `checks_` stops at `3*size` entries and none
of its groups is a diagonal. -/
theorem C17_diagonal_groups (data : SudokuDataType) (size : Nat)
    (hs : size = 9 ∨ size = 16) :
    (Sudoku.built data size .DIAGONAL).checks_.length = 3 * size + 2 ∧
    (∃ g1 g2, (Sudoku.built data size .DIAGONAL).checks_[3 * size]? = some g1 ∧
      (Sudoku.built data size .DIAGONAL).checks_[3 * size + 1]? = some g2 ∧
      g1.elems_.length = size ∧ g2.elems_.length = size ∧
      ∀ i, i < size → g1.elems_[i]? = some (i, i) ∧ g2.elems_[i]? = some (i, size - 1 - i)) ∧
    (Sudoku.built data size .BASIC).checks_.length = 3 * size ∧
    (∀ grp, grp ∈ (Sudoku.built data size .BASIC).checks_ →
      grp.elems_ ≠ (List.range size).map (fun i => (i, i)) ∧
      grp.elems_ ≠ (List.range size).map (fun i => (i, size - 1 - i))) := by
  obtain ⟨_, hsq, hb0⟩ := blocksizes_supported hs
  have e3 : 3 * size = 2 * size + Sudoku.blocksizes size * Sudoku.blocksizes size := by
    rw [hsq]; omega
  have h2 : 2 ≤ size := by rcases hs with rfl | rfl <;> decide
  refine ⟨?_, ?_, ?_, ?_⟩
  · rw [built_checks, length_allGroups, hsq]; simp; omega
  · refine ⟨⟨diagCells size⟩, ⟨antiCells size⟩, ?_, ?_, by simp [diagCells],
      by simp [antiCells], fun i hi => ?_⟩
    · rw [built_checks, e3]; exact (allGroups_diag size).1
    · rw [built_checks, e3]; exact (allGroups_diag size).2
    · simp [diagCells, antiCells, List.getElem?_range hi]
  · rw [built_checks, length_allGroups, hsq]; simp; omega
  · intro grp hgrp
    rw [built_checks] at hgrp
    obtain ⟨g, hg⟩ := List.mem_iff_getElem?.mp hgrp
    have hd : ∀ x y, (x, y) ∈ (List.range size).map (fun i => (i, i)) → y = x := by
      intro x y h
      exact (mem_diagCells.mp h).2
    have ha : ∀ x y, (x, y) ∈ (List.range size).map (fun i => (i, size - 1 - i)) →
        y = size - 1 - x := by
      intro x y h
      exact (mem_antiCells.mp h).2
    have key : ∃ x y, (x, y) ∈ grp.elems_ ∧ (x, y + 1) ∈ grp.elems_ ∨
        (x, y) ∈ grp.elems_ ∧ (x + 1, y) ∈ grp.elems_ := by
      rcases allGroups_classify size .BASIC hg with ⟨h1, rfl⟩ | ⟨c, hc1, _, rfl⟩ |
        ⟨k, hk, _, rfl⟩ | ⟨ht, _⟩ | ⟨ht, _⟩
      · exact ⟨g, 0, Or.inl ⟨mem_rowCells.mpr ⟨rfl, by omega⟩,
          mem_rowCells.mpr ⟨rfl, by omega⟩⟩⟩
      · exact ⟨0, c, Or.inr ⟨mem_colCells.mpr ⟨by omega, rfl⟩,
          mem_colCells.mpr ⟨by omega, rfl⟩⟩⟩
      · have hb2 : 2 ≤ Sudoku.blocksizes size := by
          rcases hs with rfl | rfl <;> decide
        refine ⟨Sudoku.blocksizes size * (k / Sudoku.blocksizes size),
          Sudoku.blocksizes size * (k % Sudoku.blocksizes size), Or.inl ⟨?_, ?_⟩⟩
        · rw [mem_blockCells]
          exact ⟨hb0, Nat.mul_div_cancel_left _ hb0, Nat.mul_div_cancel_left _ hb0⟩
        · rw [mem_blockCells]
          refine ⟨hb0, Nat.mul_div_cancel_left _ hb0, ?_⟩
          rw [Nat.mul_add_div hb0, Nat.div_eq_of_lt (by omega), Nat.add_zero]
      · exact absurd ht (by decide)
      · exact absurd ht (by decide)
    obtain ⟨x, y, hxy⟩ := key
    constructor
    · intro he
      rw [he] at hxy
      rcases hxy with ⟨a, b⟩ | ⟨a, b⟩
      · have := hd _ _ a; have := hd _ _ b; omega
      · have := hd _ _ a; have := hd _ _ b; omega
    · intro he
      rw [he] at hxy
      rcases hxy with ⟨a, b⟩ | ⟨a, b⟩
      · have := ha _ _ a; have := ha _ _ b; omega
      · have h1 := ha _ _ a
        have h2' := ha _ _ b
        have hx := (mem_antiCells.mp b).1
        omega

theorem C17_diagonal_groups_witness :
    (9 = 9 ∨ 9 = 16) ∧ (Sudoku.built [] 9 .DIAGONAL).checks_.length = 3 * 9 + 2 :=
  ⟨Or.inl rfl, (C17_diagonal_groups [] 9 (Or.inl rfl)).1⟩

/-! ## The reserved capacity -/

theorem foldl_field {α β : Type} (step : Sudoku → α → Sudoku) (proj : Sudoku → β)
    (h : ∀ s x, proj (step s x) = proj s) (xs : List α) (s : Sudoku) :
    proj (xs.foldl step s) = proj s := by
  induction xs generalizing s with
  | nil => rfl
  | cons x xs ih => rw [List.foldl_cons, ih, h]

/-- The capacity reserved for `checks_` by the constructors, in `unsigned` arithmetic. -/
theorem built_reserved (data : SudokuDataType) (size : Nat) (type : SudokuTypes) :
    (Sudoku.built data size type).checks_reserved =
      if type = .DIAGONAL then (3 * size + 2) % 2 ^ 32 else (3 * size) % 2 ^ 32 := by
  have hblk : ∀ (b : Nat) (s : Sudoku),
      ((List.range b).foldl (fun s i => (List.range b).foldl (Sudoku.setupBlock b i) s) s).checks_reserved
        = s.checks_reserved := fun b s =>
    foldl_field _ Sudoku.checks_reserved
      (fun s i => foldl_field (Sudoku.setupBlock b i) Sudoku.checks_reserved (fun _ _ => rfl) _ s)
      _ s
  have hcol : ∀ (s : Sudoku),
      ((List.range size).foldl (Sudoku.setupCol size) s).checks_reserved = s.checks_reserved :=
    fun s => foldl_field (Sudoku.setupCol size) Sudoku.checks_reserved (fun _ _ => rfl) _ s
  have hrow : ∀ (s : Sudoku),
      ((List.range size).foldl (Sudoku.setupRow size) s).checks_reserved = s.checks_reserved :=
    fun s => foldl_field (Sudoku.setupRow size) Sudoku.checks_reserved (fun _ _ => rfl) _ s
  unfold Sudoku.built Sudoku.SetupCheckers
  cases type
  · simp only [hblk, hcol, hrow]
    simp [Sudoku.reserveChecks, Sudoku.init]
  · have hd : ∀ s : Sudoku, (Sudoku.setupDiagonals size s).checks_reserved = s.checks_reserved :=
      fun _ => rfl
    simp only [hd, hblk, hcol, hrow]
    simp [Sudoku.reserveChecks, Sudoku.init]

/-- A grid whose tables can be allocated has `3 * size + 2` within `unsigned`. -/
theorem Allocatable_unsigned {size : Nat} (h : Allocatable size) :
    3 * size + 2 ≤ UINT_MAX := by
  unfold Allocatable at h
  have hu : UINT_MAX = 2 ^ 32 - 1 := rfl
  by_contra hc
  have h1 : 1431655765 ≤ size := by rw [hu] at hc; omega
  have h2 := Nat.mul_le_mul h1 h1
  omega

/-- Beyond the sizes that can be allocated the argument of `reserve` wraps: for
`size = 1431655766` the product `3 * size` is 2 in `unsigned` arithmetic. -/
theorem reserve_wraps_beyond_allocation :
    ¬ Allocatable 1431655766 ∧
      (Sudoku.built [] 1431655766 .BASIC).checks_reserved = 2 := by
  refine ⟨by decide, ?_⟩
  rw [built_reserved]
  decide

/-- Each loop body of `SetupCheckers` appends its group to `checks_` and stores the index
of the group it has just appended. -/
theorem setup_steps_append (size : Nat) :
    (∀ (s : Sudoku) (k : Nat),
      (Sudoku.setupRow size s k).checks_ = s.checks_ ++ [⟨rowCells size k⟩] ∧
      (Sudoku.setupRow size s k).row_checks_ = s.row_checks_ ++ [s.checks_.length]) ∧
    (∀ (s : Sudoku) (k : Nat),
      (Sudoku.setupCol size s k).checks_ = s.checks_ ++ [⟨colCells size k⟩] ∧
      (Sudoku.setupCol size s k).col_checks_ = s.col_checks_ ++ [s.checks_.length]) ∧
    (∀ (b i : Nat) (s : Sudoku) (k : Nat),
      (Sudoku.setupBlock b i s k).checks_ = s.checks_ ++ [⟨blockCells b i k⟩]) ∧
    (∀ (s : Sudoku),
      (Sudoku.setupDiagonals size s).checks_ =
        s.checks_ ++ [⟨diagCells size⟩, ⟨antiCells size⟩]) := by
  refine ⟨fun s k => ⟨?_, ?_⟩, fun s k => ⟨?_, ?_⟩, fun b i s k => ?_, fun s => ?_⟩
  · simp [Sudoku.setupRow, foldl_snoc_eq_map, rowCells]
  · simp [Sudoku.setupRow]
  · simp [Sudoku.setupCol, foldl_snoc_eq_map, colCells]
  · simp [Sudoku.setupCol]
  · simp [Sudoku.setupBlock, foldl_snoc2_eq_flatMap, blockCells]
  · simp [Sudoku.setupDiagonals, foldl_pair_snoc, diagCells, antiCells]

/-- The block group of a cell, by its index in `checks_`. -/
theorem allGroups_block_of_cell (size : Nat) (type : SudokuTypes) {i j : Nat}
    (hi : i < Sudoku.blocksizes size * Sudoku.blocksizes size)
    (hj : j < Sudoku.blocksizes size * Sudoku.blocksizes size) :
    (allGroups size type)[2 * size + Sudoku.blocksizes size * (i / Sudoku.blocksizes size)
        + j / Sudoku.blocksizes size]? =
      some ⟨blockCells (Sudoku.blocksizes size) (i / Sudoku.blocksizes size)
        (j / Sudoku.blocksizes size)⟩ := by
  have hb0 : 0 < Sudoku.blocksizes size := by
    rcases Nat.eq_zero_or_pos (Sudoku.blocksizes size) with h | h
    · rw [h] at hi; simp at hi
    · exact h
  have hjb := (Nat.div_lt_iff_lt_mul hb0).mpr hj
  have hk := block_index_lt hi hj
  have e1 : (Sudoku.blocksizes size * (i / Sudoku.blocksizes size) + j / Sudoku.blocksizes size)
      / Sudoku.blocksizes size = i / Sudoku.blocksizes size := by
    rw [Nat.mul_add_div hb0, Nat.div_eq_of_lt hjb, Nat.add_zero]
  have e2 : (Sudoku.blocksizes size * (i / Sudoku.blocksizes size) + j / Sudoku.blocksizes size)
      % Sudoku.blocksizes size = j / Sudoku.blocksizes size := by
    rw [Nat.mul_add_mod, Nat.mod_eq_of_lt hjb]
  have h := allGroups_block size type hk
  rw [e1, e2, ← Nat.add_assoc] at h
  exact h

/-- The groups that the entries of the membership list of a cell designate in `checks_`,
in the order in which the entries were stored. -/
theorem membership_groups (size : Nat) (type : SudokuTypes) {i j : Nat}
    (hi : i < size) (hj : j < size) :
    (membership size type 0 i j).map (fun g => (allGroups size type)[g]?) =
      [some ⟨rowCells size i⟩, some ⟨colCells size j⟩] ++
      (if i < Sudoku.blocksizes size * Sudoku.blocksizes size ∧
          j < Sudoku.blocksizes size * Sudoku.blocksizes size then
        [some ⟨blockCells (Sudoku.blocksizes size) (i / Sudoku.blocksizes size)
          (j / Sudoku.blocksizes size)⟩] else []) ++
      (if type = .DIAGONAL ∧ i = j then [some ⟨diagCells size⟩] else []) ++
      (if type = .DIAGONAL ∧ j = size - 1 - i then [some ⟨antiCells size⟩] else []) := by
  have hd : (diagMembership size type
      (0 + 2 * size + Sudoku.blocksizes size * Sudoku.blocksizes size) i j).map
        (fun g => (allGroups size type)[g]?) =
      (if type = .DIAGONAL ∧ i = j then [some ⟨diagCells size⟩] else []) ++
      (if type = .DIAGONAL ∧ j = size - 1 - i then [some ⟨antiCells size⟩] else []) := by
    cases type with
    | BASIC => simp [diagMembership]
    | DIAGONAL =>
      simp only [diagMembership, hi, true_and, List.map_append, Nat.zero_add]
      congr 1
      · by_cases hij : i = j
        · rw [if_pos hij, if_pos hij, List.map_singleton, (allGroups_diag size).1]
        · rw [if_neg hij, if_neg hij, List.map_nil]
      · by_cases hij : j = size - 1 - i
        · rw [if_pos hij, if_pos hij, List.map_singleton, (allGroups_diag size).2]
        · rw [if_neg hij, if_neg hij, List.map_nil]
  have hm : (((if i < size ∧ j < size then [0 + i] else []) ++
      (if i < size ∧ j < size then [0 + size + j] else [])) ++
      (if i < Sudoku.blocksizes size * Sudoku.blocksizes size ∧
          j < Sudoku.blocksizes size * Sudoku.blocksizes size then
        [0 + 2 * size + Sudoku.blocksizes size * (i / Sudoku.blocksizes size)
          + j / Sudoku.blocksizes size] else [])).map
        (fun g => (allGroups size type)[g]?) =
      [some ⟨rowCells size i⟩, some ⟨colCells size j⟩] ++
      (if i < Sudoku.blocksizes size * Sudoku.blocksizes size ∧
          j < Sudoku.blocksizes size * Sudoku.blocksizes size then
        [some ⟨blockCells (Sudoku.blocksizes size) (i / Sudoku.blocksizes size)
          (j / Sudoku.blocksizes size)⟩] else []) := by
    have hij : i < size ∧ j < size := ⟨hi, hj⟩
    simp only [if_pos hij, List.map_append, List.map_singleton, Nat.zero_add]
    rw [allGroups_row size type hi, allGroups_col size type hj]
    by_cases hb : i < Sudoku.blocksizes size * Sudoku.blocksizes size ∧
        j < Sudoku.blocksizes size * Sudoku.blocksizes size
    · rw [if_pos hb, if_pos hb, List.map_singleton,
        allGroups_block_of_cell size type hb.1 hb.2]
      rfl
    · rw [if_neg hb, if_neg hb, List.map_nil]
      rfl
  unfold membership
  rw [List.map_append, hd, hm]
  simp only [List.append_assoc]

/-- C18: for every size whose `size` by `size` tables can be allocated, as both
constructors do before `SetupCheckers` runs, and for every variant: the capacity reserved
at the start of `SetupCheckers` is `3*size` (BASIC) or `3*size + 2` (DIAGONAL), and the
number of groups appended to `checks_` does not exceed it. Every loop body appends its
group behind the groups already in `checks_` and stores the index of the group it has just
appended. When construction finishes every stored index designates the group that was
appended when the index was stored: `row_checks_[i]` the group of row `i`, `col_checks_[j]`
the group of column `j`, and the entries of `block_mapping_[i][j]`, in the order in which
they were stored, the groups of row `i`, of column `j`, of the block of `(i, j)` and of
the diagonals through `(i, j)`. -/
theorem C18_reserved_capacity (data : SudokuDataType) (size : Nat) (type : SudokuTypes)
    (h : Allocatable size) :
    (Sudoku.built data size type).checks_reserved =
      (if type = .DIAGONAL then 3 * size + 2 else 3 * size) ∧
    (Sudoku.built data size type).checks_.length ≤
      (Sudoku.built data size type).checks_reserved ∧
    (∀ (s : Sudoku) (k : Nat),
      (Sudoku.setupRow size s k).checks_ = s.checks_ ++ [⟨rowCells size k⟩] ∧
      (Sudoku.setupRow size s k).row_checks_ = s.row_checks_ ++ [s.checks_.length]) ∧
    (∀ (s : Sudoku) (k : Nat),
      (Sudoku.setupCol size s k).checks_ = s.checks_ ++ [⟨colCells size k⟩] ∧
      (Sudoku.setupCol size s k).col_checks_ = s.col_checks_ ++ [s.checks_.length]) ∧
    (∀ (b i : Nat) (s : Sudoku) (k : Nat),
      (Sudoku.setupBlock b i s k).checks_ = s.checks_ ++ [⟨blockCells b i k⟩]) ∧
    (∀ (s : Sudoku),
      (Sudoku.setupDiagonals size s).checks_ =
        s.checks_ ++ [⟨diagCells size⟩, ⟨antiCells size⟩]) ∧
    (∀ i, i < size →
      (Sudoku.built data size type).row_checks_[i]? = some i ∧
      (Sudoku.built data size type).checks_[i]? = some ⟨rowCells size i⟩) ∧
    (∀ j, j < size →
      (Sudoku.built data size type).col_checks_[j]? = some (size + j) ∧
      (Sudoku.built data size type).checks_[size + j]? = some ⟨colCells size j⟩) ∧
    (∀ i j, i < size → j < size →
      ((Sudoku.built data size type).mapping i j).map
          (fun g => (Sudoku.built data size type).checks_[g]?) =
        [some ⟨rowCells size i⟩, some ⟨colCells size j⟩] ++
        (if i < Sudoku.blocksizes size * Sudoku.blocksizes size ∧
            j < Sudoku.blocksizes size * Sudoku.blocksizes size then
          [some ⟨blockCells (Sudoku.blocksizes size) (i / Sudoku.blocksizes size)
            (j / Sudoku.blocksizes size)⟩] else []) ++
        (if type = .DIAGONAL ∧ i = j then [some ⟨diagCells size⟩] else []) ++
        (if type = .DIAGONAL ∧ j = size - 1 - i then [some ⟨antiCells size⟩] else [])) := by
  have hmax := Allocatable_unsigned h
  have hu : UINT_MAX = 2 ^ 32 - 1 := rfl
  have hres : (Sudoku.built data size type).checks_reserved =
      (if type = .DIAGONAL then 3 * size + 2 else 3 * size) := by
    rw [built_reserved]
    rw [Nat.mod_eq_of_lt (by omega : 3 * size + 2 < 2 ^ 32),
      Nat.mod_eq_of_lt (by omega : 3 * size < 2 ^ 32)]
  have hlen : (Sudoku.built data size type).checks_.length =
      2 * size + Sudoku.blocksizes size * Sudoku.blocksizes size +
        (if type = .DIAGONAL then 2 else 0) := by
    rw [built_checks, length_allGroups]
  have hbb : Sudoku.blocksizes size * Sudoku.blocksizes size ≤ size := by
    rcases blocksizes_sq size with h0 | h1
    · rw [h0]; omega
    · omega
  obtain ⟨hrow, hcol, hblk, hdia⟩ := setup_steps_append size
  refine ⟨hres, ?_, hrow, hcol, hblk, hdia, ?_, ?_, ?_⟩
  · rw [hres, hlen]
    cases type <;> simp <;> omega
  · intro i hi
    rw [(built_row_col data size type).1, built_checks]
    exact ⟨by simp [hi], allGroups_row size type hi⟩
  · intro j hj
    rw [(built_row_col data size type).2, built_checks]
    exact ⟨by simp [hj], allGroups_col size type hj⟩
  · intro i j hi hj
    rw [built_mapping data size type hi hj, built_checks]
    exact membership_groups size type hi hj

theorem C18_reserved_capacity_witness :
    Allocatable 9 ∧
      (Sudoku.built [] 9 .DIAGONAL).checks_.length ≤
        (Sudoku.built [] 9 .DIAGONAL).checks_reserved :=
  have h : Allocatable 9 := by decide
  ⟨h, (C18_reserved_capacity [] 9 .DIAGONAL h).2.1⟩

/-! ## Changed blocks and changed cells -/

theorem ResetChange_HasChange (s : Sudoku) (hwf : Dims s.Size s.data_) :
    s.ResetChange.HasChange = false := by
  rw [← Bool.not_eq_true, HasChange_iff]
  rintro ⟨i, j, hi, hj, h⟩
  have hsz : s.ResetChange.Size = s.Size := rfl
  rw [hsz] at hi hj
  rw [ResetChange_cell s hwf hi hj] at h
  exact absurd h (by simp [Square.HasChanged, Square.ResetChanged])

/-- C19: for every grid built by `SetupCheckers` over a `size` by `size` array of cells (of
any size, in particular of size at least 1), `ChangedBlocks()` is empty iff `HasChange()`
is false; in particular `ChangedBlocks()` is empty right after `ResetChange()`. -/
theorem C19_ChangedBlocks_empty (data : SudokuDataType) (size : Nat) (type : SudokuTypes)
    (hd : Dims size data) :
    ((Sudoku.built data size type).ChangedBlocks = [] ↔
      (Sudoku.built data size type).HasChange = false) ∧
    (Sudoku.built data size type).ResetChange.ChangedBlocks = [] := by
  have key : ∀ d : SudokuDataType, (Sudoku.built d size type).ChangedBlocks = [] ↔
      (Sudoku.built d size type).HasChange = false := by
    intro d
    have hsz : (Sudoku.built d size type).Size = size := (built_data d size type).2
    rw [← Bool.not_eq_true, HasChange_iff, hsz, List.eq_nil_iff_forall_not_mem]
    constructor
    · rintro h ⟨i, j, hi, hj, hc⟩
      apply h i
      rw [mem_ChangedBlocks, hsz]
      refine ⟨i, hi, j, hj, hc, ?_⟩
      rw [built_mapping d size type hi hj]
      simp [membership, hi, hj]
    · intro h g hg
      rw [mem_ChangedBlocks, hsz] at hg
      obtain ⟨i, hi, j, hj, hc, _⟩ := hg
      exact h ⟨i, j, hi, hj, hc⟩
  refine ⟨key data, ?_⟩
  have hwf : Dims (Sudoku.built data size type).Size (Sudoku.built data size type).data_ := by
    rw [(built_data data size type).1, show (Sudoku.built data size type).Size = size from
      (built_data data size type).2]
    exact hd
  have e0 : (Sudoku.built data size type).ResetChange =
      (Sudoku.built data size type).withData
        (Sudoku.built data size type).ResetChange.data_ := rfl
  have e : (Sudoku.built data size type).ResetChange =
      Sudoku.built (Sudoku.built data size type).ResetChange.data_ size type :=
    e0.trans (built_withData data _ size type)
  rw [e, key, ← e]
  exact ResetChange_HasChange _ hwf

theorem C19_ChangedBlocks_empty_witness :
    Dims 9 exampleRowClash ∧
      (Sudoku.built exampleRowClash 9 .BASIC).ResetChange.ChangedBlocks = [] :=
  have hd : Dims 9 exampleRowClash := ⟨by decide, by decide⟩
  ⟨hd, (C19_ChangedBlocks_empty exampleRowClash 9 .BASIC hd).2⟩

/-! ## Candidate removal -/

theorem Remove_idem (sq : Square) (d : Nat) : (sq.Remove d).Remove d = sq.Remove d := by
  unfold Square.Remove
  by_cases h : sq.IsSet = true ∨ d ∉ sq.candidates
  · simp only [if_pos h]
  · simp only [if_neg h]
    have : d ∉ sq.candidates.filter (fun e => e ≠ d) := by simp
    simp [this]

theorem IsPossible_Remove (sq : Square) (d : Nat) : (sq.Remove d).IsPossible d = false := by
  unfold Square.Remove Square.IsPossible
  by_cases h : sq.IsSet = true ∨ d ∉ sq.candidates
  · rw [if_pos h]
    rcases h with h | h
    · simp [h]
    · simp [h]
  · rw [if_neg h]
    simp [Square.IsSet]

theorem Remove_of_not_possible (sq : Square) (d : Nat) (h : sq.IsPossible d = false) :
    sq.Remove d = sq := by
  unfold Square.Remove
  rw [if_pos]
  unfold Square.IsPossible at h
  by_cases hs : sq.IsSet = true
  · exact Or.inl hs
  · right
    simpa [hs] using h

/-- What `Remove` keeps: the value, the candidacy of every other digit, and no new
candidate. -/
theorem Remove_frame (sq : Square) (d : Nat) :
    (sq.Remove d).value = sq.value ∧ (sq.Remove d).max_value = sq.max_value ∧
    (∀ e, e ≠ d → (e ∈ (sq.Remove d).candidates ↔ e ∈ sq.candidates)) ∧
    (∀ e, e ∈ (sq.Remove d).candidates → e ∈ sq.candidates) := by
  unfold Square.Remove
  by_cases h : sq.IsSet = true ∨ d ∉ sq.candidates
  · rw [if_pos h]
    exact ⟨rfl, rfl, fun _ _ => Iff.rfl, fun _ h => h⟩
  · rw [if_neg h]
    refine ⟨rfl, rfl, fun e he => ?_, fun e he => ?_⟩
    · simp [he]
    · exact (List.mem_filter.mp he).1

/-! ## Positions and pruning in one group -/

theorem at2_foldl_modify2_coords {α : Type} {n : Nat} (f : α → α) (hf : ∀ x, f (f x) = f x)
    (c : Nat → Nat × Nat) (qs : List Nat) (d : List (List α)) (hd : Dims n d) (dflt : α) :
    Dims n (qs.foldl (fun d q => modify2 f (c q).1 (c q).2 d) d) ∧
      ∀ i j, i < n → j < n →
        at2 (qs.foldl (fun d q => modify2 f (c q).1 (c q).2 d) d) i j dflt =
          if ∃ q, q ∈ qs ∧ c q = (i, j) then f (at2 d i j dflt) else at2 d i j dflt := by
  induction qs generalizing d with
  | nil => exact ⟨hd, fun i j _ _ => by simp⟩
  | cons q qs ih =>
    obtain ⟨h1, h2⟩ := ih (modify2 f (c q).1 (c q).2 d) (Dims_modify2 hd f _ _)
    refine ⟨h1, fun i j hi hj => ?_⟩
    rw [List.foldl_cons, h2 i j hi hj, at2_modify2 hd f _ _ hi hj]
    by_cases hq : c q = (i, j)
    · have hq2 : (c q).1 = i ∧ (c q).2 = j := by rw [hq]; exact ⟨rfl, rfl⟩
      have hex : ∃ q2, q2 ∈ q :: qs ∧ c q2 = (i, j) := ⟨q, List.mem_cons_self _ _, hq⟩
      rw [if_pos hq2, if_pos hex]
      by_cases hrest : ∃ q2, q2 ∈ qs ∧ c q2 = (i, j)
      · rw [if_pos hrest, hf]
      · rw [if_neg hrest]
    · have hq2 : ¬ ((c q).1 = i ∧ (c q).2 = j) := by
        rintro ⟨a, b⟩
        exact hq (Prod.ext a b)
      rw [if_neg hq2]
      by_cases hrest : ∃ q2, q2 ∈ qs ∧ c q2 = (i, j)
      · have hex : ∃ q2, q2 ∈ q :: qs ∧ c q2 = (i, j) := by
          obtain ⟨q2, a, b⟩ := hrest
          exact ⟨q2, List.mem_cons_of_mem _ a, b⟩
        rw [if_pos hrest, if_pos hex]
      · have hex : ¬ ∃ q2, q2 ∈ q :: qs ∧ c q2 = (i, j) := by
          rintro ⟨q2, a, b⟩
          rcases List.mem_cons.mp a with rfl | a'
          · exact hq b
          · exact hrest ⟨q2, a', b⟩
        rw [if_neg hrest, if_neg hex]

theorem foldl_ite_eq_filter {α β : Type} (p : α → Bool) (g : β → α → β) (xs : List α) (b : β) :
    xs.foldl (fun b x => if p x = true then b else g b x) b =
      (xs.filter (fun x => !p x)).foldl g b := by
  induction xs generalizing b with
  | nil => rfl
  | cons x xs ih =>
    rw [List.foldl_cons, ih]
    by_cases h : p x = true
    · simp [h]
    · simp [h]

/-- The cells of the grid after `Prune` on any group. -/
theorem Prune_cells {n : Nat} (d : SudokuDataType) (hd : Dims n d) (b : BlockChecker)
    (number : Nat) (keep : List Nat) :
    Dims n (b.Prune d number keep) ∧
      ∀ i j, i < n → j < n →
        at2 (b.Prune d number keep) i j default =
          if ∃ q, q < b.elems_.length ∧ q ∉ keep ∧ b.elems_.getD q (0, 0) = (i, j)
          then (at2 d i j default).Remove number else at2 d i j default := by
  have e : b.Prune d number keep =
      ((List.range b.elems_.length).filter (fun q => !decide (q ∈ keep))).foldl
        (fun d q => modify2 (fun sq => sq.Remove number)
          (b.elems_.getD q (0, 0)).1 (b.elems_.getD q (0, 0)).2 d) d := by
    unfold BlockChecker.Prune
    rw [← foldl_ite_eq_filter (fun q => decide (q ∈ keep))]
    congr 1
    funext d q
    by_cases h : q ∈ keep <;> simp [h]
  rw [e]
  obtain ⟨h1, h2⟩ := at2_foldl_modify2_coords (fun sq : Square => sq.Remove number)
    (fun sq => Remove_idem sq number) (fun q => b.elems_.getD q (0, 0)) _ d hd default
  refine ⟨h1, fun i j hi hj => ?_⟩
  rw [h2 i j hi hj]
  have hiff : (∃ q, q ∈ (List.range b.elems_.length).filter (fun q => !decide (q ∈ keep)) ∧
      b.elems_.getD q (0, 0) = (i, j)) ↔
      (∃ q, q < b.elems_.length ∧ q ∉ keep ∧ b.elems_.getD q (0, 0) = (i, j)) := by
    constructor
    · rintro ⟨q, hq, hc⟩
      rw [List.mem_filter, List.mem_range] at hq
      exact ⟨q, hq.1, by simpa using hq.2, hc⟩
    · rintro ⟨q, hq, hk, hc⟩
      exact ⟨q, by rw [List.mem_filter, List.mem_range]; exact ⟨hq, by simpa using hk⟩, hc⟩
  by_cases h : ∃ q, q < b.elems_.length ∧ q ∉ keep ∧ b.elems_.getD q (0, 0) = (i, j)
  · rw [if_pos h, if_pos (hiff.mpr h)]
  · rw [if_neg h, if_neg (fun h2 => h (hiff.mp h2))]

/-- The set of positions after `NumberPositions` on any group. -/
theorem NumberPositions_spec (d : SudokuDataType) (b : BlockChecker) (number : Nat)
    (out : List Nat) :
    (∀ p, p ∈ b.NumberPositions d number out ↔
      p ∈ out ∨ (p < b.elems_.length ∧
        live d number (b.elems_.getD p (0, 0)).1 (b.elems_.getD p (0, 0)).2 = true)) ∧
    (out.Nodup → (b.NumberPositions d number out).Nodup) ∧
    out.length ≤ (b.NumberPositions d number out).length := by
  unfold BlockChecker.NumberPositions live
  generalize b.elems_.length = m
  induction m with
  | zero => simp
  | succ m ih =>
    rw [List.range_succ, List.foldl_append]
    simp only [List.foldl_cons, List.foldl_nil]
    obtain ⟨h1, h2, h3⟩ := ih
    by_cases hp : (at2 d (b.elems_.getD m (0, 0)).1 (b.elems_.getD m (0, 0)).2
        default).IsPossible number = true
    · rw [if_pos hp]
      refine ⟨fun p => ?_, fun hn => (h2 hn).insert, ?_⟩
      · rw [List.mem_insert_iff, h1]
        constructor
        · rintro (rfl | h | ⟨h, h'⟩)
          · exact Or.inr ⟨Nat.lt_succ_self _, hp⟩
          · exact Or.inl h
          · exact Or.inr ⟨Nat.lt_succ_of_lt h, h'⟩
        · rintro (h | ⟨h, h'⟩)
          · exact Or.inr (Or.inl h)
          · rcases Nat.lt_succ_iff_lt_or_eq.mp h with h2 | h2
            · exact Or.inr (Or.inr ⟨h2, h'⟩)
            · exact Or.inl h2
      · refine Nat.le_trans h3 ?_
        by_cases hm : m ∈ List.foldl (fun out p =>
            if (at2 d (b.elems_.getD p (0, 0)).1 (b.elems_.getD p (0, 0)).2
              default).IsPossible number = true then List.insert p out else out) out
              (List.range m)
        · rw [List.insert_of_mem hm]
        · rw [List.length_insert_of_not_mem hm]; exact Nat.le_succ _
    · rw [if_neg hp]
      refine ⟨fun p => ?_, h2, h3⟩
      rw [h1]
      constructor
      · rintro (h | ⟨h, h'⟩)
        · exact Or.inl h
        · exact Or.inr ⟨Nat.lt_succ_of_lt h, h'⟩
      · rintro (h | ⟨h, h'⟩)
        · exact Or.inl h
        · rcases Nat.lt_succ_iff_lt_or_eq.mp h with h2 | h2
          · exact Or.inr ⟨h2, h'⟩
          · subst h2; exact absurd h' hp

/-! ## Frame of the swordfish technique -/

theorem Pruned_refl {n : Nat} (number : Nat) (d : SudokuDataType) (hd : Dims n d) :
    Pruned n number d d :=
  ⟨hd, fun _ _ _ _ => Or.inl rfl⟩

theorem Pruned_trans {n number : Nat} {d d2 d3 : SudokuDataType}
    (h1 : Pruned n number d d2) (h2 : Pruned n number d2 d3) : Pruned n number d d3 := by
  refine ⟨h2.1, fun i j hi hj => ?_⟩
  rcases h2.2 i j hi hj with a | a <;> rcases h1.2 i j hi hj with b | b
  · left; rw [a, b]
  · right; rw [a, b]
  · right; rw [a, b]
  · right; rw [a, b, Remove_idem]

theorem Pruned_foldl {n number : Nat} {α : Type} (step : SudokuDataType → α → SudokuDataType)
    (hstep : ∀ d x, Dims n d → Pruned n number d (step d x))
    (xs : List α) (d : SudokuDataType) (hd : Dims n d) :
    Pruned n number d (xs.foldl step d) := by
  induction xs generalizing d with
  | nil => exact Pruned_refl number d hd
  | cons x xs ih =>
    have h1 := hstep d x hd
    exact Pruned_trans h1 (ih _ h1.1)

theorem Pruned_Prune {n : Nat} (d : SudokuDataType) (hd : Dims n d) (b : BlockChecker)
    (number : Nat) (keep : List Nat) : Pruned n number d (b.Prune d number keep) := by
  obtain ⟨h1, h2⟩ := Prune_cells d hd b number keep
  refine ⟨h1, fun i j hi hj => ?_⟩
  rw [h2 i j hi hj]
  split
  · exact Or.inr rfl
  · exact Or.inl rfl

theorem Pruned_applyHit {n : Nat} (blocks ortho : List BlockChecker) (number : Nat)
    (d : SudokuDataType) (hd : Dims n d) (v : List Nat) :
    Pruned n number d (applyHit blocks ortho number d v) := by
  unfold applyHit
  exact Pruned_foldl _ (fun d r hd => Pruned_Prune d hd _ number v) _ d hd

theorem Pruned_swordfishPass {n : Nat} (blocks ortho : List BlockChecker) (size number : Nat)
    (d : SudokuDataType) (hd : Dims n d) :
    Pruned n number d (swordfishPass blocks ortho size number d) := by
  unfold swordfishPass
  exact Pruned_foldl _ (fun d v hd => Pruned_applyHit blocks ortho number d hd v) _ d hd

/-- C20 (frame and monotonicity): for every grid (a `Size()` by `Size()` array of cells),
`comboSize` and digit `d`, `SolveSwordFish(comboSize, d)` changes no cell's value, changes
no cell's candidacy for a digit other than `d`, and adds no candidate: the candidates of
every cell after the call are among its candidates before the call. -/
theorem C20_SolveSwordFish_frame (s : Sudoku) (comboSize d : Nat)
    (hwf : Dims s.Size s.data_) :
    ∀ i j, i < s.Size → j < s.Size →
      ((s.SolveSwordFish comboSize d).cell i j).value = (s.cell i j).value ∧
      (∀ e, e ≠ d → (e ∈ ((s.SolveSwordFish comboSize d).cell i j).candidates ↔
        e ∈ (s.cell i j).candidates)) ∧
      (∀ e, e ∈ ((s.SolveSwordFish comboSize d).cell i j).candidates →
        e ∈ (s.cell i j).candidates) := by
  intro i j hi hj
  have h1 := Pruned_swordfishPass s.GetColBlocks s.GetRowBlocks comboSize d s.data_ hwf
  have h2 := Pruned_swordfishPass s.GetRowBlocks s.GetColBlocks comboSize d _ h1.1
  have h := (Pruned_trans h1 h2).2 i j hi hj
  have hc : (s.SolveSwordFish comboSize d).cell i j =
      at2 (swordfishPass s.GetRowBlocks s.GetColBlocks comboSize d
        (swordfishPass s.GetColBlocks s.GetRowBlocks comboSize d s.data_)) i j default := rfl
  rw [hc]
  unfold Sudoku.cell
  rcases h with h | h
  · rw [h]
    exact ⟨rfl, fun _ _ => Iff.rfl, fun _ h => h⟩
  · rw [h]
    obtain ⟨a, _, b, c⟩ := Remove_frame (at2 s.data_ i j default) d
    exact ⟨a, b, c⟩

theorem C20_SolveSwordFish_frame_witness :
    Dims (Sudoku.built exampleFish 9 .BASIC).Size (Sudoku.built exampleFish 9 .BASIC).data_ ∧
    (((Sudoku.built exampleFish 9 .BASIC).SolveSwordFish 2 1).cell 0 5).value =
      ((Sudoku.built exampleFish 9 .BASIC).cell 0 5).value :=
  have hwf : Dims (Sudoku.built exampleFish 9 .BASIC).Size
      (Sudoku.built exampleFish 9 .BASIC).data_ := ⟨by decide, by decide⟩
  ⟨hwf, (C20_SolveSwordFish_frame (Sudoku.built exampleFish 9 .BASIC) 2 1 hwf 0 5
    (by decide) (by decide)).1⟩

/-! ## The row and column views of a constructed grid -/

theorem built_GetColBlocks (data : SudokuDataType) (size : Nat) (type : SudokuTypes) :
    (Sudoku.built data size type).GetColBlocks =
      (List.range size).map (fun j => ⟨colCells size j⟩) := by
  unfold Sudoku.GetColBlocks
  rw [(built_row_col data size type).2, built_checks, List.map_map]
  refine List.map_congr_left (fun j hj => ?_)
  simp only [Function.comp]
  rw [List.getD_eq_getElem?_getD, allGroups_col size type (List.mem_range.mp hj)]
  rfl

theorem built_GetRowBlocks (data : SudokuDataType) (size : Nat) (type : SudokuTypes) :
    (Sudoku.built data size type).GetRowBlocks =
      (List.range size).map (fun i => ⟨rowCells size i⟩) := by
  unfold Sudoku.GetRowBlocks
  rw [(built_row_col data size type).1]
  refine List.map_congr_left (fun i hi => ?_)
  rw [built_checks, List.getD_eq_getElem?_getD, allGroups_row size type (List.mem_range.mp hi)]
  rfl

theorem colBlock_getD (size x : Nat) :
    ((List.range size).map (fun j => (⟨colCells size j⟩ : BlockChecker))).getD x ⟨[]⟩ =
      if x < size then ⟨colCells size x⟩ else ⟨[]⟩ := by
  rw [List.getD_eq_getElem?_getD, List.getElem?_map]
  by_cases h : x < size
  · rw [List.getElem?_range h, if_pos h]; rfl
  · rw [List.getElem?_eq_none (by simpa using h), if_neg h]; rfl

theorem rowBlock_getD (size x : Nat) :
    ((List.range size).map (fun i => (⟨rowCells size i⟩ : BlockChecker))).getD x ⟨[]⟩ =
      if x < size then ⟨rowCells size x⟩ else ⟨[]⟩ := by
  rw [List.getD_eq_getElem?_getD, List.getElem?_map]
  by_cases h : x < size
  · rw [List.getElem?_range h, if_pos h]; rfl
  · rw [List.getElem?_eq_none (by simpa using h), if_neg h]; rfl

theorem colCells_getD (size x p : Nat) (hp : p < size) :
    (colCells size x).getD p (0, 0) = (p, x) := by
  simp [colCells, List.getD_eq_getElem?_getD, List.getElem?_range hp]

theorem rowCells_getD (size x p : Nat) (hp : p < size) :
    (rowCells size x).getD p (0, 0) = (x, p) := by
  simp [rowCells, List.getD_eq_getElem?_getD, List.getElem?_range hp]

/-! ## Searches that record nothing -/

theorem NumberPositions_col (n : Nat) (d : SudokuDataType) (number x : Nat) (out : List Nat) :
    (∀ p, p ∈ ((colGroups n).getD x ⟨[]⟩).NumberPositions d number out ↔
      p ∈ out ∨ (x < n ∧ p < n ∧ live d number p x = true)) := by
  intro p
  rw [(NumberPositions_spec d _ number out).1]
  unfold colGroups
  rw [colBlock_getD]
  by_cases hx : x < n
  · rw [if_pos hx]
    have hl : (colCells n x).length = n := by simp [colCells]
    simp only [hl]
    constructor
    · rintro (h | ⟨hp, h⟩)
      · exact Or.inl h
      · rw [colCells_getD n x p hp] at h
        exact Or.inr ⟨hx, hp, h⟩
    · rintro (h | ⟨_, hp, h⟩)
      · exact Or.inl h
      · right
        rw [colCells_getD n x p hp]
        exact ⟨hp, h⟩
  · rw [if_neg hx]
    simp [hx]

theorem hitRows_spec (n : Nat) (d : SudokuDataType) (number : Nat) (v out : List Nat) :
    (∀ r, r ∈ hitRows n d number v out ↔
      r ∈ out ∨ ∃ x, x ∈ v ∧ x < n ∧ r < n ∧ live d number r x = true) ∧
    (out.Nodup → (hitRows n d number v out).Nodup) ∧
    out.length ≤ (hitRows n d number v out).length := by
  unfold hitRows
  induction v generalizing out with
  | nil => simp
  | cons x v ih =>
    rw [List.foldl_cons]
    obtain ⟨h1, h2, h3⟩ := ih (((colGroups n).getD x ⟨[]⟩).NumberPositions d number out)
    obtain ⟨_, g2, g3⟩ := NumberPositions_spec d ((colGroups n).getD x ⟨[]⟩) number out
    have g1 := NumberPositions_col n d number x out
    refine ⟨fun r => ?_, fun hn => h2 (g2 hn), Nat.le_trans g3 h3⟩
    rw [h1, g1]
    constructor
    · rintro ((h | ⟨a, b, c⟩) | ⟨y, hy, a, b, c⟩)
      · exact Or.inl h
      · exact Or.inr ⟨x, List.mem_cons_self _ _, a, b, c⟩
      · exact Or.inr ⟨y, List.mem_cons_of_mem _ hy, a, b, c⟩
    · rintro (h | ⟨y, hy, a, b, c⟩)
      · exact Or.inl (Or.inl h)
      · rcases List.mem_cons.mp hy with rfl | hy'
        · exact Or.inl (Or.inr ⟨a, b, c⟩)
        · exact Or.inr ⟨y, hy', a, b, c⟩

/-- The cells after `Prune(number, keep)` on the row group `r`. -/
theorem Prune_row {n : Nat} (d : SudokuDataType) (hd : Dims n d) (number r : Nat)
    (keep : List Nat) :
    Dims n (((rowGroups n).getD r ⟨[]⟩).Prune d number keep) ∧
      ∀ i j, i < n → j < n →
        at2 (((rowGroups n).getD r ⟨[]⟩).Prune d number keep) i j default =
          if i = r ∧ j ∉ keep then (at2 d i j default).Remove number
          else at2 d i j default := by
  obtain ⟨h1, h2⟩ := Prune_cells d hd ((rowGroups n).getD r ⟨[]⟩) number keep
  refine ⟨h1, fun i j hi hj => ?_⟩
  rw [h2 i j hi hj]
  have hiff : (∃ q, q < ((rowGroups n).getD r ⟨[]⟩).elems_.length ∧ q ∉ keep ∧
      ((rowGroups n).getD r ⟨[]⟩).elems_.getD q (0, 0) = (i, j)) ↔ (i = r ∧ j ∉ keep) := by
    unfold rowGroups
    rw [rowBlock_getD]
    by_cases hr : r < n
    · rw [if_pos hr]
      have hl : (rowCells n r).length = n := by simp [rowCells]
      simp only [hl]
      constructor
      · rintro ⟨q, hq, hk, hc⟩
        rw [rowCells_getD n r q hq] at hc
        have := Prod.mk.inj hc
        rw [← this.1, ← this.2]
        exact ⟨rfl, hk⟩
      · rintro ⟨rfl, hk⟩
        exact ⟨j, hj, hk, rowCells_getD n i j hj⟩
    · rw [if_neg hr]
      constructor
      · rintro ⟨q, hq, _⟩
        simp at hq
      · rintro ⟨rfl, _⟩
        exact absurd hi hr
  by_cases h : i = r ∧ j ∉ keep
  · rw [if_pos h, if_pos (hiff.mpr h)]
  · rw [if_neg h, if_neg (fun h2 => h (hiff.mp h2))]

theorem Prune_rows {n : Nat} (number : Nat) (keep rs : List Nat) (d : SudokuDataType)
    (hd : Dims n d) :
    Dims n (rs.foldl (fun d r => ((rowGroups n).getD r ⟨[]⟩).Prune d number keep) d) ∧
      ∀ i j, i < n → j < n →
        at2 (rs.foldl (fun d r => ((rowGroups n).getD r ⟨[]⟩).Prune d number keep) d)
            i j default =
          if i ∈ rs ∧ j ∉ keep then (at2 d i j default).Remove number
          else at2 d i j default := by
  induction rs generalizing d with
  | nil => exact ⟨hd, fun i j _ _ => by simp⟩
  | cons r rs ih =>
    obtain ⟨p1, p2⟩ := Prune_row d hd number r keep
    obtain ⟨h1, h2⟩ := ih _ p1
    refine ⟨h1, fun i j hi hj => ?_⟩
    rw [List.foldl_cons, h2 i j hi hj, p2 i j hi hj]
    by_cases hk : j ∈ keep
    · simp [hk]
    · by_cases hir : i = r
      · subst hir
        by_cases him : i ∈ rs <;> simp [hk, him, Remove_idem]
      · by_cases him : i ∈ rs <;> simp [hk, him, hir]

/-- The cells after one hit `v` of the column search has been processed. -/
theorem applyHit_cols {n : Nat} (number : Nat) (v : List Nat) (d : SudokuDataType)
    (hd : Dims n d) :
    Dims n (applyHit (colGroups n) (rowGroups n) number d v) ∧
      ∀ i j, i < n → j < n →
        at2 (applyHit (colGroups n) (rowGroups n) number d v) i j default =
          if i ∈ hitRows n d number v [] ∧ j ∉ v then (at2 d i j default).Remove number
          else at2 d i j default :=
  Prune_rows number v (hitRows n d number v []) d hd

/-! ## Processing several hits -/

theorem unionFrom_length (data : SudokuDataType) (blocks : List BlockChecker) (number : Nat)
    (u w : List Nat) : u.length ≤ (unionFrom data blocks number u w).length := by
  unfold unionFrom
  induction w generalizing u with
  | nil => exact Nat.le_refl _
  | cons i w ih =>
    rw [List.foldl_cons]
    exact Nat.le_trans (NumberPositions_spec data _ number u).2.2 (ih _)

/-- The search records exactly the ascending combinations whose union of positions has
`comboSize` elements, in lexicographic order. -/
theorem swordfishSearch_eq (data : SudokuDataType) (blocks : List BlockChecker)
    (comboSize number : Nat) (m start : Nat) (chosen u : List Nat) :
    swordfishSearch data blocks comboSize number m start chosen u =
      ((combos blocks.length m start).filter (fun w =>
        decide ((unionFrom data blocks number u w).length = comboSize))).map
          (fun w => chosen ++ w) := by
  induction m generalizing start chosen u with
  | zero =>
    unfold swordfishSearch combos
    by_cases h : u.length = comboSize
    · simp [unionFrom, h]
    · simp [unionFrom, h]
  | succ m ih =>
    unfold swordfishSearch combos
    rw [List.filter_flatMap, List.map_flatMap]
    refine flatMap_congr_mem _ _ _ (fun i _ => ?_)
    rw [List.filter_map, List.map_map]
    have hcomp : ((fun w => decide ((unionFrom data blocks number u w).length = comboSize)) ∘
        fun w => i :: w) = fun w => decide ((unionFrom data blocks number
          ((blocks.getD i ⟨[]⟩).NumberPositions data number u) w).length = comboSize) := by
      funext w
      simp [unionFrom]
    have hmap : ((fun w => chosen ++ w) ∘ fun w => i :: w) = fun w => (chosen ++ [i]) ++ w := by
      funext w
      simp
    rw [hcomp, hmap]
    split
    · rename_i hgt
      have : (combos blocks.length m (i + 1)).filter (fun w => decide ((unionFrom data blocks
          number ((blocks.getD i ⟨[]⟩).NumberPositions data number u) w).length = comboSize))
          = [] := by
        rw [List.filter_eq_nil_iff]
        intro w _ hw
        have h1 := unionFrom_length data blocks number
          ((blocks.getD i ⟨[]⟩).NumberPositions data number u) w
        have h2 : (unionFrom data blocks number
          ((blocks.getD i ⟨[]⟩).NumberPositions data number u) w).length = comboSize := by
          simpa using hw
        omega
      rw [this]
      rfl
    · exact ih (i + 1) (chosen ++ [i]) _

theorem recursive_swordfish_find_eq (data : SudokuDataType) (blocks : List BlockChecker)
    (comboSize number : Nat) :
    recursive_swordfish_find data blocks comboSize number =
      (combos blocks.length comboSize 0).filter (fun w =>
        decide ((unionFrom data blocks number [] w).length = comboSize)) := by
  unfold recursive_swordfish_find
  rw [swordfishSearch_eq]
  simp

theorem nodup_combos (n m start : Nat) : (combos n m start).Nodup := by
  induction m generalizing start with
  | zero => simp [combos]
  | succ m ih =>
    unfold combos
    rw [List.nodup_flatMap]
    refine ⟨fun i _ => (ih (i + 1)).map (fun a b h => (List.cons.inj h).2), ?_⟩
    refine (nodup_loopRange _ _).pairwise_of_forall_ne ?_
    intro a _ b _ hab
    simp only [Function.onFun, List.disjoint_left, List.mem_map]
    rintro w ⟨y, _, h1⟩ ⟨z, _, h2⟩
    exact hab ((List.cons.inj (h1.trans h2.symm)).1)

theorem mem_combos_succ {n m start : Nat} {w : List Nat} :
    w ∈ combos n (m + 1) start ↔
      ∃ i rest, w = i :: rest ∧ start ≤ i ∧ i < n ∧ rest ∈ combos n m (i + 1) := by
  rw [combos]
  simp only [List.mem_flatMap, List.mem_map, mem_loopRange]
  constructor
  · rintro ⟨i, ⟨h1, h2⟩, rest, hr, rfl⟩
    exact ⟨i, rest, rfl, h1, h2, hr⟩
  · rintro ⟨i, rest, rfl, h1, h2, hr⟩
    exact ⟨i, ⟨h1, h2⟩, rest, hr, rfl⟩

theorem mem_combos_three {n : Nat} {w : List Nat} :
    w ∈ combos n 3 0 ↔ ∃ a b c, w = [a, b, c] ∧ a < b ∧ b < c ∧ c < n := by
  constructor
  · intro h
    obtain ⟨a, r1, rfl, _, _, h1⟩ := mem_combos_succ.mp h
    obtain ⟨b, r2, rfl, hab, _, h2⟩ := mem_combos_succ.mp h1
    obtain ⟨c, r3, rfl, hbc, hc, h3⟩ := mem_combos_succ.mp h2
    have : r3 = [] := by simpa [combos] using h3
    subst this
    exact ⟨a, b, c, rfl, hab, hbc, hc⟩
  · rintro ⟨a, b, c, rfl, hab, hbc, hc⟩
    refine mem_combos_succ.mpr ⟨a, _, rfl, Nat.zero_le _, by omega, ?_⟩
    refine mem_combos_succ.mpr ⟨b, _, rfl, hab, by omega, ?_⟩
    refine mem_combos_succ.mpr ⟨c, _, rfl, hbc, hc, ?_⟩
    simp [combos]

theorem filter_eq_singleton {α : Type} (p : α → Bool) (l : List α) (a : α) (hl : l.Nodup)
    (ha : a ∈ l) (hpa : p a = true) (huniq : ∀ b, b ∈ l → p b = true → b = a) :
    l.filter p = [a] := by
  induction l with
  | nil => exact absurd ha (List.not_mem_nil _)
  | cons x l ih =>
    rw [List.nodup_cons] at hl
    by_cases hx : x = a
    · subst hx
      rw [List.filter_cons_of_pos hpa]
      congr 1
      rw [List.filter_eq_nil_iff]
      intro b hb hpb
      have := huniq b (List.mem_cons_of_mem _ hb) hpb
      rw [this] at hb
      exact hl.1 hb
    · have hpx : ¬ p x = true := fun h => hx (huniq x (List.mem_cons_self _ _) h)
      rw [List.filter_cons_of_neg hpx]
      have ha2 : a ∈ l := by
        rcases List.mem_cons.mp ha with h | h
        · exact absurd h.symm hx
        · exact h
      exact ih hl.2 ha2 (fun b hb => huniq b (List.mem_cons_of_mem _ hb))

/-! ## Swordfish over three columns -/

theorem hitRows_three_length (n : Nat) (d : SudokuDataType) (number a b c : Nat)
    (ha : a < n) (hb : b < n) (hc : c < n) :
    (hitRows n d number [a, b, c] []).length =
      ((List.range n).filter (fun r =>
        live d number r a || live d number r b || live d number r c)).length := by
  apply List.Perm.length_eq
  rw [List.perm_ext_iff_of_nodup ((hitRows_spec n d number [a, b, c] []).2.1 List.nodup_nil)
    ((List.nodup_range n).filter _)]
  intro r
  rw [(hitRows_spec n d number [a, b, c] []).1, List.mem_filter, List.mem_range]
  simp only [List.not_mem_nil, false_or, List.mem_cons, Bool.or_eq_true]
  constructor
  · rintro ⟨x, hx, _, hr, hl⟩
    rcases hx with rfl | rfl | rfl | hx
    · exact ⟨hr, Or.inl (Or.inl hl)⟩
    · exact ⟨hr, Or.inl (Or.inr hl)⟩
    · exact ⟨hr, Or.inr hl⟩
    · exact absurd hx (by simp)
  · rintro ⟨hr, (hl | hl) | hl⟩
    · exact ⟨a, Or.inl rfl, ha, hr, hl⟩
    · exact ⟨b, Or.inr (Or.inl rfl), hb, hr, hl⟩
    · exact ⟨c, Or.inr (Or.inr (Or.inl rfl)), hc, hr, hl⟩

/-- C12 (swordfish soundness, column pass): on a constructed grid where the live positions
of the digit `number` in the three columns `c1 < c2 < c3` lie in exactly the three distinct
rows `r1`, `r2`, `r3`, and where for no other three columns the rows holding a live position
are exactly three, the column search of `SolveSwordFish(3, number)` records the single hit
`[c1, c2, c3]` and the column pass removes `number` from the candidates of every cell of the
rows `r1`, `r2`, `r3` outside the columns `c1`, `c2`, `c3` (afterwards it is a live
possibility of none of them) and leaves every other cell as it was. -/
theorem C12_swordfish_columns (data : SudokuDataType) (size : Nat) (type : SudokuTypes)
    (number c1 c2 c3 r1 r2 r3 : Nat) (hd : Dims size data)
    (hc : c1 < c2 ∧ c2 < c3 ∧ c3 < size)
    (hr : r1 < size ∧ r2 < size ∧ r3 < size ∧ r1 ≠ r2 ∧ r1 ≠ r3 ∧ r2 ≠ r3)
    (hconf : ∀ r, r < size →
      ((live data number r c1 = true ∨ live data number r c2 = true ∨
        live data number r c3 = true) ↔ (r = r1 ∨ r = r2 ∨ r = r3)))
    (hother : ∀ a b c, a < b → b < c → c < size → (a, b, c) ≠ (c1, c2, c3) →
      ((List.range size).filter (fun r =>
        live data number r a || live data number r b || live data number r c)).length ≠ 3) :
    recursive_swordfish_find (Sudoku.built data size type).data_
      (Sudoku.built data size type).GetColBlocks 3 number = [[c1, c2, c3]] ∧
    (∀ i j, i < size → j < size →
      at2 (swordfishPass (Sudoku.built data size type).GetColBlocks
        (Sudoku.built data size type).GetRowBlocks 3 number
        (Sudoku.built data size type).data_) i j default =
      if (i = r1 ∨ i = r2 ∨ i = r3) ∧ j ≠ c1 ∧ j ≠ c2 ∧ j ≠ c3
      then (at2 data i j default).Remove number else at2 data i j default) ∧
    (∀ i j, i < size → j < size → (i = r1 ∨ i = r2 ∨ i = r3) → j ≠ c1 → j ≠ c2 → j ≠ c3 →
      live (swordfishPass (Sudoku.built data size type).GetColBlocks
        (Sudoku.built data size type).GetRowBlocks 3 number
        (Sudoku.built data size type).data_) number i j = false) := by
  obtain ⟨h12, h23, h3⟩ := hc
  obtain ⟨hr1, hr2, hr3, n12, n13, n23⟩ := hr
  have hdata : (Sudoku.built data size type).data_ = data := (built_data data size type).1
  have hlen : (colGroups size).length = size := by simp [colGroups]
  have hu : ∀ w, unionFrom data (colGroups size) number [] w = hitRows size data number w [] :=
    fun _ => rfl
  have hmain : (hitRows size data number [c1, c2, c3] []).length = 3 := by
    rw [hitRows_three_length size data number c1 c2 c3 (by omega) (by omega) h3]
    have hp : List.Perm ((List.range size).filter (fun r =>
        live data number r c1 || live data number r c2 || live data number r c3))
        [r1, r2, r3] := by
      rw [List.perm_ext_iff_of_nodup ((List.nodup_range size).filter _)
        (by simp [n12, n13, n23])]
      intro r
      rw [List.mem_filter, List.mem_range]
      simp only [Bool.or_eq_true, List.mem_cons, List.not_mem_nil, or_false]
      constructor
      · rintro ⟨hr, h⟩
        exact (hconf r hr).mp (by rcases h with (h | h) | h <;> simp [h])
      · intro h
        have hr : r < size := by rcases h with rfl | rfl | rfl <;> assumption
        refine ⟨hr, ?_⟩
        rcases (hconf r hr).mpr h with h | h | h <;> simp [h]
    rw [hp.length_eq]
    rfl
  have hhits : recursive_swordfish_find data (colGroups size) 3 number = [[c1, c2, c3]] := by
    rw [recursive_swordfish_find_eq, hlen]
    refine filter_eq_singleton _ _ _ (nodup_combos _ _ _)
      (mem_combos_three.mpr ⟨c1, c2, c3, rfl, h12, h23, h3⟩) ?_ ?_
    · rw [hu]
      simpa using hmain
    · intro w hw hpw
      obtain ⟨a, b, c, rfl, hab, hbc, hcn⟩ := mem_combos_three.mp hw
      rw [hu, hitRows_three_length size data number a b c (by omega) (by omega) hcn] at hpw
      by_contra hne
      have hne2 : (a, b, c) ≠ (c1, c2, c3) := by
        intro h
        apply hne
        have h1 := (Prod.mk.inj h).1
        have h2 := (Prod.mk.inj (Prod.mk.inj h).2)
        rw [h1, h2.1, h2.2]
      exact hother a b c hab hbc hcn hne2 (by simpa using hpw)
  have hrows : ∀ i, i < size →
      (i ∈ hitRows size data number [c1, c2, c3] [] ↔ (i = r1 ∨ i = r2 ∨ i = r3)) := by
    intro i hi
    rw [(hitRows_spec size data number [c1, c2, c3] []).1, ← hconf i hi]
    simp only [List.not_mem_nil, false_or, List.mem_cons]
    constructor
    · rintro ⟨x, hx, _, _, hl⟩
      rcases hx with rfl | rfl | rfl | hx
      · exact Or.inl hl
      · exact Or.inr (Or.inl hl)
      · exact Or.inr (Or.inr hl)
      · exact absurd hx (by simp)
    · rintro (hl | hl | hl)
      · exact ⟨c1, Or.inl rfl, by omega, hi, hl⟩
      · exact ⟨c2, Or.inr (Or.inl rfl), by omega, hi, hl⟩
      · exact ⟨c3, Or.inr (Or.inr (Or.inl rfl)), h3, hi, hl⟩
  have hcells : ∀ i j, i < size → j < size →
      at2 (swordfishPass (colGroups size) (rowGroups size) 3 number data) i j default =
      if (i = r1 ∨ i = r2 ∨ i = r3) ∧ j ≠ c1 ∧ j ≠ c2 ∧ j ≠ c3
      then (at2 data i j default).Remove number else at2 data i j default := by
    intro i j hi hj
    unfold swordfishPass
    rw [hhits]
    simp only [List.foldl_cons, List.foldl_nil]
    rw [(applyHit_cols number [c1, c2, c3] data hd).2 i j hi hj]
    have hiff : (i ∈ hitRows size data number [c1, c2, c3] [] ∧ j ∉ [c1, c2, c3]) ↔
        ((i = r1 ∨ i = r2 ∨ i = r3) ∧ j ≠ c1 ∧ j ≠ c2 ∧ j ≠ c3) := by
      rw [hrows i hi]
      simp
    by_cases h : (i = r1 ∨ i = r2 ∨ i = r3) ∧ j ≠ c1 ∧ j ≠ c2 ∧ j ≠ c3
    · rw [if_pos h, if_pos (hiff.mpr h)]
    · rw [if_neg h, if_neg (fun h2 => h (hiff.mp h2))]
  rw [built_GetColBlocks, built_GetRowBlocks, hdata]
  refine ⟨hhits, hcells, fun i j hi hj hrow h1 h2 h3' => ?_⟩
  unfold live
  have := hcells i j hi hj
  unfold colGroups rowGroups at this
  rw [this, if_pos ⟨hrow, h1, h2, h3'⟩]
  exact IsPossible_Remove _ _

set_option maxRecDepth 100000 in
theorem C12_swordfish_columns_witness :
    Dims 9 exampleSwordfish ∧
    recursive_swordfish_find (Sudoku.built exampleSwordfish 9 .BASIC).data_
      (Sudoku.built exampleSwordfish 9 .BASIC).GetColBlocks 3 1 = [[0, 1, 2]] ∧
    live (swordfishPass (Sudoku.built exampleSwordfish 9 .BASIC).GetColBlocks
      (Sudoku.built exampleSwordfish 9 .BASIC).GetRowBlocks 3 1
      (Sudoku.built exampleSwordfish 9 .BASIC).data_) 1 1 5 = false :=
  have hd : Dims 9 exampleSwordfish := ⟨by decide, by decide⟩
  have hconf : ∀ r, r < 9 →
      ((live exampleSwordfish 1 r 0 = true ∨ live exampleSwordfish 1 r 1 = true ∨
        live exampleSwordfish 1 r 2 = true) ↔ (r = 0 ∨ r = 1 ∨ r = 2)) := by decide
  have hother0 : ∀ c, c < 9 → ∀ b, b < c → ∀ a, a < b → (a, b, c) ≠ (0, 1, 2) →
      ((List.range 9).filter (fun r => live exampleSwordfish 1 r a ||
        live exampleSwordfish 1 r b || live exampleSwordfish 1 r c)).length ≠ 3 := by decide
  have h := C12_swordfish_columns exampleSwordfish 9 .BASIC 1 0 1 2 0 1 2 hd
    ⟨by decide, by decide, by decide⟩
    ⟨by decide, by decide, by decide, by decide, by decide, by decide⟩ hconf
    (fun a b c hab hbc hc hne => hother0 c hc b hbc a hab hne)
  ⟨hd, h.1, h.2.2 1 5 (by decide) (by decide) (Or.inr (Or.inl rfl)) (by decide) (by decide)
    (by decide)⟩

end sudoku
